import Mathlib

/-!
# ccw: duration parsing, token cache and quote projection

A shallow embedding of the Go package `ccw` (files `helpers.go`, `ccw.go`,
`quotes.go`).  Go strings are Lean strings, Go `(value, error)` results are
pairs whose second component is `none` for a nil error, and `float64` values
are modelled exactly (see `Float64`).
-/

namespace Ccw

/-! ## Go error values -/

/-- Go `error` values that the embedded code can produce. -/
inductive GoError
  /-- An error built by `errors.New` or `fmt.Errorf`: it carries only its message. -/
  | errorsNew (msg : String)
  /-- A `*strconv.NumError` with fields `Func`, `Num` and the message of `Err`. -/
  | numError (func num err : String)
  /-- A `*json.UnsupportedValueError` with its field `Str`. -/
  | unsupportedValue (str : String)
  /-- An error handed over by a collaborator (transport, JSON or XML decoder). -/
  | external (msg : String)
  /-- A value of the string type `Err` of `errors.go`. -/
  | ccwErr (msg : String)
  /-- An error built by `fmt.Errorf` with `%w`: the text in front and the wrapped error. -/
  | wrap (text : String) (err : GoError)
  deriving DecidableEq, Repr

/-- The method `Error()` of a Go error. -/
def GoError.Error : GoError → String
  | .errorsNew msg => msg
  | .numError func num err => "strconv." ++ func ++ ": parsing \"" ++ num ++ "\": " ++ err
  | .unsupportedValue str => "json: unsupported value: " ++ str
  | .external msg => msg
  | .ccwErr msg => msg
  | .wrap text err => text ++ err.Error

/-! ## `errors.go` -/

/-- Go `ErrBadRequest`. -/
def ErrBadRequest : GoError := .ccwErr "ccw: bad request"

/-- Go `ErrUnauthorized`. -/
def ErrUnauthorized : GoError := .ccwErr "ccw: unauthorized request"

/-- Go `ErrForbidden`. -/
def ErrForbidden : GoError := .ccwErr "ccw: forbidden"

/-- Go `ErrInternalError`. -/
def ErrInternalError : GoError := .ccwErr "ccw: internal error"

/-- Go `ErrUnknown`. -/
def ErrUnknown : GoError := .ccwErr "ccw: unexpected error occurred"

/-- Go `ErrNotFound`. -/
def ErrNotFound : GoError := .ccwErr "ccw: not found"

/-! ## IEEE-754 binary64 -/

/-- A `float64`.  A finite value is its sign and its magnitude counted in units of
`2^-1074` (the smallest subnormal), so every finite double has exactly one
representation and the two zeros are `fin false 0` and `fin true 0`. -/
inductive Float64
  | nan
  | inf (neg : Bool)
  | fin (neg : Bool) (units : Nat)
  deriving DecidableEq, Repr

/-- Number of binary digits of `n`, with `fuel` bounding the number of halvings. -/
def bitLenAux : Nat → Nat → Nat
  | 0, _ => 0
  | fuel + 1, n => if n = 0 then 0 else bitLenAux fuel (n / 2) + 1

/-- Number of binary digits of `n` (`0` for `0`). -/
def bitLen (n : Nat) : Nat := bitLenAux n n

/-- The integer nearest to `a / b`, ties going to the even neighbour. -/
def roundHalfEven (a b : Nat) : Nat :=
  let q := a / b
  let r := a % b
  if 2 * r < b then q
  else if b < 2 * r then q + 1
  else if q % 2 = 0 then q else q + 1

/-- The fraction `a / b` rounded to nearest-even at `p` significant bits, fractions
below `2^p` being rounded to an integer (the subnormal and lowest normal range
when counting in units of the smallest subnormal). -/
def roundToBits (p a b : Nat) : Nat :=
  let q := a / b
  if q < 2 ^ p then roundHalfEven a b
  else
    let sh := bitLen q - p
    roundHalfEven a (b * 2 ^ sh) * 2 ^ sh

namespace Float64

/-- The value `1.0` in units of `2^-1074`. -/
def scale : Nat := 2 ^ 1074

/-- The first magnitude (in units) that no longer fits: `2^1024`. -/
def overflow : Nat := 2 ^ 2098

/-- The double nearest to `a / b` units with sign `neg`, or an infinity on overflow. -/
def round (neg : Bool) (a b : Nat) : Float64 :=
  let r := roundToBits 53 a b
  if overflow ≤ r then inf neg else fin neg r

/-- Conversion of a natural number, as done for the constants `0.0`, `30`, `100`. -/
def ofNat (n : Nat) : Float64 := round false (n * scale) 1

/-- Go `x + y` on `float64`. -/
def add : Float64 → Float64 → Float64
  | nan, _ => nan
  | _, nan => nan
  | inf s, inf t => if s = t then inf s else nan
  | inf s, fin _ _ => inf s
  | fin _ _, inf t => inf t
  | fin s a, fin t b =>
    if s = t then round s (a + b) 1
    else if b < a then round s (a - b) 1
    else if a < b then round t (b - a) 1
    else fin false 0

/-- Go `x * y` on `float64`. -/
def mul : Float64 → Float64 → Float64
  | nan, _ => nan
  | _, nan => nan
  | inf s, inf t => inf (xor s t)
  | inf s, fin t b => if b = 0 then nan else inf (xor s t)
  | fin s a, inf t => if a = 0 then nan else inf (xor s t)
  | fin s a, fin t b => round (xor s t) (a * b) scale

/-- Go `x / y` on `float64`. -/
def div : Float64 → Float64 → Float64
  | nan, _ => nan
  | _, nan => nan
  | inf _, inf _ => nan
  | inf s, fin t _ => inf (xor s t)
  | fin s _, inf t => fin (xor s t) 0
  | fin s a, fin t b =>
    if b = 0 then (if a = 0 then nan else inf (xor s t))
    else round (xor s t) (a * scale) b

/-- Go `math.Round`: the nearest integer, halves going away from zero. -/
def Round : Float64 → Float64
  | nan => nan
  | inf s => inf s
  | fin s a => fin s ((2 * a + scale) / (2 * scale) * scale)

/-- Go `math.IsNaN`. -/
def IsNaN : Float64 → Bool
  | nan => true
  | _ => false

/-- Go `math.IsInf(f, 0)`. -/
def IsInf : Float64 → Bool
  | inf _ => true
  | _ => false

/-- Go `f == 0`: true of both zeros. -/
def isZero : Float64 → Bool
  | fin _ 0 => true
  | _ => false

end Float64

/-- A finite double that is not negative and whose magnitude is at most `2^k`
units of `2^-1074`. -/
def Float64.Below (k : Nat) (x : Float64) : Prop :=
  ∃ u, x = .fin false u ∧ u ≤ 2 ^ k

/-- Whether a value is one that a `float64` holds: a finite magnitude must have at
most 53 significant bits and lie below the overflow threshold, that is,
rounding leaves it as it is. -/
def Float64.isDouble : Float64 → Bool
  | .fin neg n => Float64.round neg n 1 == .fin neg n
  | _ => true

/-! ## `strconv.FormatFloat` -/

/-- Whether the decimal `m * 10^e` rounds to the double of magnitude `n` units. -/
def decimalRoundsTo (n m : Nat) (e : Int) : Bool :=
  if 0 ≤ e then Float64.round false (m * 10 ^ e.toNat * Float64.scale) 1 == Float64.fin false n
  else Float64.round false (m * Float64.scale) (10 ^ (-e).toNat) == Float64.fin false n

/-- Whether `10^e` is at most the magnitude of `n` units. -/
def pow10Le (n : Nat) (e : Int) : Bool :=
  if 0 ≤ e then 10 ^ e.toNat * Float64.scale ≤ n else Float64.scale ≤ n * 10 ^ (-e).toNat

/-- The decimal exponent of a positive double: the largest `e` with `10^e` at most
its magnitude, between `-324` and `308`. -/
def decimalExponent (n : Nat) : Int :=
  match (List.range 633).find? (fun i => pow10Le n (308 - (i : Int))) with
  | some i => 308 - (i : Int)
  | none => -324

/-- Of the neighbours `lo * 10^e` and `(lo + 1) * 10^e` of the value of the double
of magnitude `n` units, the one that rounds to the double, and the nearer one
if both do; a neighbour `10 * 10^e` is written `1 * 10^(e + 1)`. -/
def pickDecimal (n lo : Nat) (e : Int) (loNearer : Bool) : Option (Nat × Int) :=
  let okLo := decimalRoundsTo n lo e
  let okHi := decimalRoundsTo n (lo + 1) e
  if okLo && (loNearer || !okHi) then some (lo, e)
  else if okHi then
    some (if (lo + 1) % 10 = 0 then ((lo + 1) / 10, e + 1) else (lo + 1, e))
  else none

/-- The decimal with `d` significant digits that rounds to the double of magnitude
`n` units, if there is one; `e10` is the decimal exponent of the double. -/
def shortestAt (n : Nat) (e10 : Int) (d : Nat) : Option (Nat × Int) :=
  let e := e10 - (d : Int) + 1
  if 0 ≤ e then
    let lo := n / (10 ^ e.toNat * Float64.scale)
    pickDecimal n lo e (2 * n ≤ (2 * lo + 1) * (10 ^ e.toNat * Float64.scale))
  else
    let lo := n * 10 ^ (-e).toNat / Float64.scale
    pickDecimal n lo e (2 * (n * 10 ^ (-e).toNat) ≤ (2 * lo + 1) * Float64.scale)

/-- The shortest decimal `m * 10^e` that rounds to the double of magnitude `n`
units; seventeen digits always suffice, and the exact value is the fallback. -/
def shortestDecimal (n : Nat) : Nat × Int :=
  if n = 0 then (0, 0)
  else
    match (List.range 17).findSome? (fun i => shortestAt n (decimalExponent n) (i + 1)) with
    | some r => r
    | none => (n * 5 ^ 1074, -1074)

/-- The decimal `m * 10^e` written without exponent. -/
def plainDecimal (m : Nat) (e : Int) : List Char :=
  let ds := Nat.toDigits 10 m
  if 0 ≤ e then (if m = 0 then ds else ds ++ List.replicate e.toNat '0')
  else
    let k := (-e).toNat
    if k < ds.length then ds.take (ds.length - k) ++ '.' :: ds.drop (ds.length - k)
    else '0' :: '.' :: (List.replicate (k - ds.length) '0' ++ ds)

/-- Go `strconv.FormatFloat(f, 'f', prec, 64)`: with `prec = -1` the shortest
decimal that parses back to `f`, otherwise `prec` digits after the point. -/
def FormatFloat (f : Float64) (prec : Int) : String :=
  match f with
  | .nan => "NaN"
  | .inf neg => if neg then "-Inf" else "+Inf"
  | .fin neg n =>
    let sign := if neg then ['-'] else []
    if prec < 0 then
      String.mk (sign ++ plainDecimal (shortestDecimal n).1 (shortestDecimal n).2)
    else
      String.mk (sign ++ plainDecimal (roundHalfEven (n * 10 ^ prec.toNat) Float64.scale) (-prec))

/-- A character that is a digit other than `0`. -/
def nonzeroDigit (c : Char) : Bool := c.isDigit && c != '0'

/-! ## The regular expression of `helpers.go` -/

/-- A pattern matching one character. -/
inductive Atom
  /-- A literal character. -/
  | lit (c : Char)
  /-- The class `\d`: an ASCII digit. -/
  | digit
  /-- The dot: any character but a newline. -/
  | any
  deriving DecidableEq, Repr

/-- Whether an atom accepts a character. -/
def Atom.test : Atom → Char → Bool
  | .lit c, x => x == c
  | .digit, x => x.isDigit
  | .any, x => x != '\n'

/-- The regular expressions built from the constructs of the source pattern. -/
inductive Regex
  | atom (a : Atom)
  /-- Greedy `a+` over a one-character pattern. -/
  | plus (a : Atom)
  | seq (r₁ r₂ : Regex)
  /-- Greedy `(?:r)?`. -/
  | opt (r : Regex)
  /-- Capturing group number `i`. -/
  | group (i : Nat) (r : Regex)
  deriving DecidableEq, Repr

/-- Text captured by each group, empty for a group that did not take part. -/
abbrev Caps := Nat → List Char

/-- The inputs left by `a+`, the longest match first. -/
def plusRests (a : Atom) : List Char → List (List Char)
  | [] => []
  | x :: xs => if a.test x then plusRests a xs ++ [xs] else []

/-- Backtracking match at the head of `s`: every way to match, as the input left
and the captures, in the order of preference of a leftmost-first matcher. -/
def Regex.run : Regex → List Char → Caps → List (List Char × Caps)
  | .atom a, s, caps =>
    match s with
    | [] => []
    | x :: xs => if a.test x then [(xs, caps)] else []
  | .plus a, s, caps => (plusRests a s).map (fun rest => (rest, caps))
  | .seq r₁ r₂, s, caps => (r₁.run s caps).flatMap (fun t => r₂.run t.1 t.2)
  | .opt r, s, caps => r.run s caps ++ [(s, caps)]
  | .group i r, s, caps =>
    (r.run s caps).map
      (fun t => (t.1, Function.update t.2 i (s.take (s.length - t.1.length))))

/-- A compiled pattern: a body, optionally anchored by `^` in front and `$` behind. -/
structure Regexp where
  anchorStart : Bool
  body : Regex
  anchorEnd : Bool
  numGroups : Nat

/-- The match starting exactly at the head of `s`: the matched text followed by
the text of each group. -/
def Regexp.matchAt (re : Regexp) (s : List Char) : Option (List String) :=
  match (re.body.run s (fun _ => [])).find? (fun t => !re.anchorEnd || t.1.isEmpty) with
  | none => none
  | some t =>
    some (String.mk (s.take (s.length - t.1.length)) ::
      (List.range re.numGroups).map (fun i => String.mk (t.2 (i + 1))))

/-- The leftmost match among all start offsets. -/
def Regexp.search (re : Regexp) : List Char → Option (List String)
  | [] => re.matchAt []
  | x :: xs =>
    match re.matchAt (x :: xs) with
    | some m => some m
    | none => re.search xs

/-- Go `(*Regexp).FindStringSubmatch`; `none` is the nil slice. -/
def Regexp.FindStringSubmatch (re : Regexp) (s : String) : Option (List String) :=
  if re.anchorStart then re.matchAt s.data else re.search s.data

/-- The optional component `(?:(\d+)c)?` with capture group `i`. -/
def unitRe (i : Nat) (c : Char) : Regex :=
  .opt (.seq (.group i (.plus .digit)) (.atom (.lit c)))

/-- The date part `(?:(\d+)Y)?(?:(\d+)M)?(?:(\d+)D)?T`. -/
def dateRe : Regex :=
  .seq (unitRe 1 'Y') (.seq (unitRe 2 'M') (.seq (unitRe 3 'D') (.atom (.lit 'T'))))

/-- The seconds component `(?:(\d+(?:.\d+)?)S)?`; the dot is unescaped in the source. -/
def secondsRe : Regex :=
  .opt (.seq (.group 6 (.seq (.plus .digit) (.opt (.seq (.atom .any) (.plus .digit)))))
    (.atom (.lit 'S')))

/-- The time part `(?:(\d+)H)?(?:(\d+)M)?(?:(\d+(?:.\d+)?)S)?`. -/
def timeRe : Regex :=
  .seq (unitRe 4 'H') (.seq (unitRe 5 'M') secondsRe)

/-- The pattern
`^P(?:(\d+)Y)?(?:(\d+)M)?(?:(\d+)D)?T(?:(\d+)H)?(?:(\d+)M)?(?:(\d+(?:.\d+)?)S)?$`
compiled in both duration parsers. -/
def durationRe : Regexp :=
  { anchorStart := true
    body := .seq (.atom (.lit 'P')) (.seq dateRe timeRe)
    anchorEnd := true
    numGroups := 6 }

/-! ## `strconv.ParseFloat` on the captured digit strings -/

/-- The number written by a string of decimal digits. -/
def decimalValue (ds : List Char) : Nat :=
  ds.foldl (fun acc c => acc * 10 + (c.toNat - '0'.toNat)) 0

/-- The first natural number that `float32` rounds to infinity: `2^128 - 2^103`,
half an ulp above the largest `float32`. -/
def float32Overflow : Nat := 2 ^ 128 - 2 ^ 103

/-- Go `strconv.ParseFloat(s, 32)` for `s` a nonempty string of ASCII digits, the
only strings the capture groups `(\d+)` hand to it: the value is rounded to the
nearest `float32` and returned as a `float64`; a value that rounds beyond the
largest `float32` yields `+Inf` and a range error. -/
def ParseFloat32 (s : String) : Float64 × Option GoError :=
  let r := roundToBits 24 (decimalValue s.data) 1
  if 2 ^ 128 ≤ r then
    (Float64.inf false, some (.numError "ParseFloat" s "value out of range"))
  else (Float64.ofNat r, none)

/-! ## `helpers.go` -/

/-- The error of both parsers for an input the pattern rejects. -/
def errIncorrectFormat : GoError := .errorsNew "input string is of incorrect format"

/-- One step `if matches[i] != "" { f, err := ParseFloat(..); if err != nil { return 0, err }; acc += g(f) }`. -/
def addComponent (text : String) (g : Float64 → Float64) (acc : Float64) :
    Except GoError Float64 :=
  if text ≠ "" then
    match ParseFloat32 text with
    | (_, some err) => .error err
    | (f, none) => .ok (acc.add (g f))
  else .ok acc

/-- Go `isoDurationToMonthsFloat`. -/
def isoDurationToMonthsFloat (isoDuration : String) : Float64 × Option GoError :=
  match durationRe.FindStringSubmatch isoDuration with
  | none => (Float64.ofNat 0, some errIncorrectFormat)
  | some submatches =>
    let months := Float64.ofNat 0
    -- months
    match addComponent (submatches.getD 2 "") (fun f => f) months with
    | .error err => (Float64.ofNat 0, some err)
    | .ok months =>
      -- days
      match addComponent (submatches.getD 3 "") (fun f => f.div (Float64.ofNat 30)) months with
      | .error err => (Float64.ofNat 0, some err)
      | .ok months => (((months.mul (Float64.ofNat 100)).Round).div (Float64.ofNat 100), none)

/-- Go `isoDurationToDaysFloat`. -/
def isoDurationToDaysFloat (isoDuration : String) : Float64 × Option GoError :=
  match durationRe.FindStringSubmatch isoDuration with
  | none => (Float64.ofNat 0, some errIncorrectFormat)
  | some submatches =>
    let days := Float64.ofNat 0
    -- days
    match addComponent (submatches.getD 3 "") (fun f => f) days with
    | .error err => (Float64.ofNat 0, some err)
    | .ok days => (((days.mul (Float64.ofNat 100)).Round).div (Float64.ofNat 100), none)

/-! ## The duration grammar of the specification

The grammar `P[nY][nM][nD]T[nH][nM][nS]` in the words of the specification: a
string is described by the digits of the components it has. -/

/-- A nonempty string of ASCII digits. -/
def isDigits (ds : List Char) : Bool := !ds.isEmpty && ds.all Char.isDigit

/-- The components of a duration string: the digits of each component present;
the seconds carry integer digits and, optionally, a separator and fraction digits. -/
structure DurationParts where
  years : Option (List Char) := none
  months : Option (List Char) := none
  days : Option (List Char) := none
  hours : Option (List Char) := none
  minutes : Option (List Char) := none
  seconds : Option (List Char × Option (Char × List Char)) := none
  deriving DecidableEq, Repr

/-- The text of an optional component: its digits and its designator letter. -/
def unitText (o : Option (List Char)) (c : Char) : List Char :=
  match o with
  | none => []
  | some ds => ds ++ [c]

/-- The text of an optional fraction: the separator and the fraction digits. -/
def fracText : Option (Char × List Char) → List Char
  | none => []
  | some (sep, fs) => sep :: fs

/-- The text of the optional seconds component. -/
def secondsText : Option (List Char × Option (Char × List Char)) → List Char
  | none => []
  | some (ds, fr) => (ds ++ fracText fr) ++ ['S']

/-- The string with the given components: `P`, the date components, the
mandatory `T`, the time components. -/
def DurationParts.render (p : DurationParts) : List Char :=
  'P' :: (unitText p.years 'Y' ++ (unitText p.months 'M' ++ (unitText p.days 'D' ++
    'T' :: (unitText p.hours 'H' ++ (unitText p.minutes 'M' ++ secondsText p.seconds)))))

/-- Every component present is a nonempty digit string, and the separator of a
fraction passes `sepOk`. -/
def DurationParts.wellFormed (sepOk : Char → Bool) (p : DurationParts) : Bool :=
  p.years.all isDigits && p.months.all isDigits && p.days.all isDigits &&
    p.hours.all isDigits && p.minutes.all isDigits &&
    p.seconds.all (fun sec => isDigits sec.1 && sec.2.all (fun fr => sepOk fr.1 && isDigits fr.2))

/-- The duration grammar of the specification: the fraction separator is `'.'`. -/
def InDurationGrammar (s : String) : Prop :=
  ∃ p : DurationParts, p.wellFormed (fun sep => sep == '.') = true ∧ s.data = p.render

/-- The same shape with any one character but a newline as fraction separator. -/
def InLenientGrammar (s : String) : Prop :=
  ∃ p : DurationParts, p.wellFormed (fun sep => sep != '\n') = true ∧ s.data = p.render

/-- The numeric value of an optional component, `0` when it is absent. -/
def componentValue (o : Option (List Char)) : Nat :=
  match o with
  | none => 0
  | some ds => decimalValue ds

/-- The captures after an optional component took part (or did not). -/
def setCap (c : Caps) (i : Nat) (o : Option (List Char)) : Caps :=
  match o with
  | none => c
  | some ds => Function.update c i ds

/-- The captures that matching a duration string with components `p` leaves. -/
def DurationParts.captures (p : DurationParts) (c : Caps) : Caps :=
  setCap (setCap (setCap (setCap (setCap (setCap c 1 p.years) 2 p.months) 3 p.days) 4 p.hours)
    5 p.minutes) 6 (p.seconds.map (fun sec => sec.1 ++ fracText sec.2))

/-- A string that starts with digits, possibly none, followed by one of the
letters `allowed`, none of them a digit. -/
def Headed (allowed : List Char) (s : List Char) : Prop :=
  ∃ ds x r, s = ds ++ x :: r ∧ (∀ c ∈ ds, c.isDigit = true) ∧ x.isDigit = false ∧ x ∈ allowed

/-- The double nearest to the fraction `a / b`, as the Go literal of that decimal
value denotes it (`ofRatio 2653 100` is `26.53`). -/
def Float64.ofRatio (a b : Nat) : Float64 := Float64.round false (a * Float64.scale) b

/-! ## `ccw.go`: pointer helpers -/

/-- Go `String`: a pointer to a copy of `v`, or nil when `v` is empty. -/
def Helpers.String (v : String) : Option String :=
  if v ≠ "" then some v else none

/-- Go `Int64`: a pointer to a copy of `v`. -/
def Helpers.Int64 (v : Int) : Option Int := some v

/-- Go `IntOrNil`: a pointer to a copy of `v`, or nil when `v` is zero. -/
def Helpers.IntOrNil (v : Int) : Option Int :=
  if v ≠ 0 then some v else none

/-- Go `FloatOrNil`: a pointer to a copy of `v`, or nil when `v == 0`. -/
def Helpers.FloatOrNil (v : Float64) : Option Float64 :=
  if !v.isZero then some v else none

/-! ## `strconv.ParseInt` -/

/-- Go `strconv.ParseInt(s, 10, 0)` with a 64-bit `int`: an optional sign and
decimal digits; a syntax error yields `0`, a value out of range yields the
nearest bound together with a range error. -/
def ParseInt (s : String) : Int × Option GoError :=
  match s.data with
  | [] => (0, some (.numError "ParseInt" s "invalid syntax"))
  | c :: cs =>
    let neg := c == '-'
    let ds := if c == '+' || c == '-' then cs else c :: cs
    if ds.isEmpty || !ds.all Char.isDigit then
      (0, some (.numError "ParseInt" s "invalid syntax"))
    else
      let un := decimalValue ds
      if !neg && 2 ^ 63 ≤ un then
        (2 ^ 63 - 1, some (.numError "ParseInt" s "value out of range"))
      else if neg && 2 ^ 63 < un then
        (-(2 ^ 63), some (.numError "ParseInt" s "value out of range"))
      else (if neg then -(un : Int) else (un : Int), none)

/-! ## `strconv.ParseFloat` with bit size 64

The functions of `strconv/atof.go` on which `ParseFloat(s, 64)` rests.  The
mantissa is kept exactly instead of being cut after 19 digits with a
truncation flag: the value returned is the same, the double nearest to the
number that the text denotes. -/

/-- Lower-casing of an ASCII capital letter, as in `commonPrefixLenIgnoreCase`. -/
def asciiLower (c : Char) : Char :=
  if 'A' ≤ c ∧ c ≤ 'Z' then Char.ofNat (c.toNat + 32) else c

/-- Go `commonPrefixLenIgnoreCase`; the pattern is in lower case. -/
def commonPrefixLenIgnoreCase : List Char → List Char → Nat
  | c :: s, p :: pre => if asciiLower c = p then commonPrefixLenIgnoreCase s pre + 1 else 0
  | _, _ => 0

/-- The length of the prefix `inf` or `infinity` that `special` consumes, `0` if
there is none. -/
def infinityLen (s : List Char) : Nat :=
  let n := commonPrefixLenIgnoreCase s "infinity".data
  let n := if 3 < n ∧ n < 8 then 3 else n
  if n = 3 ∨ n = 8 then n else 0

/-- Go `special`: the value of a leading `NaN`, `Inf` or `Infinity` (the latter
two possibly signed) and the number of characters consumed. -/
def special (s : List Char) : Option (Float64 × Nat) :=
  match s with
  | [] => none
  | c :: rest =>
    if c = '+' ∨ c = '-' then
      if infinityLen rest ≠ 0 then some (.inf (c = '-'), 1 + infinityLen rest) else none
    else if c = 'i' ∨ c = 'I' then
      if infinityLen s ≠ 0 then some (.inf false, infinityLen s) else none
    else if c = 'n' ∨ c = 'N' then
      if commonPrefixLenIgnoreCase s "nan".data = 3 then some (.nan, 3) else none
    else none

/-- The value of a hexadecimal letter, in either case. -/
def hexLetter (c : Char) : Option Nat :=
  if 'a' ≤ c ∧ c ≤ 'f' then some (c.toNat - 'a'.toNat + 10)
  else if 'A' ≤ c ∧ c ≤ 'F' then some (c.toNat - 'A'.toNat + 10)
  else none

/-- Go `underscoreOK` after the optional sign and base prefix: `saw` is the kind
of the last character, `'0'` for a digit, `'_'` for an underscore, `'!'` for
another character and `'^'` at the start. -/
def underscoreLoop (hex : Bool) : Char → List Char → Bool
  | saw, [] => saw != '_'
  | saw, c :: cs =>
    if c.isDigit || (hex && (hexLetter c).isSome) then underscoreLoop hex '0' cs
    else if c = '_' then (if saw != '0' then false else underscoreLoop hex '_' cs)
    else if saw = '_' then false
    else underscoreLoop hex '!' cs

/-- Go `underscoreOK`: underscores only between digits, the base prefix counting
as a digit. -/
def underscoreOK (s : List Char) : Bool :=
  let s :=
    match s with
    | c :: rest => if c = '-' ∨ c = '+' then rest else s
    | [] => s
  match s with
  | a :: b :: rest =>
    if a = '0' ∧ (b = 'b' ∨ b = 'B' ∨ b = 'o' ∨ b = 'O' ∨ b = 'x' ∨ b = 'X') then
      underscoreLoop (b = 'x' ∨ b = 'X') '0' rest
    else underscoreLoop false '^' s
  | _ => underscoreLoop false '^' s

/-- The variables of the digit loop of `readFloat`. -/
structure MantissaScan where
  mantissa : Nat := 0
  nd : Nat := 0
  dp : Int := 0
  sawdot : Bool := false
  sawdigits : Bool := false
  underscores : Bool := false
  deriving DecidableEq, Repr

/-- The digit loop of `readFloat`: the variables at its end and the input left. -/
def scanMantissa (hex : Bool) : MantissaScan → List Char → MantissaScan × List Char
  | st, [] => (st, [])
  | st, c :: cs =>
    if c = '_' then scanMantissa hex { st with underscores := true } cs
    else if c = '.' then
      if st.sawdot then (st, c :: cs)
      else scanMantissa hex { st with sawdot := true, dp := st.nd } cs
    else if c.isDigit then
      if c = '0' ∧ st.nd = 0 then
        scanMantissa hex { st with sawdigits := true, dp := st.dp - 1 } cs
      else
        scanMantissa hex
          { st with
            sawdigits := true
            nd := st.nd + 1
            mantissa := st.mantissa * (if hex then 16 else 10) + (c.toNat - '0'.toNat) } cs
    else
      match (if hex then hexLetter c else none) with
      | some d =>
        scanMantissa hex
          { st with sawdigits := true, nd := st.nd + 1, mantissa := st.mantissa * 16 + d } cs
      | none => (st, c :: cs)

/-- The exponent loop of `readFloat`: the exponent, capped as in the source,
whether an underscore was met, and the input left. -/
def scanExponent : Nat → Bool → List Char → Nat × Bool × List Char
  | e, underscores, [] => (e, underscores, [])
  | e, underscores, c :: cs =>
    if c = '_' then scanExponent e true cs
    else if c.isDigit then
      scanExponent (if e < 10000 then e * 10 + (c.toNat - '0'.toNat) else e) underscores cs
    else (e, underscores, c :: cs)

/-- What `readFloat` hands back when it succeeds: sign, base, mantissa, exponent
of the base (ten, or two for a hexadecimal number) and the input left. -/
structure ReadFloat where
  neg : Bool
  hex : Bool
  mantissa : Nat
  exp : Int
  rest : List Char
  deriving DecidableEq, Repr

/-- The end of `readFloat`: the exponent of the mantissa and the check of the
underscores in the text consumed. -/
def finishFloat (s : List Char) (neg hex : Bool) (m : MantissaScan) (dp : Int)
    (underscores : Bool) (rest : List Char) : Option ReadFloat :=
  let ndMant : Int := if hex then (m.nd : Int) * 4 else m.nd
  let exp : Int := if m.mantissa ≠ 0 then dp - ndMant else 0
  if underscores && !underscoreOK (s.take (s.length - rest.length)) then none
  else some { neg := neg, hex := hex, mantissa := m.mantissa, exp := exp, rest := rest }

/-- Go `readFloat`; `none` when `ok` is false. -/
def readFloat (s : List Char) : Option ReadFloat :=
  match s with
  | [] => none
  | c :: cs =>
    -- optional sign
    let neg : Bool := c = '-'
    let s₁ := if c = '+' ∨ c = '-' then cs else s
    -- digits
    let hex : Bool :=
      match s₁ with
      | a :: b :: _ :: _ => a = '0' ∧ (b = 'x' ∨ b = 'X')
      | _ => false
    let s₂ := if hex then s₁.drop 2 else s₁
    let (m, s₃) := scanMantissa hex {} s₂
    if !m.sawdigits then none
    else
      let dp : Int := if m.sawdot then m.dp else m.nd
      let dp : Int := if hex then dp * 4 else dp
      -- optional exponent moves decimal point
      match s₃ with
      | x :: s₄ =>
        if (hex ∧ (x = 'p' ∨ x = 'P')) ∨ (¬ hex ∧ (x = 'e' ∨ x = 'E')) then
          match s₄ with
          | [] => none
          | y :: s₅ =>
            let esign : Int := if y = '-' then -1 else 1
            let s₆ := if y = '+' ∨ y = '-' then s₅ else s₄
            match s₆ with
            | [] => none
            | z :: _ =>
              if !z.isDigit then none
              else
                let (e, underscores, s₇) := scanExponent 0 m.underscores s₆
                finishFloat s neg hex m (dp + (e : Int) * esign) underscores s₇
        else if hex then none
        else finishFloat s neg hex m dp m.underscores s₃
      | [] => if hex then none else finishFloat s neg hex m dp m.underscores s₃

/-- The double nearest to `mantissa * 10^exp`, or to `mantissa * 2^exp` for a
hexadecimal number, an infinity if that is out of range. -/
def floatOfParts (r : ReadFloat) : Float64 :=
  let base : Nat := if r.hex then 2 else 10
  if 0 ≤ r.exp then Float64.round r.neg (r.mantissa * base ^ r.exp.toNat * Float64.scale) 1
  else Float64.round r.neg (r.mantissa * Float64.scale) (base ^ (-r.exp).toNat)

/-- The syntax error of `ParseFloat`. -/
def floatSyntaxError (s : String) : GoError := .numError "ParseFloat" s "invalid syntax"

/-- The range error of `ParseFloat`. -/
def floatRangeError (s : String) : GoError := .numError "ParseFloat" s "value out of range"

/-- Go `strconv.ParseFloat(s, 64)`. -/
def ParseFloat (s : String) : Float64 × Option GoError :=
  match special s.data with
  | some (f, n) => if n ≠ s.data.length then (.fin false 0, some (floatSyntaxError s)) else (f, none)
  | none =>
    match readFloat s.data with
    | none => (.fin false 0, some (floatSyntaxError s))
    | some r =>
      if r.rest ≠ [] then (.fin false 0, some (floatSyntaxError s))
      else if Float64.IsInf (floatOfParts r) then (floatOfParts r, some (floatRangeError s))
      else (floatOfParts r, none)

/-! ## `quotes.go`: the decoded XML response

The records below are the part of `AcquireQuoteXMLResponse` under
`Body.ShowQuote.DataArea`, with the fields that `AcquireByDealID` reads and the
two amounts of a quote line that it does not. -/

/-- An entry of `Item.Description`: character data and the `type` attribute. -/
structure XMLDescription where
  Text : String := ""
  TypeAttr : String := ""
  deriving DecidableEq, Repr

/-- `ResponseCriteria.ChangeStatus`. -/
structure XMLChangeStatus where
  Text : String := ""
  Reason : String := ""
  deriving DecidableEq, Repr

/-- `Party.Contact.ID`. -/
structure XMLContactID where
  Text : String := ""
  SchemeName : String := ""
  deriving DecidableEq, Repr

/-- An entry of `Party.Contact.Name`. -/
structure XMLNamePart where
  Text : String := ""
  SequenceName : String := ""
  deriving DecidableEq, Repr

/-- `Party.Contact`, with `TelephoneCommunication.FormattedNumber` and
`EMailAddressCommunication.EMailAddressID` flattened. -/
structure XMLContact where
  ID : XMLContactID := {}
  Name : List XMLNamePart := []
  JobTitle : String := ""
  FormattedNumber : String := ""
  EMailAddressID : String := ""
  deriving DecidableEq, Repr

/-- `Party.Location.Address`. -/
structure XMLAddress where
  LineOne : String := ""
  LineTwo : String := ""
  LineThree : String := ""
  CityName : String := ""
  CountrySubDivisionCode : String := ""
  CountryCode : String := ""
  PostalCode : String := ""
  deriving DecidableEq, Repr

/-- An entry of `QuoteHeader.Party`; `PartyID` is `PartyIDs.ID`. -/
structure XMLParty where
  Role : String := ""
  Contact : XMLContact := {}
  Name : String := ""
  Address : XMLAddress := {}
  PartyID : String := ""
  deriving DecidableEq, Repr

/-- `QuoteHeader.QualificationTerm`, its `ID` flattened. -/
structure XMLQualificationTerm where
  TypeAttribute : String := ""
  IDText : String := ""
  IDSchemeAgencyName : String := ""
  deriving DecidableEq, Repr

/-- An entry of `UserArea.CiscoExtensions.CiscoHeader.PriceList`. -/
structure XMLPriceList where
  ID : String := ""
  Description : String := ""
  ShortName : String := ""
  deriving DecidableEq, Repr

/-- `Quote.QuoteHeader`. -/
structure XMLQuoteHeader where
  StatusCodeText : String := ""
  Party : List XMLParty := []
  QualificationTerm : XMLQualificationTerm := {}
  PriceList : List XMLPriceList := []
  ExtensionValueText : String := ""
  ExtensionValueTypeCode : String := ""
  deriving DecidableEq, Repr

/-- An entry of `Property.Effectivity`: the text of its `Type` element and
`EffectiveTimePeriod.Duration`. -/
structure XMLEffectivity where
  TypeText : String := ""
  Duration : String := ""
  deriving DecidableEq, Repr

/-- An entry of `Item.Specification.Property`. -/
structure XMLProperty where
  ParentID : String := ""
  NameValueText : String := ""
  NameValueName : String := ""
  Effectivity : List XMLEffectivity := []
  deriving DecidableEq, Repr

/-- `QuoteLine.Item`. -/
structure XMLItem where
  ItemIDText : String := ""
  Description : List XMLDescription := []
  ClassificationTypeText : String := ""
  ClassificationTypeListName : String := ""
  Property : List XMLProperty := []
  deriving DecidableEq, Repr

/-- An element with character data and a `currencyID` attribute. -/
structure XMLAmount where
  Text : String := ""
  CurrencyID : String := ""
  deriving DecidableEq, Repr

/-- An entry of `QuoteLine.PaymentTerm.Discount`. -/
structure XMLDiscount where
  TypeText : String := ""
  DiscountPercent : String := ""
  deriving DecidableEq, Repr

/-- `QuoteLine.UserArea.CiscoExtensions.CiscoLine`. -/
structure XMLCiscoLine where
  MagicKey : String := ""
  RequestedStartDate : String := ""
  InitialTerm : String := ""
  AutoRenewalTerm : String := ""
  BillingModel : String := ""
  AdditionalItemInfo : String := ""
  ChargeType : String := ""
  UnitOfMeasurement : String := ""
  PricingTerm : String := ""
  SubscriptionReferenceID : String := ""
  RemainingTerm : String := ""
  deriving DecidableEq, Repr

/-- An entry of `Quote.QuoteLine`. -/
structure XMLQuoteLine where
  LineNumber : String := ""
  Item : XMLItem := {}
  Quantity : String := ""
  UnitPriceAmount : XMLAmount := {}
  ExtendedAmount : XMLAmount := {}
  TotalAmount : XMLAmount := {}
  Discount : List XMLDiscount := []
  CiscoLine : XMLCiscoLine := {}
  deriving DecidableEq, Repr

/-- The decoded response, from `Body.ShowQuote.DataArea` down. -/
structure AcquireQuoteXMLResponse where
  ChangeStatus : XMLChangeStatus := {}
  QuoteHeader : XMLQuoteHeader := {}
  QuoteLine : List XMLQuoteLine := []
  deriving DecidableEq, Repr

/-! ## `quotes.go`: the domain objects -/

/-- Go `Address`. -/
structure Address where
  LineOne : String := ""
  LineTwo : String := ""
  LineThree : String := ""
  CityName : String := ""
  CountrySubDivisionCode : String := ""
  CountryCode : String := ""
  PostalCode : String := ""
  deriving DecidableEq, Repr

/-- Go `Contact`. -/
structure Contact where
  FirstName : String := ""
  LastName : String := ""
  JobTitle : String := ""
  Telephone : String := ""
  Email : String := ""
  Website : String := ""
  deriving DecidableEq, Repr

/-- Go `Company`. -/
structure Company where
  Name : String := ""
  Location : Address := {}
  Contact : Contact := {}
  deriving DecidableEq, Repr

/-- Go `floatOrNull`. -/
abbrev floatOrNull := Float64

/-- Go `floatOrNull.MarshalJSON`; the first component is the returned byte slice,
`none` for nil. -/
def floatOrNull.MarshalJSON (f : floatOrNull) : Option String × Option GoError :=
  if Float64.IsInf f || Float64.IsNaN f then
    (none, some (.unsupportedValue (FormatFloat f 2)))
  else if Float64.isZero f then (some "null", none)
  else (some (FormatFloat f (-1)), none)

/-- Go `AcquireQuoteResponseItem`; a nil pointer is `none`. -/
structure AcquireQuoteResponseItem where
  LineNumber : String := ""
  PartNumber : String := ""
  Description : String := ""
  CCWLineNumber : String := ""
  UnitNetPriceBeforeCredits : Float64 := .fin false 0
  UnitNetPrice : Float64 := .fin false 0
  OriginalUnitListPrice : Float64 := .fin false 0
  Quantity : Int := 0
  UnitPrice : Float64 := .fin false 0
  ExtendedAmount : Float64 := .fin false 0
  TotalAmount : Float64 := .fin false 0
  TotalDiscount : Float64 := .fin false 0
  StandardDiscount : Float64 := .fin false 0
  PromotionalDiscount : Float64 := .fin false 0
  ContractualDiscount : Float64 := .fin false 0
  NonStandardDiscount : Float64 := .fin false 0
  PrePayDiscount : Float64 := .fin false 0
  EffectiveDiscount : Float64 := .fin false 0
  ImportCurrency : String := ""
  ISO8601ServiceDuration : String := ""
  ServiceDurationMonths : floatOrNull := .fin false 0
  ISO8601LeadTime : String := ""
  LeadTimeDays : floatOrNull := .fin false 0
  ProductTypeClassification : String := ""
  ServiceLevelName : String := ""
  ServiceType : String := ""
  ParentLineNumber : Option String := none
  MagicKey : Option String := none
  RequestedStartDate : Option String := none
  InitialTerm : Option Int := none
  AutoRenewalTerm : Option Int := none
  BillingModel : Option String := none
  ChargeType : Option String := none
  UnitOfMeasurement : Option String := none
  AdditionalItemInfo : Option String := none
  PricingTerm : Option Int := none
  RemainingTerm : Option Float64 := none
  SubscriptionReferenceID : Option String := none
  deriving DecidableEq, Repr

/-- Go `AcquireQuoteResponse`. -/
structure AcquireQuoteResponse where
  QuoteName : String := ""
  QuoteOwner : String := ""
  QuoteStatus : String := ""
  PriceList : String := ""
  PriceListID : String := ""
  DealID : String := ""
  Customer : Company := {}
  Partner : Company := {}
  LineItems : List AcquireQuoteResponseItem := []
  deriving DecidableEq, Repr

/-! ## `quotes.go`: `AcquireByDealID`

`strconv.ParseFloat(text, 64)` is a parameter `parseFloat` of the projection:
its value is used and its error dropped, as in `v, _ := strconv.ParseFloat(..)`. -/

/-- Body of the loop `for _, field := range party.Contact.Name`. -/
def nameStep (contact : Contact) (field : XMLNamePart) : Contact :=
  let contact :=
    if field.SequenceName = "First Name" then { contact with FirstName := field.Text }
    else contact
  if field.SequenceName = "Last Name" then { contact with LastName := field.Text }
  else contact

/-- The `Company` built in the cases `"End Customer"` and `"Partner"`, which differ
only in the text taken as `Name`. -/
def companyOf (name : String) (party : XMLParty) : Company :=
  let company : Company :=
    { Name := name
      Location :=
        { LineOne := party.Address.LineOne
          LineTwo := party.Address.LineTwo
          LineThree := party.Address.LineThree
          CityName := party.Address.CityName
          CountrySubDivisionCode := party.Address.CountrySubDivisionCode
          CountryCode := party.Address.CountryCode
          PostalCode := party.Address.PostalCode }
      Contact :=
        { JobTitle := party.Contact.JobTitle
          Telephone := party.Contact.FormattedNumber
          Email := party.Contact.EMailAddressID } }
  let company := { company with Contact := party.Contact.Name.foldl nameStep company.Contact }
  if party.Contact.ID.SchemeName = "Website" then
    { company with Contact := { company.Contact with Website := party.Contact.ID.Text } }
  else company

/-- Body of the loop `for _, party := range quoteHeader.Party`. -/
def partyStep (aqr : AcquireQuoteResponse) (party : XMLParty) : AcquireQuoteResponse :=
  if party.Role = "QuoteOwner" then { aqr with QuoteOwner := party.Contact.ID.Text }
  else if party.Role = "End Customer" then { aqr with Customer := companyOf party.Name party }
  else if party.Role = "Partner" then { aqr with Partner := companyOf party.PartyID party }
  else aqr

/-- Body of the loop over the header `PriceList` entries. -/
def priceListStep (aqr : AcquireQuoteResponse) (p : XMLPriceList) : AcquireQuoteResponse :=
  if p.Description ≠ "" ∧ p.ID ≠ "" then
    { aqr with PriceList := p.Description, PriceListID := p.ID }
  else aqr

/-- Body of the loop `for _, d := range item.Description`. -/
def descriptionStep (ql : AcquireQuoteResponseItem) (d : XMLDescription) :
    AcquireQuoteResponseItem :=
  let ql :=
    if d.Text ≠ "" ∧ d.TypeAttr ≠ "ServiceType" ∧ d.TypeAttr ≠ "ServiceLevelName" then
      { ql with Description := d.Text }
    else ql
  let ql := if d.TypeAttr = "ServiceType" then { ql with ServiceType := d.Text } else ql
  if d.TypeAttr = "ServiceLevelName" then { ql with ServiceLevelName := d.Text } else ql

/-- Body of the loop `for _, eff := range prop.Effectivity`. -/
def effectivityStep (ql : AcquireQuoteResponseItem) (eff : XMLEffectivity) :
    AcquireQuoteResponseItem :=
  let ql :=
    if eff.TypeText = "ServiceDuration" then
      { ql with
        ISO8601ServiceDuration := eff.Duration
        ServiceDurationMonths := (isoDurationToMonthsFloat eff.Duration).1 }
    else ql
  if eff.TypeText = "LeadTime" then
    { ql with
      ISO8601LeadTime := eff.Duration
      LeadTimeDays := (isoDurationToDaysFloat eff.Duration).1 }
  else ql

/-- Body of the loop `for _, prop := range item.Specification.Property`. -/
def propertyStep (parseFloat : String → Float64 × Option GoError)
    (ql : AcquireQuoteResponseItem) (prop : XMLProperty) : AcquireQuoteResponseItem :=
  let ql :=
    if prop.ParentID ≠ "" ∧ prop.ParentID ≠ "0" then
      { ql with ParentLineNumber := Helpers.String prop.ParentID }
    else ql
  if prop.NameValueName = "CCWLineNumber" then
    { ql with CCWLineNumber := prop.NameValueText }
  else if prop.NameValueName = "UnitNetPrice" then
    { ql with UnitNetPrice := (parseFloat prop.NameValueText).1 }
  else if prop.NameValueName = "UnitNetPriceBeforeCredits" then
    { ql with UnitNetPriceBeforeCredits := (parseFloat prop.NameValueText).1 }
  else if prop.NameValueName = "OriginalUnitListPrice" then
    { ql with OriginalUnitListPrice := (parseFloat prop.NameValueText).1 }
  else if prop.NameValueName = "BundleIndicator" then
    prop.Effectivity.foldl effectivityStep ql
  else ql

/-- Body of the loop `for _, discount := range line.PaymentTerm.Discount`. -/
def discountStep (parseFloat : String → Float64 × Option GoError)
    (ql : AcquireQuoteResponseItem) (discount : XMLDiscount) : AcquireQuoteResponseItem :=
  if discount.TypeText = "TotalDiscount" then
    { ql with TotalDiscount := (parseFloat discount.DiscountPercent).1 }
  else if discount.TypeText = "StandardDiscount" then
    { ql with StandardDiscount := (parseFloat discount.DiscountPercent).1 }
  else if discount.TypeText = "PromotionalDiscount" then
    { ql with PromotionalDiscount := (parseFloat discount.DiscountPercent).1 }
  else if discount.TypeText = "ContractualDiscount" then
    { ql with ContractualDiscount := (parseFloat discount.DiscountPercent).1 }
  else if discount.TypeText = "NonStandardDiscount" then
    { ql with NonStandardDiscount := (parseFloat discount.DiscountPercent).1 }
  else if discount.TypeText = "PrePay" then
    { ql with PrePayDiscount := (parseFloat discount.DiscountPercent).1 }
  else if discount.TypeText = "EffectiveDiscount" then
    { ql with EffectiveDiscount := (parseFloat discount.DiscountPercent).1 }
  else ql

/-- Body of the loop `for _, line := range quoteLines` up to the `append`: the item
built for one quote line. -/
def projectLine (parseFloat : String → Float64 × Option GoError) (line : XMLQuoteLine) :
    AcquireQuoteResponseItem :=
  let ql : AcquireQuoteResponseItem := {}
  let item := line.Item
  let ql := { ql with LineNumber := line.LineNumber }
  let ql := { ql with PartNumber := line.Item.ItemIDText }
  let ql := item.Description.foldl descriptionStep ql
  let ql :=
    if line.Item.ClassificationTypeListName = "ProductType" then
      { ql with ProductTypeClassification := line.Item.ClassificationTypeText }
    else ql
  let ql := item.Property.foldl (propertyStep parseFloat) ql
  let ql := line.Discount.foldl (discountStep parseFloat) ql
  let ql := { ql with ImportCurrency := line.UnitPriceAmount.CurrencyID }
  let ql := { ql with UnitPrice := (parseFloat line.UnitPriceAmount.Text).1 }
  let ql := { ql with Quantity := (ParseInt line.Quantity).1 }
  -- Additional UserArea fields
  let ciscoLine := line.CiscoLine
  let ql := { ql with SubscriptionReferenceID := Helpers.String ciscoLine.SubscriptionReferenceID }
  let ql := { ql with MagicKey := Helpers.String ciscoLine.MagicKey }
  let ql := { ql with RequestedStartDate := Helpers.String ciscoLine.RequestedStartDate }
  let ql := { ql with InitialTerm := Helpers.IntOrNil (ParseInt ciscoLine.InitialTerm).1 }
  let ql := { ql with AutoRenewalTerm := Helpers.IntOrNil (ParseInt ciscoLine.AutoRenewalTerm).1 }
  let ql := { ql with BillingModel := Helpers.String ciscoLine.BillingModel }
  let ql := { ql with ChargeType := Helpers.String ciscoLine.ChargeType }
  let ql := { ql with UnitOfMeasurement := Helpers.String ciscoLine.UnitOfMeasurement }
  let ql := { ql with AdditionalItemInfo := Helpers.String ciscoLine.AdditionalItemInfo }
  let ql := { ql with PricingTerm := Helpers.IntOrNil (ParseInt ciscoLine.PricingTerm).1 }
  { ql with RemainingTerm := Helpers.FloatOrNil (parseFloat ciscoLine.RemainingTerm).1 }

/-- Go `(*QuoteService).AcquireByDealID` from the check of the decoded response on
(`quoteSuccess := ...` to `return &aqr, nil`); `resp` is what `makeXMLRequest`
decoded.  The first component is the returned pointer, `none` for nil. -/
def QuoteService.AcquireByDealID (parseFloat : String → Float64 × Option GoError)
    (resp : AcquireQuoteXMLResponse) : Option AcquireQuoteResponse × Option GoError :=
  let quoteSuccess := resp.ChangeStatus.Reason
  if quoteSuccess ≠ "Success" then
    (none, some (.errorsNew (resp.ChangeStatus.Reason ++ ": " ++ resp.ChangeStatus.Text)))
  else
    -- 5. Format the response
    let aqr : AcquireQuoteResponse := {}
    -- get header details
    let quoteHeader := resp.QuoteHeader
    let aqr :=
      if quoteHeader.ExtensionValueTypeCode = "QuoteName" then
        { aqr with QuoteName := quoteHeader.ExtensionValueText }
      else aqr
    let aqr := { aqr with QuoteStatus := quoteHeader.StatusCodeText }
    let aqr := quoteHeader.Party.foldl partyStep aqr
    let aqr :=
      if quoteHeader.QualificationTerm.TypeAttribute = "Deal" ∧
          quoteHeader.QualificationTerm.IDSchemeAgencyName = "Cisco" then
        { aqr with DealID := quoteHeader.QualificationTerm.IDText }
      else aqr
    let aqr := quoteHeader.PriceList.foldl priceListStep aqr
    -- Now get the quote lines
    let quoteLines := resp.QuoteLine
    let aqr :=
      quoteLines.foldl
        (fun aqr line => { aqr with LineItems := aqr.LineItems ++ [projectLine parseFloat line] })
        aqr
    (some aqr, none)

/-! ## Reading the loops of the projection -/

/-- The last entry of a list that satisfies `p`, if there is one. -/
def lastWhere {α : Type} (p : α → Bool) (l : List α) : Option α :=
  (l.filter p).getLast?

/-- The fields of an item that the loop over the descriptions writes. -/
def AcquireQuoteResponseItem.texts (ql : AcquireQuoteResponseItem) : String × String × String :=
  (ql.Description, ql.ServiceType, ql.ServiceLevelName)

/-- The price fields of an item that the loop over the properties writes. -/
def AcquireQuoteResponseItem.prices (ql : AcquireQuoteResponseItem) :
    Float64 × Float64 × Float64 :=
  (ql.UnitNetPrice, ql.UnitNetPriceBeforeCredits, ql.OriginalUnitListPrice)

/-- The seven discount fields of an item. -/
def AcquireQuoteResponseItem.discounts (ql : AcquireQuoteResponseItem) :
    Float64 × Float64 × Float64 × Float64 × Float64 × Float64 × Float64 :=
  (ql.TotalDiscount, ql.StandardDiscount, ql.PromotionalDiscount, ql.ContractualDiscount,
    ql.NonStandardDiscount, ql.PrePayDiscount, ql.EffectiveDiscount)

/-- The price fields of an item, each with the name of the property that fills it. -/
def priceFields : List (String × (AcquireQuoteResponseItem → Float64)) :=
  [("UnitNetPrice", fun ql => ql.UnitNetPrice),
   ("UnitNetPriceBeforeCredits", fun ql => ql.UnitNetPriceBeforeCredits),
   ("OriginalUnitListPrice", fun ql => ql.OriginalUnitListPrice)]

/-- The seven discount fields of an item, each with the type text that selects it. -/
def discountFields : List (String × (AcquireQuoteResponseItem → Float64)) :=
  [("TotalDiscount", fun ql => ql.TotalDiscount),
   ("StandardDiscount", fun ql => ql.StandardDiscount),
   ("PromotionalDiscount", fun ql => ql.PromotionalDiscount),
   ("ContractualDiscount", fun ql => ql.ContractualDiscount),
   ("NonStandardDiscount", fun ql => ql.NonStandardDiscount),
   ("PrePay", fun ql => ql.PrePayDiscount),
   ("EffectiveDiscount", fun ql => ql.EffectiveDiscount)]

/-- The two amounts of an item that no statement of the projection writes. -/
def AcquireQuoteResponseItem.amounts (ql : AcquireQuoteResponseItem) : Float64 × Float64 :=
  (ql.ExtendedAmount, ql.TotalAmount)

/-- The two duration fields of an item. -/
def AcquireQuoteResponseItem.durations (ql : AcquireQuoteResponseItem) : Float64 × Float64 :=
  (ql.ServiceDurationMonths, ql.LeadTimeDays)

/-- The effectivity entries that the loop over the properties visits, in the
order of the visits: those of the properties named `"BundleIndicator"`. -/
def bundleEffectivities (properties : List XMLProperty) : List XMLEffectivity :=
  properties.flatMap
    (fun prop => if prop.NameValueName = "BundleIndicator" then prop.Effectivity else [])

/-! ## `ccw.go`: the token cache -/

/-! An instant (`time.Time`) is an integer count of nanoseconds on the clock read by
`time.Now()`; a `time.Duration` is an `int64` count of nanoseconds. -/

/-- The value of an `int64` computation: the result wrapped into `[-2^63, 2^63)`. -/
def wrapInt64 (x : Int) : Int := (x + 2 ^ 63) % 2 ^ 64 - 2 ^ 63

/-- Go `time.Second`, in nanoseconds. -/
def Second : Int := 1000000000

/-- Go `time.Minute`, in nanoseconds. -/
def Minute : Int := 60 * Second

/-- Go `ccwToken`. -/
structure ccwToken where
  AccessToken : String := ""
  TokenType : String := ""
  ExpiresIn : Int := 0
  ExpiresAt : Int := 0
  deriving DecidableEq, Repr

/-- Go `tokenError`; the field `Error` is named `ErrorCode` here. -/
structure tokenError where
  ErrorCode : String := ""
  Description : String := ""
  deriving DecidableEq, Repr

/-- An `http.Client`, by its `Timeout` in nanoseconds. -/
structure HTTPClient where
  Timeout : Int := 0
  deriving DecidableEq, Repr

/-- A `rate.Limiter`, by the rate and burst it was made with. -/
structure Limiter where
  limit : Nat
  burst : Nat
  deriving DecidableEq, Repr

/-- Go `EstimateService`; `client` is the address of the client it points to. -/
structure EstimateService where
  BaseURL : String
  client : Nat
  deriving DecidableEq, Repr

/-- Go `QuoteService`; `client` is the address of the client it points to. -/
structure QuoteService where
  BaseURL : String
  client : Nat
  deriving DecidableEq, Repr

/-- Go `Client`, the mutex aside.  A pointer field is `none` when nil. -/
structure Client where
  username : String
  password : String
  clientID : String
  clientSecret : String
  token : Option ccwToken := none
  HTTPClient : Option HTTPClient := none
  EstimateService : Option EstimateService := none
  QuoteService : Option QuoteService := none
  lim : Option Limiter := none
  deriving DecidableEq, Repr

/-- An HTTP request as issued by `generateToken`. -/
structure TokenRequest where
  Method : String
  URL : String
  ContentType : String
  Body : String
  deriving DecidableEq, Repr

/-- A response of the identity endpoint: its status code and what
`json.NewDecoder(res.Body).Decode` yields for its body, into a `tokenError` and
into a `ccwToken`. -/
structure TokenResponse where
  StatusCode : Int
  decodeTokenError : Except GoError tokenError
  decodeToken : Except GoError ccwToken

/-- What one call of `getToken` meets outside the client: the clock at the
freshness check, the outcome of `HTTPClient.Do` should a request be sent, and the
clock when the decoded token is stamped. -/
structure TokenEnv where
  now : Int
  exchange : Except GoError TokenResponse
  fetchedAt : Int

/-- Result of `generateToken`: the client afterwards, the returned pointer and
error, and the requests sent. -/
structure GenerateResult where
  client : Client
  token : Option ccwToken
  err : Option GoError
  requests : List TokenRequest

/-- Go `(*Client).generateToken`. -/
def Client.generateToken (c : Client) (env : TokenEnv) : GenerateResult :=
  let u := "https://cloudsso.cisco.com/as/token.oauth2"
  let method := "POST"
  let payload :=
    "grant_type=password&username=" ++ c.username ++ "&password=" ++ c.password ++
      "&client_id=" ++ c.clientID ++ "&client_secret=" ++ c.clientSecret
  let req : TokenRequest :=
    { Method := method, URL := u, ContentType := "application/x-www-form-urlencoded",
      Body := payload }
  match env.exchange with
  | .error err => { client := c, token := none, err := some err, requests := [req] }
  | .ok res =>
    if res.StatusCode ≠ 200 then
      match res.decodeTokenError with
      | .error err => { client := c, token := none, err := some err, requests := [req] }
      | .ok e =>
        { client := c, token := none, err := some (.errorsNew e.Description), requests := [req] }
    else
      match res.decodeToken with
      | .error err => { client := c, token := none, err := some err, requests := [req] }
      | .ok t =>
        let t := { t with ExpiresAt := env.fetchedAt + wrapInt64 (wrapInt64 t.ExpiresIn * Second) }
        { client := { c with token := some t }, token := some t, err := none, requests := [req] }

/-- Result of `getToken`: the client afterwards, the returned error and the
requests sent. -/
structure GetTokenResult where
  client : Client
  err : Option GoError
  requests : List TokenRequest

/-- Go `(*Client).getToken`, the mutex aside. -/
def Client.getToken (c : Client) (env : TokenEnv) : GetTokenResult :=
  if c.token.any (fun token => decide (token.ExpiresAt > env.now + wrapInt64 (Minute * 5))) then
    { client := c, err := none, requests := [] }
  else
    let r := c.generateToken env
    match r.err with
    | some err => { client := r.client, err := some err, requests := r.requests }
    | none => { client := { r.client with token := r.token }, err := none, requests := r.requests }

/-! ## `ccw.go`: `NewClient` -/

/-- Go `NewClient`.  `addr` is the address at which the client is allocated, the
value of the returned pointer; the first component is the object it points to,
`none` for a nil pointer. -/
def NewClient (addr : Nat) (username password clientID secret : String)
    (client : Option HTTPClient) : Option Client × Option GoError :=
  if username = "" ∨ password = "" ∨ clientID = "" ∨ secret = "" then
    (none, some (.errorsNew "missing required parameters"))
  else
    let client : HTTPClient :=
      match client with
      | none => { Timeout := 10 * Second }
      | some client => client
    let rl : Limiter := { limit := 100, burst := 1 }
    let c : Client :=
      { HTTPClient := some client
        username := username
        password := password
        clientID := clientID
        clientSecret := secret
        lim := some rl }
    let c :=
      { c with
        EstimateService :=
          some { client := addr, BaseURL := "https://api.cisco.com/commerce/EST/v2/async" } }
    let c :=
      { c with
        QuoteService :=
          some { client := addr, BaseURL := "https://api.cisco.com/commerce/QUOTING/v1" } }
    (some c, none)

/-! ## `ccw.go`: `makeXMLRequest` -/

/-- An HTTP response: its status code and its body. -/
structure HTTPResponse where
  StatusCode : Int
  Body : String
  deriving DecidableEq, Repr

/-- What one call of `makeXMLRequest` meets outside the client: the answer of
`c.lim.Allow()`, what `c.lim.Wait(ctx)` returns if it is called, the
surroundings of `getToken`, and the outcome of `c.HTTPClient.Do`. -/
structure RequestEnv where
  allow : Bool
  wait : Option GoError
  tokenEnv : TokenEnv
  doResult : Except GoError HTTPResponse

/-- Result of `checkLimitAndGetToken`: the client afterwards, the returned error,
the token requests sent, and whether `Wait` was called. -/
structure CheckLimitResult where
  client : Client
  err : Option GoError
  requests : List TokenRequest
  waited : Bool

/-- Go `(*Client).checkLimitAndGetToken`; what `Wait` returns is dropped. -/
def Client.checkLimitAndGetToken (c : Client) (env : RequestEnv) : CheckLimitResult :=
  let waited := !env.allow
  let r := c.getToken env.tokenEnv
  match r.err with
  | some err => { client := r.client, err := some err, requests := r.requests, waited := waited }
  | none => { client := r.client, err := none, requests := r.requests, waited := waited }

/-- Result of `makeXMLRequest`: the client afterwards, whether the call panicked on
a nil token, the returned error, the output structure afterwards, the token
requests sent, and the `Authorization` header of the request handed to `Do`. -/
structure XMLRequestResult (α : Type) where
  client : Client
  panicked : Bool := false
  err : Option GoError := none
  v : α
  tokenRequests : List TokenRequest := []
  authorization : Option String := none

/-- Go `(*Client).makeXMLRequest`.  `xmlDecode body v` is
`xml.NewDecoder(res.Body).Decode(&v)`: the output structure afterwards and the
error of the decoder. -/
def Client.makeXMLRequest {α : Type} (xmlDecode : String → α → α × Option GoError)
    (c : Client) (env : RequestEnv) (v : α) : XMLRequestResult α :=
  let r := c.checkLimitAndGetToken env
  match r.err with
  | some err =>
    { client := r.client, err := some (.wrap "error getting token: " err), v := v,
      tokenRequests := r.requests }
  | none =>
    match r.client.token with
    | none => { client := r.client, panicked := true, v := v, tokenRequests := r.requests }
    | some token =>
      let authorization := "Bearer " ++ token.AccessToken
      match env.doResult with
      | .error err =>
        { client := r.client, err := some err, v := v, tokenRequests := r.requests,
          authorization := some authorization }
      | .ok res =>
        if res.StatusCode < 200 ∨ res.StatusCode ≥ 400 then
          let ccwErr :=
            if res.StatusCode = 400 then ErrBadRequest
            else if res.StatusCode = 401 then ErrUnauthorized
            else if res.StatusCode = 403 then ErrForbidden
            else if res.StatusCode = 500 then ErrInternalError
            else ErrUnknown
          { client := r.client, err := some ccwErr, v := v, tokenRequests := r.requests,
            authorization := some authorization }
        else if res.StatusCode = 201 then
          { client := r.client, err := none, v := v, tokenRequests := r.requests,
            authorization := some authorization }
        else
          match xmlDecode res.Body v with
          | (v, some err) =>
            { client := r.client, err := some err, v := v, tokenRequests := r.requests,
              authorization := some authorization }
          | (v, none) =>
            { client := r.client, err := none, v := v, tokenRequests := r.requests,
              authorization := some authorization }

/-! ## `ccw.go`: panics on nil pointers

The functions above describe a call in which the limiter, the HTTP client and
the context are not nil.  The functions below follow the same statements and
tell whether the call panics on a nil pointer: at `c.lim.Allow()` for a nil
limiter, at `c.lim.Wait(ctx)` and at `req.WithContext(ctx)` for a nil context,
at `c.HTTPClient.Do` for a nil HTTP client, and at `c.token.AccessToken` for a
nil token.  The request `req` is never nil: both callers pass what
`http.NewRequest` returned with a nil error. -/

/-- Whether `generateToken` panics: `http.NewRequest` accepts the constant method
and URL, so every call reaches `c.HTTPClient.Do(req)`, which dereferences
`c.HTTPClient`. -/
def Client.generateTokenPanics (c : Client) : Bool :=
  c.HTTPClient.isNone

/-- Whether `getToken` panics: in `generateToken`, which it calls unless the
cached token passes the freshness check. -/
def Client.getTokenPanics (c : Client) (env : TokenEnv) : Bool :=
  if c.token.any (fun token => decide (token.ExpiresAt > env.now + wrapInt64 (Minute * 5))) then
    false
  else c.generateTokenPanics

/-- Whether `checkLimitAndGetToken` panics; `ctxNil` tells that `ctx` is nil. -/
def Client.checkLimitAndGetTokenPanics (c : Client) (env : RequestEnv) (ctxNil : Bool) : Bool :=
  -- c.lim.Allow()
  if c.lim.isNone then true
  -- c.lim.Wait(ctx) reads ctx.Done()
  else if !env.allow && ctxNil then true
  else c.getTokenPanics env.tokenEnv

/-- Whether `makeXMLRequest` panics; `ctxNil` tells that `ctx` is nil. -/
def Client.makeXMLRequestPanics (c : Client) (env : RequestEnv) (ctxNil : Bool) : Bool :=
  if c.checkLimitAndGetTokenPanics env ctxNil then true
  else
    let r := c.checkLimitAndGetToken env
    match r.err with
    | some _ => false
    | none =>
      -- c.token.AccessToken
      if r.client.token.isNone then true
      -- req.WithContext(ctx)
      else if ctxNil then true
      -- c.HTTPClient.Do(rc)
      else r.client.HTTPClient.isNone

/-! ## `net/url`: decoding of a form-encoded body -/

/-- Go `unhex` of `net/url`; `none` where `ishex` is false. -/
def unhex (c : Char) : Option Nat :=
  if '0' ≤ c ∧ c ≤ '9' then some (c.toNat - '0'.toNat)
  else if 'a' ≤ c ∧ c ≤ 'f' then some (c.toNat - 'a'.toNat + 10)
  else if 'A' ≤ c ∧ c ≤ 'F' then some (c.toNat - 'A'.toNat + 10)
  else none

/-- The `EscapeError` of `net/url` for the escape `esc`, the text in quotes as
`strconv.Quote` prints it when it needs no escaping. -/
def escapeError (esc : List Char) : GoError :=
  .external ("invalid URL escape \"" ++ String.mk esc ++ "\"")

/-- Go `url.QueryUnescape`: `+` stands for a blank and `%XX` for the byte `XX`,
here the character with that code; a `%` that is not followed by two
hexadecimal digits is an error. -/
def QueryUnescape : List Char → Except GoError (List Char)
  | [] => .ok []
  | c :: rest =>
    if c = '%' then
      match rest with
      | a :: b :: rest' =>
        match unhex a, unhex b with
        | some x, some y => (QueryUnescape rest').map (fun r => Char.ofNat (16 * x + y) :: r)
        | _, _ => .error (escapeError (c :: a :: [b]))
      | _ => .error (escapeError (c :: rest))
    else if c = '+' then (QueryUnescape rest).map (fun r => ' ' :: r)
    else (QueryUnescape rest).map (fun r => c :: r)

/-- Go `strings.Cut(s, sep)` for a separator of one character: the text before
the first `sep` and the text after it, the whole text and nothing when `sep`
does not occur. -/
def cut (sep : Char) : List Char → List Char × List Char
  | [] => ([], [])
  | c :: cs => if c = sep then ([], cs) else (c :: (cut sep cs).1, (cut sep cs).2)

/-- The pieces of a text between the occurrences of `sep`. -/
def pieces (sep : Char) : List Char → List (List Char)
  | [] => [[]]
  | c :: cs =>
    if c = sep then [] :: pieces sep cs
    else
      match pieces sep cs with
      | [] => [[c]]
      | p :: ps => (c :: p) :: ps

/-- One round of the loop of `parseQuery` of `net/url`, for the piece `key` cut
off at `&`. -/
def parseQueryStep (acc : List (String × String) × Option GoError) (key : List Char) :
    List (String × String) × Option GoError :=
  if key.contains ';' then (acc.1, some (.errorsNew "invalid semicolon separator in query"))
  else if key = [] then acc
  else
    match QueryUnescape (cut '=' key).1 with
    | .error err1 => (acc.1, if acc.2 = none then some err1 else acc.2)
    | .ok k =>
      match QueryUnescape (cut '=' key).2 with
      | .error err1 => (acc.1, if acc.2 = none then some err1 else acc.2)
      | .ok value => (acc.1 ++ [(String.mk k, String.mk value)], acc.2)

/-- Go `url.ParseQuery`, the decoding of a body of type
`application/x-www-form-urlencoded`: the pairs of key and value in the order of
the text (the map `Values` holds, for each key, its values in this order) and
the error. -/
def ParseQuery (query : String) : List (String × String) × Option GoError :=
  (pieces '&' query.data).foldl parseQueryStep ([], none)

/-! ## Sample clients and identity-endpoint answers -/

/-- A client with credentials and no cached token. -/
def sampleClient : Client :=
  { username := "u", password := "p", clientID := "id", clientSecret := "s" }

/-- A `200` answer carrying a token of the given lifetime in seconds. -/
def tokenAnswer (expiresIn : Int) : TokenResponse :=
  { StatusCode := 200
    decodeTokenError := .ok {}
    decodeToken := .ok { AccessToken := "abc", TokenType := "Bearer", ExpiresIn := expiresIn } }

/-- The token decoded from `tokenAnswer expiresIn`. -/
def answeredToken (expiresIn : Int) : ccwToken :=
  { AccessToken := "abc", TokenType := "Bearer", ExpiresIn := expiresIn }

/-- A `502` answer whose body is an HTML page, which the JSON decoder rejects. -/
def gatewayAnswer : TokenResponse :=
  { StatusCode := 502
    decodeTokenError := .error (.external "invalid character '<' looking for beginning of value")
    decodeToken := .error (.external "invalid character '<' looking for beginning of value") }

/-- A `401` answer with the error body of the identity endpoint. -/
def deniedAnswer : TokenResponse :=
  { StatusCode := 401
    decodeTokenError :=
      .ok { ErrorCode := "invalid_grant", Description := "Invalid username or password" }
    decodeToken := .ok {} }

/-- The surroundings of a call of `makeXMLRequest` in which the limiter lets the
call pass, the identity endpoint hands out a token for ten minutes and the
quoting service answers with the given response. -/
def answeringEnv (res : HTTPResponse) : RequestEnv :=
  { allow := true, wait := none, tokenEnv := ⟨0, .ok (tokenAnswer 600), 0⟩, doResult := .ok res }

/-- An XML decoder that rejects every body and leaves the output as it is. -/
def rejectingDecoder (_body : String) (v : Nat) : Nat × Option GoError :=
  (v, some (.external "EOF"))

/-- The surroundings of a `generateToken` whose exchange is answered with a token. -/
def exchangeEnv : TokenEnv := ⟨0, .ok (tokenAnswer 600), 0⟩

/-- A call of `makeXMLRequest` under a cancelled context: the limiter has no
token at hand, its `Wait` returns the error of the context, the identity
endpoint would hand out a token, and the transport refuses the quote request. -/
def cancelledEnv : RequestEnv :=
  { allow := false
    wait := some (.external "context canceled")
    tokenEnv := ⟨0, .ok (tokenAnswer 600), 0⟩
    doResult := .error (.external "context canceled") }

/-- A client as `NewClient` leaves it, the two services aside. -/
def preparedClient : Client :=
  { sampleClient with
    HTTPClient := some { Timeout := 10 * Second }
    lim := some { limit := 100, burst := 1 } }

/-! ## Sample responses of the quoting service -/

/-- An end customer whose contact has the given name parts. -/
def customerNamed (names : List XMLNamePart) : XMLParty :=
  { Role := "End Customer", Name := "Acme", Contact := { Name := names } }

/-- A successful response with the given parties and price lists and no line. -/
def headerOnly (parties : List XMLParty) (priceLists : List XMLPriceList) :
    AcquireQuoteXMLResponse :=
  { ChangeStatus := { Reason := "Success" }
    QuoteHeader := { Party := parties, PriceList := priceLists } }

/-- A quote line whose item has the given descriptions. -/
def lineDescribed (descriptions : List XMLDescription) : XMLQuoteLine :=
  { LineNumber := "1.0", Item := { Description := descriptions } }

/-- A quote line with the given unit price text, properties and discounts. -/
def linePriced (unitPrice : String) (properties : List XMLProperty)
    (discounts : List XMLDiscount) : XMLQuoteLine :=
  { LineNumber := "1.0"
    UnitPriceAmount := { Text := unitPrice, CurrencyID := "USD" }
    Item := { Property := properties }
    Discount := discounts }

/-- A quote line with the given quantity text. -/
def lineOfQuantity (quantity : String) : XMLQuoteLine :=
  { LineNumber := "1.0", Quantity := quantity }

/-- A quote line whose upstream amounts are `"99.5"` and `"199"`. -/
def lineWithAmounts : XMLQuoteLine :=
  { LineNumber := "1.0"
    ExtendedAmount := { Text := "99.5", CurrencyID := "USD" }
    TotalAmount := { Text := "199", CurrencyID := "USD" } }

/-- A quote line whose item has the given properties. -/
def lineWithProperties (properties : List XMLProperty) : XMLQuoteLine :=
  { LineNumber := "1.0", Item := { Property := properties } }

/-! # Theorems -/

/-! ## Rounding -/

theorem bitLenAux_le_iff (fuel n m : Nat) (h : n ≤ fuel) : bitLenAux fuel n ≤ m ↔ n < 2 ^ m := by
  induction fuel generalizing n m with
  | zero =>
    have : n = 0 := by omega
    subst this
    simp [bitLenAux]
  | succ fuel ih =>
    unfold bitLenAux
    by_cases hn : n = 0
    · subst hn
      simp
    · simp only [hn, if_false]
      cases m with
      | zero =>
        simp only [pow_zero, Nat.lt_one_iff]
        omega
      | succ m =>
        rw [Nat.succ_le_succ_iff, ih (n / 2) m (by omega), pow_succ,
          Nat.div_lt_iff_lt_mul (by norm_num)]

/-- A number has at most `m` binary digits exactly when it is below `2^m`. -/
theorem bitLen_le_iff (n m : Nat) : bitLen n ≤ m ↔ n < 2 ^ m :=
  bitLenAux_le_iff n n m le_rfl

theorem lt_two_pow_bitLen (n : Nat) : n < 2 ^ bitLen n :=
  (bitLen_le_iff n (bitLen n)).1 le_rfl

theorem roundHalfEven_exact (n b : Nat) (hb : 0 < b) : roundHalfEven (n * b) b = n := by
  unfold roundHalfEven
  simp [Nat.mul_div_cancel _ hb, hb]

theorem roundHalfEven_le (a b : Nat) : roundHalfEven a b ≤ a / b + 1 := by
  unfold roundHalfEven
  simp only
  split_ifs <;> omega

theorem le_roundHalfEven (a b : Nat) : a / b ≤ roundHalfEven a b := by
  unfold roundHalfEven
  simp only
  split_ifs <;> omega

/-- Rounding to `p` bits leaves alone a number with at most `p` significant bits. -/
theorem roundToBits_exact (p a b n k j : Nat) (hb : 0 < b) (ha : a = n * b)
    (hn : n = k * 2 ^ j) (hk : k < 2 ^ p) : roundToBits p a b = n := by
  subst ha
  unfold roundToBits
  simp only [Nat.mul_div_cancel _ hb]
  split_ifs with hlt
  · exact roundHalfEven_exact n b hb
  · have hsh : bitLen n - p ≤ j := by
      have : bitLen n ≤ p + j := by
        rw [bitLen_le_iff, hn, pow_add]
        exact Nat.mul_lt_mul_of_lt_of_le hk le_rfl (by positivity)
      omega
    have hsplit : n = k * 2 ^ (j - (bitLen n - p)) * 2 ^ (bitLen n - p) := by
      rw [mul_assoc, ← pow_add, Nat.sub_add_cancel hsh]
      exact hn
    have : n * b = k * 2 ^ (j - (bitLen n - p)) * (b * 2 ^ (bitLen n - p)) := by
      conv_lhs => rw [hsplit]
      ring
    rw [this, roundHalfEven_exact _ _ (by positivity)]
    exact hsplit.symm

/-- The result of rounding to `p` bits has at most `p` significant bits. -/
theorem roundToBits_repr (p a b : Nat) (hp : 0 < p) :
    ∃ k j, roundToBits p a b = k * 2 ^ j ∧ k < 2 ^ p := by
  have carry : ∀ r sh : Nat, r ≤ 2 ^ p → ∃ k j, r * 2 ^ sh = k * 2 ^ j ∧ k < 2 ^ p := by
    intro r sh hr
    by_cases h : r < 2 ^ p
    · exact ⟨r, sh, rfl, h⟩
    · have hr' : r = 2 ^ p := by omega
      refine ⟨2 ^ (p - 1), sh + 1, ?_, Nat.pow_lt_pow_right (by norm_num) (by omega)⟩
      rw [hr', ← pow_add, ← pow_add]
      congr 1
      omega
  unfold roundToBits
  simp only
  split_ifs with hlt
  · have := roundHalfEven_le a b
    obtain ⟨k, j, h1, h2⟩ := carry (roundHalfEven a b) 0 (by omega)
    exact ⟨k, j, by simpa using h1, h2⟩
  · apply carry
    have hlen : p < bitLen (a / b) := by
      by_contra hcon
      exact hlt ((bitLen_le_iff _ _).1 (by omega))
    have h1 := roundHalfEven_le a (b * 2 ^ (bitLen (a / b) - p))
    have h2 : a / (b * 2 ^ (bitLen (a / b) - p)) < 2 ^ p := by
      rw [← Nat.div_div_eq_div_mul, Nat.div_lt_iff_lt_mul (by positivity), ← pow_add]
      have := lt_two_pow_bitLen (a / b)
      rwa [show p + (bitLen (a / b) - p) = bitLen (a / b) by omega]
    omega


/-- A number with more than `m` binary digits is at least `2^m`. -/
theorem two_pow_le_of_lt_bitLen (n m : Nat) (h : m < bitLen n) : 2 ^ m ≤ n := by
  by_contra hcon
  have := (bitLen_le_iff n m).2 (by omega)
  omega

/-- `float32` rounds a natural number to infinity exactly from `2^128 - 2^103` on. -/
theorem float32_overflow_iff (n : Nat) :
    2 ^ 128 ≤ roundToBits 24 n 1 ↔ float32Overflow ≤ n := by
  unfold roundToBits float32Overflow
  simp only [Nat.div_one, one_mul]
  split_ifs with hlt
  · have := roundHalfEven_exact n 1 (by norm_num)
    rw [mul_one] at this
    rw [this]
    constructor <;> intro h <;> omega
  · have hlen : 24 < bitLen n := by
      by_contra hcon
      exact hlt ((bitLen_le_iff _ _).1 (by omega))
    have hhi := lt_two_pow_bitLen n
    have hlo := two_pow_le_of_lt_bitLen n (bitLen n - 1) (by omega)
    generalize bitLen n = L at hlen hhi hlo
    obtain ⟨sh, rfl⟩ : ∃ sh, L = sh + 24 := ⟨L - 24, by omega⟩
    simp only [Nat.add_sub_cancel]
    have hq_hi : n / 2 ^ sh < 2 ^ 24 := by
      rw [Nat.div_lt_iff_lt_mul (by positivity), ← pow_add, add_comm]
      exact hhi
    have hq_lo : 2 ^ 23 ≤ n / 2 ^ sh := by
      rw [Nat.le_div_iff_mul_le (by positivity), ← pow_add]
      rwa [show sh + 24 - 1 = 23 + sh by omega] at hlo
    have hr_hi := roundHalfEven_le n (2 ^ sh)
    have hr_lo := le_roundHalfEven n (2 ^ sh)
    rcases Nat.lt_trichotomy sh 104 with hsh | hsh | hsh
    · have h1 : roundHalfEven n (2 ^ sh) * 2 ^ sh ≤ 2 ^ 24 * 2 ^ 103 :=
        Nat.mul_le_mul (by omega) (Nat.pow_le_pow_right (by norm_num) (by omega))
      have h2 : n < 2 ^ 127 :=
        lt_of_lt_of_le hhi (Nat.pow_le_pow_right (by norm_num) (by omega))
      constructor <;> intro h <;> omega
    · subst hsh
      unfold roundHalfEven
      simp only
      split_ifs <;> constructor <;> intro h <;> omega
    · have h1 : 2 ^ 23 * 2 ^ 105 ≤ roundHalfEven n (2 ^ sh) * 2 ^ sh :=
        Nat.mul_le_mul (by omega) (Nat.pow_le_pow_right (by norm_num) (by omega))
      have h2 : 2 ^ 128 ≤ n :=
        le_trans (Nat.pow_le_pow_right (by norm_num) (by omega)) hlo
      constructor <;> intro h <;> omega

namespace Float64

theorem scale_pos : 0 < scale := by
  unfold scale
  positivity

/-- Rounding to a double leaves alone a magnitude with at most 53 significant
bits below the overflow threshold. -/
theorem round_exact (s : Bool) (n b k j : Nat) (hb : 0 < b) (hn : n = k * 2 ^ j)
    (hk : k < 2 ^ 53) (hov : n < overflow) : round s (n * b) b = fin s n := by
  unfold round
  simp only [roundToBits_exact 53 (n * b) b n k j hb rfl hn hk]
  rw [if_neg (by omega)]

/-- A natural number with at most 53 significant bits, below `2^1024`, converts exactly. -/
theorem ofNat_exact (K k j : Nat) (hK : K = k * 2 ^ j) (hk : k < 2 ^ 53) (hlt : K < 2 ^ 1024) :
    ofNat K = fin false (K * scale) := by
  unfold ofNat
  have := round_exact false (K * scale) 1 k (j + 1074) (by norm_num)
    (by rw [hK, scale, pow_add]; ring) hk
    (by
      unfold overflow scale
      rw [show 2098 = 1024 + 1074 from rfl, pow_add]
      exact Nat.mul_lt_mul_of_lt_of_le hlt le_rfl (by positivity))
  rwa [mul_one] at this

theorem ofNat_zero : ofNat 0 = fin false 0 := by
  have := ofNat_exact 0 0 0 (Nat.zero_mul _).symm (pow_pos (by norm_num) _)
    (pow_pos (by norm_num) _)
  rwa [Nat.zero_mul] at this

theorem ofNat_thirty : ofNat 30 = fin false (30 * scale) :=
  ofNat_exact 30 15 1 (by norm_num) (by norm_num) (by
    calc 30 < 2 ^ 5 := by norm_num
      _ ≤ 2 ^ 1024 := Nat.pow_le_pow_right (by norm_num) (by norm_num))

theorem ofNat_hundred : ofNat 100 = fin false (100 * scale) :=
  ofNat_exact 100 25 2 (by norm_num) (by norm_num) (by
    calc 100 < 2 ^ 7 := by norm_num
      _ ≤ 2 ^ 1024 := Nat.pow_le_pow_right (by norm_num) (by norm_num))

theorem add_fin (a b : Nat) : (fin false a).add (fin false b) = round false (a + b) 1 := by
  simp only [add, if_true]

theorem mul_fin (a b : Nat) : (fin false a).mul (fin false b) = round false (a * b) scale := by
  simp only [mul, Bool.xor_false]

theorem div_fin (a b : Nat) (hb : b ≠ 0) :
    (fin false a).div (fin false b) = round false (a * scale) b := by
  simp only [div, hb, if_false, Bool.xor_false]

/-- The bounds on a number that `float32` holds, as needed for `float64`. -/
theorem float32_bounds (K k : Nat) (hk : k < 2 ^ 24) (hlt : K < 2 ^ 128) :
    k < 2 ^ 53 ∧ K < 2 ^ 1024 :=
  ⟨lt_of_lt_of_le hk (Nat.pow_le_pow_right (by norm_num) (by norm_num)),
    lt_of_lt_of_le hlt (Nat.pow_le_pow_right (by norm_num) (by norm_num))⟩

/-- Adding to `0.0` a number that `float32` holds gives that number. -/
theorem zero_add_exact (K k j : Nat) (hK : K = k * 2 ^ j) (hk : k < 2 ^ 24) (hlt : K < 2 ^ 128) :
    (ofNat 0).add (ofNat K) = ofNat K := by
  obtain ⟨hK53, hK1024⟩ := float32_bounds K k hk hlt
  rw [ofNat_zero, ofNat_exact K k j hK hK53 hK1024, add_fin, Nat.zero_add,
    ← ofNat_exact K k j hK hK53 hK1024, ofNat]

/-- The quotient `0.0 / 30` is `0.0`. -/
theorem zero_div_thirty : (ofNat 0).div (ofNat 30) = fin false 0 := by
  have h30 : 30 * scale ≠ 0 := Nat.mul_ne_zero (by norm_num) (Nat.pos_iff_ne_zero.1 scale_pos)
  rw [ofNat_zero, ofNat_thirty, div_fin _ _ h30, Nat.zero_mul]
  have := round_exact false 0 (30 * scale) 0 0 (Nat.pos_of_ne_zero h30) (Nat.zero_mul _).symm
    (pow_pos (by norm_num) _) (pow_pos (by norm_num) _)
  rwa [Nat.zero_mul] at this

/-- Adding `0.0 / 30` to a number that `float32` holds gives that number. -/
theorem add_zero_div_exact (K k j : Nat) (hK : K = k * 2 ^ j) (hk : k < 2 ^ 24)
    (hlt : K < 2 ^ 128) : (ofNat K).add ((ofNat 0).div (ofNat 30)) = ofNat K := by
  obtain ⟨hK53, hK1024⟩ := float32_bounds K k hk hlt
  rw [zero_div_thirty, ofNat_exact K k j hK hK53 hK1024, add_fin, Nat.add_zero,
    ← ofNat_exact K k j hK hK53 hK1024, ofNat]

/-- Scaling a number that `float32` holds by `100`, rounding to an integer and
scaling back returns the number. -/
theorem hundred_round_trip (K k j : Nat) (hK : K = k * 2 ^ j) (hk : k < 2 ^ 24)
    (hlt : K < 2 ^ 128) :
    (((ofNat K).mul (ofNat 100)).Round).div (ofNat 100) = ofNat K := by
  obtain ⟨hK53, hK1024⟩ := float32_bounds K k hk hlt
  have hsc := scale_pos
  have h100 : 100 * scale ≠ 0 := Nat.mul_ne_zero (by norm_num) (Nat.pos_iff_ne_zero.1 hsc)
  have hov : ∀ X : Nat, X < 2 ^ 1024 → X * scale < overflow := by
    intro X hX
    unfold overflow scale
    rw [show 2098 = 1024 + 1074 from rfl, pow_add]
    exact Nat.mul_lt_mul_of_lt_of_le hX le_rfl (pow_pos (by norm_num) _)
  have hK100 : K * 100 < 2 ^ 1024 := by
    calc K * 100 < 2 ^ 128 * 2 ^ 7 := by omega
      _ = 2 ^ 135 := by rw [← pow_add]
      _ ≤ 2 ^ 1024 := Nat.pow_le_pow_right (by norm_num) (by norm_num)
  have hmul : round false (K * scale * (100 * scale)) scale = fin false (K * 100 * scale) := by
    have := round_exact false (K * 100 * scale) scale (k * 25) (j + 2 + 1074) hsc
      (by rw [hK, scale]; ring) (by omega) (hov _ hK100)
    rw [← this, show K * scale * (100 * scale) = K * 100 * scale * scale by ring]
  have hround : (fin false (K * 100 * scale)).Round = fin false (K * 100 * scale) := by
    simp only [Round]
    rw [show 2 * (K * 100 * scale) + scale = (2 * (K * 100) + 1) * scale by ring,
      Nat.mul_div_mul_right _ _ hsc, show (2 * (K * 100) + 1) / 2 = K * 100 by omega]
  have hdiv : round false (K * 100 * scale * scale) (100 * scale) = fin false (K * scale) := by
    have := round_exact false (K * scale) (100 * scale) k (j + 1074) (Nat.pos_of_ne_zero h100)
      (by rw [hK, scale, pow_add]; ring) hK53 (hov _ hK1024)
    rw [← this, show K * 100 * scale * scale = K * scale * (100 * scale) by ring]
  rw [ofNat_exact K k j hK hK53 hK1024, ofNat_hundred, mul_fin, hmul, hround, div_fin _ _ h100,
    hdiv]

end Float64

/-! ## The matcher -/

/-- `isDigits` unfolded. -/
theorem isDigits_iff (ds : List Char) :
    isDigits ds = true ↔ ds ≠ [] ∧ ∀ c ∈ ds, c.isDigit = true := by
  cases ds <;> simp [isDigits]

/-- The inputs left by `a+` are those reached by dropping a nonempty prefix of
characters that `a` accepts. -/
theorem mem_plusRests (a : Atom) (s r : List Char) :
    r ∈ plusRests a s ↔ ∃ w, w ≠ [] ∧ (∀ c ∈ w, a.test c = true) ∧ s = w ++ r := by
  induction s with
  | nil =>
    simp only [plusRests, List.not_mem_nil, false_iff]
    rintro ⟨w, hw, -, h⟩
    cases w with
    | nil => exact hw rfl
    | cons y w => simp at h
  | cons x xs ih =>
    unfold plusRests
    by_cases hx : a.test x = true
    · simp only [hx, if_true, List.mem_append, List.mem_singleton, ih]
      constructor
      · rintro (⟨w, hw, hall, rfl⟩ | rfl)
        · exact ⟨x :: w, by simp, by simpa [hx] using hall, rfl⟩
        · exact ⟨[x], by simp, by simpa using hx, rfl⟩
      · rintro ⟨w, hw, hall, h⟩
        cases w with
        | nil => exact absurd rfl hw
        | cons y w =>
          simp only [List.cons_append, List.cons.injEq] at h
          obtain ⟨rfl, rfl⟩ := h
          cases w with
          | nil => exact Or.inr rfl
          | cons z w =>
            exact Or.inl ⟨z :: w, by simp, fun c hc => hall c (List.mem_cons_of_mem _ hc), rfl⟩
    · simp only [hx, Bool.false_eq_true, if_false, List.not_mem_nil, false_iff]
      rintro ⟨w, hw, hall, h⟩
      cases w with
      | nil => exact hw rfl
      | cons y w =>
        simp only [List.cons_append, List.cons.injEq] at h
        exact hx (h.1 ▸ hall y (List.mem_cons_self _ _))

/-- The threads of a sequence. -/
theorem mem_run_seq (r₁ r₂ : Regex) (s : List Char) (c : Caps) (t : List Char × Caps) :
    t ∈ (Regex.seq r₁ r₂).run s c ↔ ∃ t₁ ∈ r₁.run s c, t ∈ r₂.run t₁.1 t₁.2 := by
  simp [Regex.run, List.mem_flatMap]

/-- The threads of a literal. -/
theorem mem_run_lit (x : Char) (s : List Char) (c : Caps) (t : List Char × Caps) :
    t ∈ (Regex.atom (.lit x)).run s c ↔ s = x :: t.1 ∧ t.2 = c := by
  cases s with
  | nil => simp [Regex.run]
  | cons y ys =>
    by_cases h : y = x
    · subst h
      simp only [Regex.run, Atom.test, beq_self_eq_true, if_true, List.mem_singleton,
        List.cons.injEq, true_and]
      constructor
      · rintro rfl
        exact ⟨rfl, rfl⟩
      · rintro ⟨h1, h2⟩
        exact Prod.ext h1.symm h2
    · simp [Regex.run, Atom.test, h]

/-- The threads of an optional component `(?:(\d+)L)?`: skip it, or take a
nonempty run of digits followed by the letter, captured by the group. -/
theorem mem_run_unitRe (i : Nat) (L : Char) (s : List Char) (c : Caps) (t : List Char × Caps) :
    t ∈ (unitRe i L).run s c ↔
      t = (s, c) ∨ ∃ ds, isDigits ds = true ∧ s = ds ++ L :: t.1 ∧ t.2 = Function.update c i ds := by
  unfold unitRe
  simp only [Regex.run, List.mem_append, List.mem_singleton, List.mem_flatMap, List.mem_map,
    mem_plusRests, Atom.test, isDigits_iff]
  constructor
  · rintro (⟨t₁, ⟨t₀, ⟨r, ⟨w, hw, hall, rfl⟩, rfl⟩, rfl⟩, ht⟩ | rfl)
    · right
      have := (mem_run_lit L _ _ t).1 (by simpa [Regex.run, Atom.test] using ht)
      refine ⟨w, ⟨hw, hall⟩, ?_, ?_⟩
      · rw [← this.1]
      · rw [this.2]
    · exact Or.inl rfl
  · rintro (rfl | ⟨ds, ⟨hne, hall⟩, hs, hc⟩)
    · exact Or.inr rfl
    · left
      refine ⟨(L :: t.1, Function.update c i ds), ⟨(L :: t.1, c), ⟨L :: t.1, ⟨ds, hne, hall, hs⟩, rfl⟩, ?_⟩, ?_⟩
      · subst hs
        simp
      · have := (mem_run_lit L (L :: t.1) (Function.update c i ds) t).2 ⟨rfl, hc⟩
        simpa [Regex.run, Atom.test] using this


/-- The threads of `a+`. -/
theorem mem_run_plus (a : Atom) (s : List Char) (c : Caps) (t : List Char × Caps) :
    t ∈ (Regex.plus a).run s c ↔
      ∃ w, w ≠ [] ∧ (∀ x ∈ w, a.test x = true) ∧ s = w ++ t.1 ∧ t.2 = c := by
  simp only [Regex.run, List.mem_map, mem_plusRests]
  constructor
  · rintro ⟨r, ⟨w, hw, hall, hs⟩, rfl⟩
    exact ⟨w, hw, hall, hs, rfl⟩
  · rintro ⟨w, hw, hall, hs, hc⟩
    exact ⟨t.1, ⟨w, hw, hall, hs⟩, Prod.ext rfl hc.symm⟩

/-- The threads of the dot. -/
theorem mem_run_any (s : List Char) (c : Caps) (t : List Char × Caps) :
    t ∈ (Regex.atom .any).run s c ↔ ∃ x, (x != '\n') = true ∧ s = x :: t.1 ∧ t.2 = c := by
  cases s with
  | nil => simp [Regex.run]
  | cons y ys =>
    by_cases h : (y != '\n') = true
    · simp only [Regex.run, Atom.test, h, if_true, List.mem_singleton, List.cons.injEq]
      constructor
      · rintro rfl
        exact ⟨y, h, ⟨rfl, rfl⟩, rfl⟩
      · rintro ⟨x, -, ⟨-, h1⟩, h2⟩
        exact Prod.ext h1.symm h2
    · simp only [Regex.run, Atom.test, h, Bool.false_eq_true, if_false, List.not_mem_nil,
        List.cons.injEq, false_iff]
      rintro ⟨x, hx, ⟨rfl, -⟩, -⟩
      exact h hx

/-- The threads of an optional pattern: those of the pattern, then the skip. -/
theorem mem_run_opt (r : Regex) (s : List Char) (c : Caps) (t : List Char × Caps) :
    t ∈ (Regex.opt r).run s c ↔ t ∈ r.run s c ∨ t = (s, c) := by
  rw [Regex.run, List.mem_append, List.mem_singleton]

/-- The text a group records: what was consumed between the input and the rest. -/
theorem take_consumed (w r : List Char) : (w ++ r).take ((w ++ r).length - r.length) = w := by
  simp

/-- A fraction is well formed when its separator is no newline and its digits
are a nonempty digit string. -/
theorem mem_run_secondsBody (s : List Char) (c : Caps) (t : List Char × Caps) :
    t ∈ (Regex.seq (.plus .digit) (.opt (.seq (.atom .any) (.plus .digit)))).run s c ↔
      ∃ ds fr, isDigits ds = true ∧
        fr.all (fun f => f.1 != '\n' && isDigits f.2) = true ∧
        s = (ds ++ fracText fr) ++ t.1 ∧ t.2 = c := by
  rw [mem_run_seq]
  constructor
  · rintro ⟨t₁, h₁, h₂⟩
    obtain ⟨ds, hne, hall, hs, hc⟩ := (mem_run_plus _ _ _ _).1 h₁
    have hds : isDigits ds = true := (isDigits_iff ds).2 ⟨hne, hall⟩
    rw [mem_run_opt] at h₂
    rcases h₂ with h₂ | rfl
    · obtain ⟨t₂, h₃, h₄⟩ := (mem_run_seq _ _ _ _ _).1 h₂
      obtain ⟨x, hx, hs₂, hc₂⟩ := (mem_run_any _ _ _).1 h₃
      obtain ⟨fs, hfne, hfall, hs₃, hc₃⟩ := (mem_run_plus _ _ _ _).1 h₄
      refine ⟨ds, some (x, fs), hds, ?_, ?_, ?_⟩
      · simp [hx, (isDigits_iff fs).2 ⟨hfne, hfall⟩]
      · rw [hs, hs₂, hs₃]
        simp [fracText]
      · rw [hc₃, hc₂, hc]
    · exact ⟨ds, none, hds, rfl, by simpa [fracText] using hs, hc⟩
  · rintro ⟨ds, fr, hds, hfr, hs, hc⟩
    obtain ⟨hne, hall⟩ := (isDigits_iff ds).1 hds
    refine ⟨(fracText fr ++ t.1, c), (mem_run_plus _ _ _ _).2 ⟨ds, hne, hall, by simpa using hs, rfl⟩, ?_⟩
    rw [mem_run_opt]
    cases fr with
    | none => exact Or.inr (Prod.ext (by simp [fracText]) hc)
    | some f =>
      obtain ⟨x, fs⟩ := f
      simp only [Option.all_some, Bool.and_eq_true] at hfr
      obtain ⟨hfne, hfall⟩ := (isDigits_iff fs).1 hfr.2
      left
      refine (mem_run_seq _ _ _ _ _).2 ⟨(fs ++ t.1, c),
        (mem_run_any (fracText (some (x, fs)) ++ t.1) c (fs ++ t.1, c)).2
          ⟨x, hfr.1, by simp [fracText], rfl⟩, ?_⟩
      exact (mem_run_plus _ _ _ _).2 ⟨fs, hfne, hfall, rfl, hc⟩

/-- The threads of the seconds component: skip it, or take integer digits, an
optional separator with fraction digits, and the letter `S`. -/
theorem mem_run_secondsRe (s : List Char) (c : Caps) (t : List Char × Caps) :
    t ∈ secondsRe.run s c ↔
      t = (s, c) ∨ ∃ ds fr, isDigits ds = true ∧
        fr.all (fun f => f.1 != '\n' && isDigits f.2) = true ∧
        s = (ds ++ fracText fr) ++ 'S' :: t.1 ∧ t.2 = Function.update c 6 (ds ++ fracText fr) := by
  unfold secondsRe
  rw [mem_run_opt, mem_run_seq]
  constructor
  · rintro (⟨t₁, h₁, h₂⟩ | rfl)
    · right
      rw [Regex.run, List.mem_map] at h₁
      obtain ⟨t₀, h₀, rfl⟩ := h₁
      obtain ⟨ds, fr, hds, hfr, hs, hc⟩ := (mem_run_secondsBody _ _ _).1 h₀
      obtain ⟨hs₂, hc₂⟩ := (mem_run_lit _ _ _ _).1 h₂
      simp only at hs₂ hc₂
      refine ⟨ds, fr, hds, hfr, by rw [hs, hs₂], ?_⟩
      rw [hc₂, hc]
      conv_lhs => rw [hs, take_consumed]
    · exact Or.inl rfl
  · rintro (rfl | ⟨ds, fr, hds, hfr, hs, hc⟩)
    · exact Or.inr rfl
    · left
      refine ⟨('S' :: t.1, Function.update c 6 (ds ++ fracText fr)), ?_, (mem_run_lit _ _ _ _).2 ⟨rfl, hc⟩⟩
      rw [Regex.run, List.mem_map]
      refine ⟨('S' :: t.1, c), (mem_run_secondsBody _ _ _).2 ⟨ds, fr, hds, hfr, hs, rfl⟩, ?_⟩
      simp only
      conv_lhs => rw [hs, take_consumed]


/-- The threads of an optional component, by the component taken. -/
theorem mem_run_unitRe_opt (i : Nat) (L : Char) (s : List Char) (c : Caps)
    (t : List Char × Caps) :
    t ∈ (unitRe i L).run s c ↔
      ∃ o : Option (List Char), o.all isDigits = true ∧ s = unitText o L ++ t.1 ∧
        t.2 = setCap c i o := by
  rw [mem_run_unitRe]
  constructor
  · rintro (rfl | ⟨ds, hds, hs, hc⟩)
    · exact ⟨none, rfl, rfl, rfl⟩
    · exact ⟨some ds, hds, by simpa [unitText] using hs, hc⟩
  · rintro ⟨o, ho, hs, hc⟩
    cases o with
    | none => exact Or.inl (Prod.ext (by simpa [unitText] using hs.symm) hc)
    | some ds => exact Or.inr ⟨ds, ho, by simpa [unitText] using hs, hc⟩

/-- The threads of the seconds component, by the component taken. -/
theorem mem_run_secondsRe_opt (s : List Char) (c : Caps) (t : List Char × Caps) :
    t ∈ secondsRe.run s c ↔
      ∃ o : Option (List Char × Option (Char × List Char)),
        o.all (fun sec => isDigits sec.1 &&
          sec.2.all (fun fr => fr.1 != '\n' && isDigits fr.2)) = true ∧
        s = secondsText o ++ t.1 ∧
        t.2 = setCap c 6 (o.map (fun sec => sec.1 ++ fracText sec.2)) := by
  rw [mem_run_secondsRe]
  constructor
  · rintro (rfl | ⟨ds, fr, hds, hfr, hs, hc⟩)
    · exact ⟨none, rfl, rfl, rfl⟩
    · exact ⟨some (ds, fr), by simp [hds, hfr], by simpa [secondsText] using hs, hc⟩
  · rintro ⟨o, ho, hs, hc⟩
    cases o with
    | none => exact Or.inl (Prod.ext (by simpa [secondsText] using hs.symm) hc)
    | some sec =>
      obtain ⟨ds, fr⟩ := sec
      simp only [Option.all_some, Bool.and_eq_true] at ho
      exact Or.inr ⟨ds, fr, ho.1, ho.2, by simpa [secondsText] using hs, hc⟩

/-- The accepting threads of the pattern body: the input is a duration string
whose fraction separator is any character but a newline, and the captures are
those of its components. -/
theorem mem_run_body (s : List Char) (c c' : Caps) :
    ([], c') ∈ durationRe.body.run s c ↔
      ∃ p : DurationParts, p.wellFormed (fun sep => sep != '\n') = true ∧ s = p.render ∧
        c' = p.captures c := by
  simp only [durationRe, dateRe, timeRe, mem_run_seq, mem_run_unitRe_opt, mem_run_secondsRe_opt,
    mem_run_lit]
  constructor
  · rintro ⟨t₁, ⟨hs₁, hc₁⟩, t₂, ⟨t₃, ⟨oy, hy, hs₃, hc₃⟩, t₄, ⟨om, hm, hs₄, hc₄⟩, t₅,
      ⟨od, hd, hs₅, hc₅⟩, hs₂, hc₂⟩, t₆, ⟨oh, hh, hs₆, hc₆⟩, t₇, ⟨omi, hmi, hs₇, hc₇⟩,
      osec, hsec, hs₈, hc₈⟩
    refine ⟨⟨oy, om, od, oh, omi, osec⟩, ?_, ?_, ?_⟩
    · simp [DurationParts.wellFormed, hy, hm, hd, hh, hmi, hsec]
    · simp only [DurationParts.render]
      rw [hs₁, hs₃, hs₄, hs₅, hs₂, hs₆, hs₇, hs₈]
      simp
    · simp only [DurationParts.captures]
      rw [hc₈, hc₇, hc₆, hc₂, hc₅, hc₄, hc₃, hc₁]
  · rintro ⟨p, hp, rfl, rfl⟩
    simp only [DurationParts.wellFormed, Bool.and_eq_true] at hp
    obtain ⟨⟨⟨⟨⟨hy, hm⟩, hd⟩, hh⟩, hmi⟩, hsec⟩ := hp
    simp only [DurationParts.render, DurationParts.captures]
    refine ⟨(_, c), ⟨rfl, rfl⟩, (_, _), ⟨(_, _), ⟨p.years, hy, rfl, rfl⟩, (_, _),
      ⟨p.months, hm, rfl, rfl⟩, (_, _), ⟨p.days, hd, rfl, rfl⟩, rfl, rfl⟩, (_, _),
      ⟨p.hours, hh, rfl, rfl⟩, (_, _), ⟨p.minutes, hmi, rfl, rfl⟩, p.seconds, hsec, ?_, rfl⟩
    exact (List.append_nil _).symm


/-! ## Unique reading of the date part -/

/-- A run of digits ended by a character that is no digit is determined by the string. -/
theorem digits_split_unique (ds ds' : List Char) (x x' : Char) (r r' : List Char)
    (hds : ∀ c ∈ ds, c.isDigit = true) (hds' : ∀ c ∈ ds', c.isDigit = true)
    (hx : x.isDigit = false) (hx' : x'.isDigit = false)
    (h : ds ++ x :: r = ds' ++ x' :: r') : ds = ds' ∧ x = x' ∧ r = r' := by
  induction ds generalizing ds' with
  | nil =>
    cases ds' with
    | nil => simpa using h
    | cons d' ds' =>
      simp only [List.nil_append, List.cons_append, List.cons.injEq] at h
      have := hds' d' (List.mem_cons_self _ _)
      rw [← h.1, hx] at this
      exact absurd this (by simp)
  | cons d ds ih =>
    cases ds' with
    | nil =>
      simp only [List.nil_append, List.cons_append, List.cons.injEq] at h
      have := hds d (List.mem_cons_self _ _)
      rw [h.1, hx'] at this
      exact absurd this (by simp)
    | cons d' ds' =>
      simp only [List.cons_append, List.cons.injEq] at h
      obtain ⟨h1, h2, h3⟩ := ih ds' (fun c hc => hds c (List.mem_cons_of_mem _ hc))
        (fun c hc => hds' c (List.mem_cons_of_mem _ hc)) h.2
      exact ⟨by rw [h.1, h1], h2, h3⟩

/-- An optional component in front of a headed string gives a headed string. -/
theorem headed_unitText (o : Option (List Char)) (L : Char) (allowed : List Char)
    (tail : List Char) (ho : o.all isDigits = true) (hL : L.isDigit = false)
    (ht : Headed allowed tail) : Headed (L :: allowed) (unitText o L ++ tail) := by
  cases o with
  | none =>
    obtain ⟨ds, x, r, hs, hds, hx, hmem⟩ := ht
    exact ⟨ds, x, r, by simpa [unitText] using hs, hds, hx, List.mem_cons_of_mem _ hmem⟩
  | some ds =>
    exact ⟨ds, L, tail, by simp [unitText], ((isDigits_iff ds).1 ho).2, hL,
      List.mem_cons_self _ _⟩

/-- An optional component is determined by the string when what follows it
cannot start with digits and its letter. -/
theorem unitText_unique (o o' : Option (List Char)) (L : Char) (allowed : List Char)
    (tail tail' : List Char) (ho : o.all isDigits = true) (ho' : o'.all isDigits = true)
    (hL : L.isDigit = false) (hLa : L ∉ allowed) (ht : Headed allowed tail)
    (ht' : Headed allowed tail') (h : unitText o L ++ tail = unitText o' L ++ tail') :
    o = o' ∧ tail = tail' := by
  cases o with
  | none =>
    cases o' with
    | none => exact ⟨rfl, by simpa [unitText] using h⟩
    | some ds' =>
      obtain ⟨ds, x, r, hs, hds, hx, hmem⟩ := ht
      rw [hs] at h
      simp only [unitText, List.nil_append, List.append_assoc, List.singleton_append] at h
      obtain ⟨-, h2, -⟩ := digits_split_unique ds ds' x L r tail' hds
        ((isDigits_iff ds').1 ho').2 hx hL h
      exact absurd (h2 ▸ hmem) hLa
  | some ds =>
    cases o' with
    | none =>
      obtain ⟨ds', x, r, hs, hds', hx, hmem⟩ := ht'
      rw [hs] at h
      simp only [unitText, List.nil_append, List.append_assoc, List.singleton_append] at h
      obtain ⟨-, h2, -⟩ := digits_split_unique ds ds' L x tail r ((isDigits_iff ds).1 ho).2
        hds' hL hx h
      exact absurd (h2 ▸ hmem) hLa
    | some ds' =>
      simp only [unitText, List.append_assoc, List.singleton_append] at h
      obtain ⟨h1, -, h3⟩ := digits_split_unique ds ds' L L tail tail'
        ((isDigits_iff ds).1 ho).2 ((isDigits_iff ds').1 ho').2 hL hL h
      exact ⟨by rw [h1], h3⟩

/-- Two readings of one duration string have the same months and days digits. -/
theorem render_date_unique (sepOk sepOk' : Char → Bool) (p p' : DurationParts)
    (hp : p.wellFormed sepOk = true) (hp' : p'.wellFormed sepOk' = true)
    (h : p.render = p'.render) : p.months = p'.months ∧ p.days = p'.days := by
  simp only [DurationParts.wellFormed, Bool.and_eq_true] at hp hp'
  obtain ⟨⟨⟨⟨⟨hy, hm⟩, hd⟩, -⟩, -⟩, -⟩ := hp
  obtain ⟨⟨⟨⟨⟨hy', hm'⟩, hd'⟩, -⟩, -⟩, -⟩ := hp'
  simp only [DurationParts.render, List.cons.injEq, true_and] at h
  have hT : ∀ t : List Char, Headed ['T'] ('T' :: t) := fun t =>
    ⟨[], 'T', t, rfl, by simp, by decide, by simp⟩
  have hD := fun (o : Option (List Char)) (ho : o.all isDigits = true) (t : List Char) =>
    headed_unitText o 'D' ['T'] _ ho (by decide) (hT t)
  have hM := fun (o o₂ : Option (List Char)) (ho : o.all isDigits = true)
      (ho₂ : o₂.all isDigits = true) (t : List Char) =>
    headed_unitText o 'M' ['D', 'T'] _ ho (by decide) (hD o₂ ho₂ t)
  obtain ⟨-, h₁⟩ := unitText_unique p.years p'.years 'Y' ['M', 'D', 'T'] _ _ hy hy' (by decide)
    (by decide) (hM _ _ hm hd _) (hM _ _ hm' hd' _) h
  obtain ⟨h₂, h₃⟩ := unitText_unique p.months p'.months 'M' ['D', 'T'] _ _ hm hm' (by decide)
    (by decide) (hD _ hd _) (hD _ hd' _) h₁
  obtain ⟨h₄, -⟩ := unitText_unique p.days p'.days 'D' ['T'] _ _ hd hd' (by decide)
    (by decide) (hT _) (hT _) h₃
  exact ⟨h₂, h₄⟩

/-- What a capture holds after an optional component. -/
theorem setCap_apply (c : Caps) (i j : Nat) (o : Option (List Char)) :
    setCap c i o j = if j = i then o.getD (c i) else c j := by
  cases o with
  | none => by_cases h : j = i <;> simp [setCap, h]
  | some ds => by_cases h : j = i <;> simp [setCap, Function.update, h]

/-- Groups 2 and 3 hold the months and days digits. -/
theorem captures_months_days (p : DurationParts) :
    p.captures (fun _ => []) 2 = p.months.getD [] ∧
      p.captures (fun _ => []) 3 = p.days.getD [] := by
  simp [DurationParts.captures, setCap_apply]

/-! ## `FindStringSubmatch` on the duration pattern -/

/-- The pattern rejects exactly the strings with no lenient reading. -/
theorem findStringSubmatch_eq_none (s : String) :
    durationRe.FindStringSubmatch s = none ↔ ¬ InLenientGrammar s := by
  have hbody := mem_run_body s.data (fun _ => [])
  simp only [Regexp.FindStringSubmatch, Regexp.matchAt, durationRe, if_true, Bool.not_true,
    Bool.false_or] at hbody ⊢
  constructor
  · intro h ⟨p, hp, hs⟩
    split at h
    · rename_i hfind
      rw [List.find?_eq_none] at hfind
      have := hfind ([], p.captures (fun _ => [])) ((hbody _).2 ⟨p, hp, hs, rfl⟩)
      simp at this
    · simp at h
  · intro h
    split
    · rfl
    · rename_i t hfind
      exfalso
      have hmem := List.mem_of_find?_eq_some hfind
      have hemp := List.find?_some hfind
      obtain ⟨r, c'⟩ := t
      simp only [List.isEmpty_iff] at hemp
      subst hemp
      obtain ⟨p, hp, hs, -⟩ := (hbody c').1 hmem
      exact h ⟨p, hp, hs⟩

/-- A match of the pattern comes from a lenient reading of the string, whose
months and days digits are the submatches 2 and 3. -/
theorem findStringSubmatch_eq_some (s : String) (ms : List String)
    (h : durationRe.FindStringSubmatch s = some ms) :
    ∃ p : DurationParts, p.wellFormed (fun sep => sep != '\n') = true ∧ s.data = p.render ∧
      ms.getD 2 "" = String.mk (p.months.getD []) ∧
      ms.getD 3 "" = String.mk (p.days.getD []) := by
  have hbody := mem_run_body s.data (fun _ => [])
  simp only [Regexp.FindStringSubmatch, Regexp.matchAt, durationRe, if_true, Bool.not_true,
    Bool.false_or] at hbody h
  split at h
  · simp at h
  · rename_i t hfind
    have hmem := List.mem_of_find?_eq_some hfind
    have hemp := List.find?_some hfind
    obtain ⟨r, c'⟩ := t
    simp only [List.isEmpty_iff] at hemp
    subst hemp
    obtain ⟨p, hp, hs, hc⟩ := (hbody c').1 hmem
    simp only [Option.some.injEq] at h
    subst h
    subst hc
    refine ⟨p, hp, hs, ?_, ?_⟩
    · simp [List.range_succ, (captures_months_days p).1]
    · simp [List.range_succ, (captures_months_days p).2]

/-- Well-formedness passes to a weaker condition on the separator. -/
theorem wellFormed_mono (sepOk sepOk' : Char → Bool) (p : DurationParts)
    (hsep : ∀ x, sepOk x = true → sepOk' x = true) (hp : p.wellFormed sepOk = true) :
    p.wellFormed sepOk' = true := by
  simp only [DurationParts.wellFormed, Bool.and_eq_true] at hp ⊢
  refine ⟨hp.1, ?_⟩
  cases hsec : p.seconds with
  | none => rfl
  | some sec =>
    have h := hp.2
    rw [hsec] at h
    simp only [Option.all_some, Bool.and_eq_true] at h ⊢
    refine ⟨h.1, ?_⟩
    cases hfr : sec.2 with
    | none => rfl
    | some fr =>
      have h2 := h.2
      rw [hfr] at h2
      simp only [Option.all_some, Bool.and_eq_true] at h2 ⊢
      exact ⟨hsep _ h2.1, h2.2⟩

/-- A string of the grammar of the specification has a lenient reading. -/
theorem lenient_of_grammar (s : String) (h : InDurationGrammar s) : InLenientGrammar s := by
  obtain ⟨p, hp, hs⟩ := h
  refine ⟨p, wellFormed_mono _ _ p (fun x hx => ?_) hp, hs⟩
  have : x = '.' := by simpa using hx
  subst this
  decide

/-- On a string with a lenient reading the pattern matches, and the submatches 2
and 3 are the months and days digits of the reading. -/
theorem findStringSubmatch_of_render (s : String) (p : DurationParts)
    (hp : p.wellFormed (fun sep => sep != '\n') = true) (hs : s.data = p.render) :
    ∃ ms, durationRe.FindStringSubmatch s = some ms ∧
      ms.getD 2 "" = String.mk (p.months.getD []) ∧
      ms.getD 3 "" = String.mk (p.days.getD []) := by
  cases hfind : durationRe.FindStringSubmatch s with
  | none => exact absurd ⟨p, hp, hs⟩ ((findStringSubmatch_eq_none s).1 hfind)
  | some ms =>
    obtain ⟨p', hp', hs', h2, h3⟩ := findStringSubmatch_eq_some s ms hfind
    obtain ⟨hm, hd⟩ := render_date_unique _ _ p p' hp hp' (hs ▸ hs')
    exact ⟨ms, rfl, by rw [h2, hm], by rw [h3, hd]⟩


/-! ## The duration parsers -/

theorem float32Overflow_pos : 0 < float32Overflow := by
  unfold float32Overflow
  norm_num

/-- Up to `2^24` the nearest `float32` of a natural number is the number. -/
theorem float32_exact_of_le (n : Nat) (h : n ≤ 2 ^ 24) : roundToBits 24 n 1 = n := by
  by_cases hlt : n < 2 ^ 24
  · exact roundToBits_exact 24 n 1 n n 0 (by norm_num) (by simp) (by simp) hlt
  · have : n = 2 ^ 24 := by omega
    subst this
    exact roundToBits_exact 24 _ 1 _ (2 ^ 23) 1 (by norm_num) (by simp) (by norm_num)
      (by norm_num)

/-- `ParseFloat32` by the value of the digits. -/
theorem parseFloat32_eq (s : String) :
    ParseFloat32 s =
      if float32Overflow ≤ decimalValue s.data then
        (Float64.inf false, some (.numError "ParseFloat" s "value out of range"))
      else (Float64.ofNat (roundToBits 24 (decimalValue s.data) 1), none) := by
  unfold ParseFloat32
  simp only [float32_overflow_iff]

/-- An absent component leaves the sum as it is. -/
theorem addComponent_absent (g : Float64 → Float64) (acc : Float64) :
    addComponent (String.mk []) g acc = .ok acc := by
  simp [addComponent]

/-- A component present is an error when out of the `float32` range, and
otherwise adds its nearest `float32`. -/
theorem addComponent_present (ds : List Char) (hds : isDigits ds = true)
    (g : Float64 → Float64) (acc : Float64) :
    addComponent (String.mk ds) g acc =
      if float32Overflow ≤ decimalValue ds then
        .error (.numError "ParseFloat" (String.mk ds) "value out of range")
      else .ok (acc.add (g (Float64.ofNat (roundToBits 24 (decimalValue ds) 1)))) := by
  have hne : String.mk ds ≠ "" := by
    intro h
    have : ds = [] := by simpa using congrArg String.data h
    exact ((isDigits_iff ds).1 hds).1 this
  simp only [addComponent, ne_eq, hne, not_false_eq_true, if_true, parseFloat32_eq]
  split_ifs <;> rfl

/-- The nearest `float32` of a value in range, as a number that `float32` holds. -/
theorem float32_value (n : Nat) (h : ¬ float32Overflow ≤ n) :
    ∃ k j, roundToBits 24 n 1 = k * 2 ^ j ∧ k < 2 ^ 24 ∧ roundToBits 24 n 1 < 2 ^ 128 := by
  obtain ⟨k, j, h1, h2⟩ := roundToBits_repr 24 n 1 (by norm_num)
  refine ⟨k, j, h1, h2, ?_⟩
  by_contra hcon
  exact h ((float32_overflow_iff n).1 (by omega))

/-- `isoDurationToDaysFloat` on a string read as components `p`: the nearest
`float32` of the days value, or the range error of `ParseFloat`. -/
theorem isoDurationToDaysFloat_render (s : String) (p : DurationParts)
    (hp : p.wellFormed (fun sep => sep != '\n') = true) (hs : s.data = p.render) :
    isoDurationToDaysFloat s =
      if float32Overflow ≤ componentValue p.days then
        (Float64.ofNat 0,
          some (.numError "ParseFloat" (String.mk (p.days.getD [])) "value out of range"))
      else (Float64.ofNat (roundToBits 24 (componentValue p.days) 1), none) := by
  obtain ⟨ms, hfind, -, h3⟩ := findStringSubmatch_of_render s p hp hs
  have hd : p.days.all isDigits = true := by
    simp only [DurationParts.wellFormed, Bool.and_eq_true] at hp
    exact hp.1.1.1.2
  unfold isoDurationToDaysFloat
  simp only [hfind, h3]
  cases hdays : p.days with
  | none =>
    have h0 : roundToBits 24 0 1 = 0 := float32_exact_of_le 0 (by norm_num)
    have := float32Overflow_pos
    simp only [Option.getD_none, addComponent_absent, componentValue, h0,
      if_neg (by omega : ¬ float32Overflow ≤ 0)]
    rw [Float64.hundred_round_trip 0 0 0 (by simp) (by norm_num) (by norm_num)]
  | some ds =>
    rw [hdays] at hd
    simp only [Option.getD_some, addComponent_present ds hd, componentValue]
    split_ifs with hov
    · rfl
    · obtain ⟨k, j, h1, h2, h3⟩ := float32_value _ hov
      simp only [Float64.zero_add_exact _ k j h1 h2 h3,
        Float64.hundred_round_trip _ k j h1 h2 h3]

/-- `isoDurationToMonthsFloat` on a string read as components `p`: the formula
of the source on the nearest `float32` of the months and days values, or the
range error of `ParseFloat` for the first component out of range. -/
theorem isoDurationToMonthsFloat_render (s : String) (p : DurationParts)
    (hp : p.wellFormed (fun sep => sep != '\n') = true) (hs : s.data = p.render) :
    isoDurationToMonthsFloat s =
      if float32Overflow ≤ componentValue p.months then
        (Float64.ofNat 0,
          some (.numError "ParseFloat" (String.mk (p.months.getD [])) "value out of range"))
      else if float32Overflow ≤ componentValue p.days then
        (Float64.ofNat 0,
          some (.numError "ParseFloat" (String.mk (p.days.getD [])) "value out of range"))
      else
        (((((Float64.ofNat (roundToBits 24 (componentValue p.months) 1)).add
            ((Float64.ofNat (roundToBits 24 (componentValue p.days) 1)).div
              (Float64.ofNat 30))).mul (Float64.ofNat 100)).Round).div (Float64.ofNat 100),
          none) := by
  obtain ⟨ms, hfind, h2, h3⟩ := findStringSubmatch_of_render s p hp hs
  have hwf := hp
  simp only [DurationParts.wellFormed, Bool.and_eq_true] at hwf
  have hm : p.months.all isDigits = true := hwf.1.1.1.1.2
  have hd : p.days.all isDigits = true := hwf.1.1.1.2
  have h0 : roundToBits 24 0 1 = 0 := float32_exact_of_le 0 (by norm_num)
  have hpos := float32Overflow_pos
  have hn0 : ¬ float32Overflow ≤ 0 := by omega
  unfold isoDurationToMonthsFloat
  simp only [hfind, h2, h3]
  cases hmonths : p.months with
  | none =>
    cases hdays : p.days with
    | none =>
      simp only [Option.getD_none, addComponent_absent, componentValue, h0, if_neg hn0]
      rw [Float64.add_zero_div_exact 0 0 0 (by simp) (by norm_num) (by norm_num)]
    | some dd =>
      rw [hdays] at hd
      simp only [Option.getD_none, Option.getD_some, addComponent_absent,
        addComponent_present dd hd, componentValue, h0, if_neg hn0]
      split_ifs with hov <;> rfl
  | some md =>
    rw [hmonths] at hm
    simp only [Option.getD_some, addComponent_present md hm, componentValue]
    by_cases hovm : float32Overflow ≤ decimalValue md
    · simp only [hovm, if_true]
    · obtain ⟨k, j, h1, h2, h3⟩ := float32_value _ hovm
      simp only [hovm, if_false, Float64.zero_add_exact _ k j h1 h2 h3]
      cases hdays : p.days with
      | none =>
        simp only [Option.getD_none, addComponent_absent, h0, if_neg hn0]
        rw [Float64.add_zero_div_exact _ k j h1 h2 h3]
      | some dd =>
        rw [hdays] at hd
        simp only [Option.getD_some, addComponent_present dd hd]
        split_ifs with hov <;> rfl


/-- A reading with `'.'` as separator is a lenient reading. -/
theorem wellFormed_lenient (p : DurationParts)
    (hp : p.wellFormed (fun sep => sep == '.') = true) :
    p.wellFormed (fun sep => sep != '\n') = true := by
  refine wellFormed_mono _ _ p (fun x hx => ?_) hp
  have : x = '.' := by simpa using hx
  subst this
  decide

/-- C4, amended: on a string of the duration grammar whose months and days values
are below the `float32` overflow threshold `2^128 - 2^103`,
`isoDurationToMonthsFloat` returns a nil error and
`Round((m + d/30) * 100) / 100` in `float64` arithmetic, `m` and `d` being the
nearest `float32` of the months and days values (`0` for an absent component),
which are the values themselves up to `2^24`; the result is the same for every
string of the grammar with the same months and days components. -/
theorem isoDurationToMonthsFloat_grammar (s : String) (p : DurationParts)
    (hp : p.wellFormed (fun sep => sep == '.') = true) (hs : s.data = p.render)
    (hm : componentValue p.months < float32Overflow)
    (hd : componentValue p.days < float32Overflow) :
    isoDurationToMonthsFloat s =
        (((((Float64.ofNat (roundToBits 24 (componentValue p.months) 1)).add
            ((Float64.ofNat (roundToBits 24 (componentValue p.days) 1)).div
              (Float64.ofNat 30))).mul (Float64.ofNat 100)).Round).div (Float64.ofNat 100),
          none) ∧
      (componentValue p.months ≤ 2 ^ 24 →
        roundToBits 24 (componentValue p.months) 1 = componentValue p.months) ∧
      (componentValue p.days ≤ 2 ^ 24 →
        roundToBits 24 (componentValue p.days) 1 = componentValue p.days) ∧
      ∀ (s' : String) (p' : DurationParts), p'.wellFormed (fun sep => sep == '.') = true →
        s'.data = p'.render → p'.months = p.months → p'.days = p.days →
        isoDurationToMonthsFloat s' = isoDurationToMonthsFloat s := by
  have key := isoDurationToMonthsFloat_render s p (wellFormed_lenient p hp) hs
  refine ⟨?_, float32_exact_of_le _, float32_exact_of_le _, fun s' p' hp' hs' hmm hdd => ?_⟩
  · rw [key, if_neg (by omega), if_neg (by omega)]
  · rw [key, isoDurationToMonthsFloat_render s' p' (wellFormed_lenient p' hp') hs', hmm, hdd]

/-- C5, amended: on a string of the duration grammar whose days value is below
the `float32` overflow threshold `2^128 - 2^103`, `isoDurationToDaysFloat`
returns a nil error and the nearest `float32` of the days value (`0` for an
absent component), which is the value itself up to `2^24`; the result is the
same for every string of the grammar with the same days component. -/
theorem isoDurationToDaysFloat_grammar (s : String) (p : DurationParts)
    (hp : p.wellFormed (fun sep => sep == '.') = true) (hs : s.data = p.render)
    (hd : componentValue p.days < float32Overflow) :
    isoDurationToDaysFloat s =
        (Float64.ofNat (roundToBits 24 (componentValue p.days) 1), none) ∧
      (componentValue p.days ≤ 2 ^ 24 →
        isoDurationToDaysFloat s = (Float64.ofNat (componentValue p.days), none)) ∧
      ∀ (s' : String) (p' : DurationParts), p'.wellFormed (fun sep => sep == '.') = true →
        s'.data = p'.render → p'.days = p.days →
        isoDurationToDaysFloat s' = isoDurationToDaysFloat s := by
  have key := isoDurationToDaysFloat_render s p (wellFormed_lenient p hp) hs
  rw [if_neg (by omega)] at key
  refine ⟨key, fun hle => ?_, fun s' p' hp' hs' hdd => ?_⟩
  · rw [key, float32_exact_of_le _ hle]
  · rw [isoDurationToDaysFloat_render s p (wellFormed_lenient p hp) hs,
      isoDurationToDaysFloat_render s' p' (wellFormed_lenient p' hp') hs', hdd]

/-- C6, amended: whenever either parser returns an error its number is `0`; on a
string of the duration grammar `isoDurationToMonthsFloat` returns an error
exactly when the months or the days value reaches the `float32` overflow
threshold and `isoDurationToDaysFloat` exactly when the days value does; and
a string that has no reading of the grammar's shape, even with an arbitrary
character other than a newline as fraction separator, gets the format error
from both. -/
theorem durationParsers_errors (s : String) :
    ((isoDurationToMonthsFloat s).2 ≠ none → (isoDurationToMonthsFloat s).1 = Float64.ofNat 0) ∧
      ((isoDurationToDaysFloat s).2 ≠ none → (isoDurationToDaysFloat s).1 = Float64.ofNat 0) ∧
      (∀ p : DurationParts, p.wellFormed (fun sep => sep == '.') = true → s.data = p.render →
        ((isoDurationToMonthsFloat s).2 ≠ none ↔
          float32Overflow ≤ componentValue p.months ∨ float32Overflow ≤ componentValue p.days) ∧
        ((isoDurationToDaysFloat s).2 ≠ none ↔ float32Overflow ≤ componentValue p.days)) ∧
      (¬ InLenientGrammar s →
        isoDurationToMonthsFloat s = (Float64.ofNat 0, some errIncorrectFormat) ∧
          isoDurationToDaysFloat s = (Float64.ofNat 0, some errIncorrectFormat)) := by
  refine ⟨?_, ?_, fun p hp hs => ⟨?_, ?_⟩, fun h => ?_⟩
  · unfold isoDurationToMonthsFloat
    cases durationRe.FindStringSubmatch s with
    | none => simp only [ne_eq, implies_true]
    | some ms =>
      simp only
      cases addComponent (ms.getD 2 "") (fun f => f) (Float64.ofNat 0) with
      | error err => simp only [ne_eq, implies_true]
      | ok x =>
        simp only
        cases addComponent (ms.getD 3 "") (fun f => f.div (Float64.ofNat 30)) x with
        | error err => simp only [ne_eq, implies_true]
        | ok y => simp only [ne_eq, not_true_eq_false, false_implies]
  · unfold isoDurationToDaysFloat
    cases durationRe.FindStringSubmatch s with
    | none => simp only [ne_eq, implies_true]
    | some ms =>
      simp only
      cases addComponent (ms.getD 3 "") (fun f => f) (Float64.ofNat 0) with
      | error err => simp only [ne_eq, implies_true]
      | ok x => simp only [ne_eq, not_true_eq_false, false_implies]
  · rw [isoDurationToMonthsFloat_render s p (wellFormed_lenient p hp) hs]
    split_ifs with h1 h2 <;> simp [*]
  · rw [isoDurationToDaysFloat_render s p (wellFormed_lenient p hp) hs]
    split_ifs with h1 <;> simp [*]
  · have hnone := (findStringSubmatch_eq_none s).2 h
    simp only [isoDurationToMonthsFloat, isoDurationToDaysFloat, hnone, and_self]

/-- The characters of an optional component are digits and its letter. -/
theorem mem_unitText (o : Option (List Char)) (L c : Char) (ho : o.all isDigits = true)
    (hc : c ∈ unitText o L) : c.isDigit = true ∨ c = L := by
  cases o with
  | none => simp [unitText] at hc
  | some ds =>
    simp only [unitText, List.mem_append, List.mem_singleton] at hc
    rcases hc with hc | hc
    · exact Or.inl (((isDigits_iff ds).1 ho).2 c hc)
    · exact Or.inr hc

/-- A string of the duration grammar holds only digits, designator letters and dots. -/
theorem mem_render (p : DurationParts) (hp : p.wellFormed (fun sep => sep == '.') = true)
    (c : Char) (hc : c ∈ p.render) :
    c.isDigit = true ∨ c ∈ ['P', 'Y', 'M', 'D', 'T', 'H', 'S', '.'] := by
  simp only [DurationParts.wellFormed, Bool.and_eq_true] at hp
  obtain ⟨⟨⟨⟨⟨hy, hm⟩, hd⟩, hh⟩, hmi⟩, hsec⟩ := hp
  simp only [DurationParts.render, List.mem_cons, List.mem_append] at hc
  rcases hc with hc | hc | hc | hc | hc | hc | hc | hc
  · simp [hc]
  · rcases mem_unitText _ _ _ hy hc with h | h <;> simp [h]
  · rcases mem_unitText _ _ _ hm hc with h | h <;> simp [h]
  · rcases mem_unitText _ _ _ hd hc with h | h <;> simp [h]
  · simp [hc]
  · rcases mem_unitText _ _ _ hh hc with h | h <;> simp [h]
  · rcases mem_unitText _ _ _ hmi hc with h | h <;> simp [h]
  · cases hsec' : p.seconds with
    | none => simp [hsec', secondsText] at hc
    | some sec =>
      obtain ⟨ds, fr⟩ := sec
      rw [hsec'] at hc hsec
      simp only [Option.all_some, Bool.and_eq_true] at hsec
      simp only [secondsText, List.mem_append, List.mem_singleton] at hc
      rcases hc with (hc | hc) | hc
      · exact Or.inl (((isDigits_iff ds).1 hsec.1).2 c hc)
      · cases fr with
        | none => simp [fracText] at hc
        | some f =>
          obtain ⟨sep, fs⟩ := f
          simp only [Option.all_some, Bool.and_eq_true, beq_iff_eq] at hsec
          simp only [fracText, List.mem_cons] at hc
          rcases hc with hc | hc
          · simp [hc, hsec.2.1]
          · exact Or.inl (((isDigits_iff fs).1 hsec.2.2).2 c hc)
      · simp [hc]


/-- C4 as stated fails on strings of the grammar: a months component of `10^39`
is beyond the `float32` range and the parser returns the range error of
`ParseFloat`; and a months component of 16777217 is rounded to the `float32`
16777216, although the formula on the numeric value 16777217 gives 16777217. -/
theorem isoDurationToMonthsFloat_grammar_counterexample :
    InDurationGrammar "P1000000000000000000000000000000000000000MT" ∧
      isoDurationToMonthsFloat "P1000000000000000000000000000000000000000MT" =
        (Float64.ofNat 0,
          some (.numError "ParseFloat" "1000000000000000000000000000000000000000"
            "value out of range")) ∧
      InDurationGrammar "P16777217MT" ∧
      isoDurationToMonthsFloat "P16777217MT" = (Float64.ofNat 16777216, none) ∧
      ((((Float64.ofNat 16777217).add ((Float64.ofNat 0).div (Float64.ofNat 30))).mul
        (Float64.ofNat 100)).Round).div (Float64.ofNat 100) = Float64.ofNat 16777217 ∧
      Float64.ofNat 16777216 ≠ Float64.ofNat 16777217 :=
  ⟨⟨{ months := some "1000000000000000000000000000000000000000".data }, by decide, by decide⟩,
    by decide!,
    ⟨{ months := some "16777217".data }, by decide, by decide⟩,
    by decide!, by decide!, by decide!⟩

/-- C4 at the strings of the test: `P0Y26M16DT0H0M` gives the formula on 26 and 16,
which is the double `26.53`; `P0Y0M0DT0H0M` gives `0` and `P0Y12M0DT0H0M` gives `12`. -/
theorem isoDurationToMonthsFloat_grammar_witness :
    isoDurationToMonthsFloat "P0Y26M16DT0H0M" =
        (((((Float64.ofNat (roundToBits 24 (componentValue (some "26".data)) 1)).add
            ((Float64.ofNat (roundToBits 24 (componentValue (some "16".data)) 1)).div
              (Float64.ofNat 30))).mul (Float64.ofNat 100)).Round).div (Float64.ofNat 100),
          none) ∧
      isoDurationToMonthsFloat "P0Y26M16DT0H0M" = (Float64.ofRatio 2653 100, none) ∧
      isoDurationToMonthsFloat "P0Y0M0DT0H0M" = (Float64.ofNat 0, none) ∧
      isoDurationToMonthsFloat "P0Y12M0DT0H0M" = (Float64.ofNat 12, none) :=
  ⟨(isoDurationToMonthsFloat_grammar "P0Y26M16DT0H0M"
      { years := some "0".data, months := some "26".data, days := some "16".data,
        hours := some "0".data, minutes := some "0".data }
      (by decide) (by decide) (by decide) (by decide)).1,
    by decide!, by decide!, by decide!⟩

/-- C5 as stated fails on strings of the grammar: a days component of 16777217 is
rounded to the `float32` 16777216, and a days component of `10^39` is beyond
the `float32` range, so that the parser returns the range error of `ParseFloat`. -/
theorem isoDurationToDaysFloat_grammar_counterexample :
    InDurationGrammar "P0Y0M16777217DT0H0M" ∧
      isoDurationToDaysFloat "P0Y0M16777217DT0H0M" = (Float64.ofNat 16777216, none) ∧
      Float64.ofNat 16777216 ≠ Float64.ofNat 16777217 ∧
      InDurationGrammar "P1000000000000000000000000000000000000000DT" ∧
      isoDurationToDaysFloat "P1000000000000000000000000000000000000000DT" =
        (Float64.ofNat 0,
          some (.numError "ParseFloat" "1000000000000000000000000000000000000000"
            "value out of range")) :=
  ⟨⟨{ years := some "0".data, months := some "0".data, days := some "16777217".data,
      hours := some "0".data, minutes := some "0".data }, by decide, by decide⟩,
    by decide!, by decide!,
    ⟨{ days := some "1000000000000000000000000000000000000000".data }, by decide, by decide⟩,
    by decide!⟩

/-- C5 at the strings of the test: 203, 14 and 3 days. -/
theorem isoDurationToDaysFloat_grammar_witness :
    isoDurationToDaysFloat "P0Y0M203DT0H0M" = (Float64.ofNat 203, none) ∧
      isoDurationToDaysFloat "P0Y0M14DT0H0M" = (Float64.ofNat 14, none) ∧
      isoDurationToDaysFloat "P0Y0M3DT0H0M" = (Float64.ofNat 3, none) :=
  ⟨(isoDurationToDaysFloat_grammar "P0Y0M203DT0H0M"
      { years := some "0".data, months := some "0".data, days := some "203".data,
        hours := some "0".data, minutes := some "0".data }
      (by decide) (by decide) (by decide)).2.1 (by decide),
    (isoDurationToDaysFloat_grammar "P0Y0M14DT0H0M"
      { years := some "0".data, months := some "0".data, days := some "14".data,
        hours := some "0".data, minutes := some "0".data }
      (by decide) (by decide) (by decide)).2.1 (by decide),
    (isoDurationToDaysFloat_grammar "P0Y0M3DT0H0M"
      { years := some "0".data, months := some "0".data, days := some "3".data,
        hours := some "0".data, minutes := some "0".data }
      (by decide) (by decide) (by decide)).2.1 (by decide)⟩

/-- C6 as stated fails: the string `P0Y0M340282356779733661637539395458142568448DT0H0M`
matches the duration grammar, yet both parsers return a non-nil error for it. -/
theorem durationParsers_errors_counterexample :
    InDurationGrammar "P0Y0M340282356779733661637539395458142568448DT0H0M" ∧
      (isoDurationToMonthsFloat "P0Y0M340282356779733661637539395458142568448DT0H0M").2 =
        some (.numError "ParseFloat" "340282356779733661637539395458142568448"
          "value out of range") ∧
      (isoDurationToDaysFloat "P0Y0M340282356779733661637539395458142568448DT0H0M").2 =
        some (.numError "ParseFloat" "340282356779733661637539395458142568448"
          "value out of range") :=
  ⟨⟨{ years := some "0".data, months := some "0".data,
      days := some "340282356779733661637539395458142568448".data,
      hours := some "0".data, minutes := some "0".data }, by decide, by decide⟩,
    by decide!, by decide!⟩

/-- C6 at a string without the separator `T`: it has no reading, and both parsers
return `0` and the format error. -/
theorem durationParsers_errors_witness :
    isoDurationToMonthsFloat "P1M" = (Float64.ofNat 0, some errIncorrectFormat) ∧
      isoDurationToDaysFloat "P1M" = (Float64.ofNat 0, some errIncorrectFormat) :=
  (durationParsers_errors "P1M").2.2.2
    ((findStringSubmatch_eq_none "P1M").1 (by decide))

/-- C7: the pattern accepts `PT1x5S`, whose seconds have `x` between the integer
and the fraction digits and which is no string of the duration grammar; both
parsers return `0` and a nil error for it.  A string without `T` is rejected. -/
theorem durationRe_accepts_any_separator :
    ¬ InDurationGrammar "PT1x5S" ∧
      durationRe.FindStringSubmatch "PT1x5S" = some ["PT1x5S", "", "", "", "", "", "1x5"] ∧
      isoDurationToMonthsFloat "PT1x5S" = (Float64.ofNat 0, none) ∧
      isoDurationToDaysFloat "PT1x5S" = (Float64.ofNat 0, none) ∧
      isoDurationToMonthsFloat "P1M" = (Float64.ofNat 0, some errIncorrectFormat) := by
  refine ⟨?_, by decide, by decide!, by decide!, by decide!⟩
  rintro ⟨p, hp, hs⟩
  have hx : 'x' ∈ p.render := by
    rw [← hs]
    decide
  have := mem_render p hp 'x' hx
  revert this
  decide

/-! ## Quote projection -/

/-- A fold whose step leaves an observation alone leaves it alone as a whole. -/
theorem foldl_keeps {α β γ : Type} (f : β → α → β) (g : β → γ)
    (h : ∀ b a, g (f b a) = g b) (l : List α) (b : β) : g (l.foldl f b) = g b := by
  induction l generalizing b with
  | nil => rfl
  | cons a l ih => rw [List.foldl_cons, ih, h]

/-- C1: a decoded response whose `ChangeStatus.Reason` is not `"Success"` makes
the projection return a nil object and an error whose message is the reason, a
colon and a blank, and the `ChangeStatus` text. -/
theorem AcquireByDealID_rejected (parseFloat : String → Float64 × Option GoError)
    (resp : AcquireQuoteXMLResponse) (h : resp.ChangeStatus.Reason ≠ "Success") :
    ∃ err, QuoteService.AcquireByDealID parseFloat resp = (none, some err) ∧
      err.Error = resp.ChangeStatus.Reason ++ ": " ++ resp.ChangeStatus.Text := by
  refine ⟨.errorsNew (resp.ChangeStatus.Reason ++ ": " ++ resp.ChangeStatus.Text), ?_, rfl⟩
  simp [QuoteService.AcquireByDealID, h]

/-- C1 at the response of the specification, with reason `"Fail"`. -/
theorem AcquireByDealID_rejected_witness :
    ∃ err, QuoteService.AcquireByDealID (fun _ => (Float64.fin false 0, none))
        { ChangeStatus := { Text := "no such deal", Reason := "Fail" } } = (none, some err) ∧
      err.Error = "Fail" ++ ": " ++ "no such deal" :=
  AcquireByDealID_rejected (fun _ => (Float64.fin false 0, none))
    { ChangeStatus := { Text := "no such deal", Reason := "Fail" } } (by decide)

/-- C2: a decoded response whose reason is `"Success"` always projects to an
object with a nil error, whatever the other fields hold and whatever
`strconv.ParseFloat` answers for their texts. -/
theorem AcquireByDealID_success_total (parseFloat : String → Float64 × Option GoError)
    (resp : AcquireQuoteXMLResponse) (h : resp.ChangeStatus.Reason = "Success") :
    ∃ aqr, QuoteService.AcquireByDealID parseFloat resp = (some aqr, none) := by
  simp [QuoteService.AcquireByDealID, h]

/-- C2 at a response whose only line has unparsable price, quantity and duration
texts. -/
theorem AcquireByDealID_success_total_witness :
    ∃ aqr, QuoteService.AcquireByDealID (fun _ => (Float64.fin false 0, none))
        { ChangeStatus := { Reason := "Success" }
          QuoteLine :=
            [{ Quantity := "three"
               UnitPriceAmount := { Text := "n/a" }
               Item := { Property :=
                 [{ NameValueName := "BundleIndicator"
                    Effectivity := [{ TypeText := "ServiceDuration", Duration := "1 month" }] }] } }] }
      = (some aqr, none) :=
  AcquireByDealID_success_total _ _ (by decide)

theorem descriptionStep_keys (ql : AcquireQuoteResponseItem) (d : XMLDescription) :
    ((descriptionStep ql d).LineNumber, (descriptionStep ql d).PartNumber) =
      (ql.LineNumber, ql.PartNumber) := by
  unfold descriptionStep
  split_ifs <;> rfl

theorem effectivityStep_keys (ql : AcquireQuoteResponseItem) (eff : XMLEffectivity) :
    ((effectivityStep ql eff).LineNumber, (effectivityStep ql eff).PartNumber) =
      (ql.LineNumber, ql.PartNumber) := by
  unfold effectivityStep
  split_ifs <;> rfl

theorem propertyStep_keys (parseFloat : String → Float64 × Option GoError)
    (ql : AcquireQuoteResponseItem) (prop : XMLProperty) :
    ((propertyStep parseFloat ql prop).LineNumber, (propertyStep parseFloat ql prop).PartNumber) =
      (ql.LineNumber, ql.PartNumber) := by
  unfold propertyStep
  split_ifs <;>
    first
    | rfl
    | exact foldl_keeps effectivityStep (fun q => (q.LineNumber, q.PartNumber))
        effectivityStep_keys _ _

theorem discountStep_keys (parseFloat : String → Float64 × Option GoError)
    (ql : AcquireQuoteResponseItem) (discount : XMLDiscount) :
    ((discountStep parseFloat ql discount).LineNumber,
        (discountStep parseFloat ql discount).PartNumber) =
      (ql.LineNumber, ql.PartNumber) := by
  unfold discountStep
  split_ifs <;> rfl

/-- The line number and part number of a projected line are those of the line. -/
theorem projectLine_keys (parseFloat : String → Float64 × Option GoError) (line : XMLQuoteLine) :
    (projectLine parseFloat line).LineNumber = line.LineNumber ∧
      (projectLine parseFloat line).PartNumber = line.Item.ItemIDText := by
  have hd := foldl_keeps descriptionStep (fun q => (q.LineNumber, q.PartNumber))
    descriptionStep_keys
  have hp := foldl_keeps (propertyStep parseFloat) (fun q => (q.LineNumber, q.PartNumber))
    (propertyStep_keys parseFloat)
  have hx := foldl_keeps (discountStep parseFloat) (fun q => (q.LineNumber, q.PartNumber))
    (discountStep_keys parseFloat)
  simp only [Prod.mk.injEq] at hd hp hx
  unfold projectLine
  by_cases hc : line.Item.ClassificationTypeListName = "ProductType" <;>
    simp [hc, hd, hp, hx]

theorem partyStep_lineItems (aqr : AcquireQuoteResponse) (party : XMLParty) :
    (partyStep aqr party).LineItems = aqr.LineItems := by
  unfold partyStep
  split_ifs <;> rfl

theorem priceListStep_lineItems (aqr : AcquireQuoteResponse) (p : XMLPriceList) :
    (priceListStep aqr p).LineItems = aqr.LineItems := by
  unfold priceListStep
  split_ifs <;> rfl

/-- The loop over the quote lines appends the projection of each line, in order. -/
theorem lineLoop_lineItems (parseFloat : String → Float64 × Option GoError)
    (lines : List XMLQuoteLine) (aqr : AcquireQuoteResponse) :
    (lines.foldl
        (fun aqr line => { aqr with LineItems := aqr.LineItems ++ [projectLine parseFloat line] })
        aqr).LineItems = aqr.LineItems ++ lines.map (projectLine parseFloat) := by
  induction lines generalizing aqr with
  | nil => simp
  | cons line lines ih => simp [ih]

/-- C3: on a successful response the line items are the per-line projection
mapped over the quote lines in document order: as many items as lines, the item
at each index computed from the line at that index alone, with that line's
number and the text of its item id. -/
theorem AcquireByDealID_lineItems (parseFloat : String → Float64 × Option GoError)
    (resp : AcquireQuoteXMLResponse) (h : resp.ChangeStatus.Reason = "Success") :
    ∃ aqr, QuoteService.AcquireByDealID parseFloat resp = (some aqr, none) ∧
      aqr.LineItems = resp.QuoteLine.map (projectLine parseFloat) ∧
      aqr.LineItems.length = resp.QuoteLine.length ∧
      ∀ (i : Nat) (line : XMLQuoteLine), resp.QuoteLine[i]? = some line →
        ∃ item, aqr.LineItems[i]? = some item ∧ item = projectLine parseFloat line ∧
          item.LineNumber = line.LineNumber ∧ item.PartNumber = line.Item.ItemIDText := by
  have key : ∀ aqr, QuoteService.AcquireByDealID parseFloat resp = (some aqr, none) →
      aqr.LineItems = resp.QuoteLine.map (projectLine parseFloat) := by
    intro aqr haqr
    simp only [QuoteService.AcquireByDealID, h, ne_eq, not_true_eq_false, if_false,
      Prod.mk.injEq, Option.some.injEq, and_true] at haqr
    rw [← haqr, lineLoop_lineItems,
      foldl_keeps priceListStep (fun a => a.LineItems) priceListStep_lineItems]
    have hparty := foldl_keeps partyStep (fun a => a.LineItems) partyStep_lineItems
    split_ifs <;> simp [hparty]
  obtain ⟨aqr, haqr⟩ : ∃ aqr, QuoteService.AcquireByDealID parseFloat resp = (some aqr, none) := by
    simp [QuoteService.AcquireByDealID, h]
  refine ⟨aqr, haqr, key aqr haqr, by simp [key aqr haqr], ?_⟩
  intro i line hi
  refine ⟨projectLine parseFloat line, ?_, rfl, projectLine_keys parseFloat line⟩
  simp [key aqr haqr, hi]

/-- C3 at a response with two lines. -/
theorem AcquireByDealID_lineItems_witness :
    ∃ aqr, QuoteService.AcquireByDealID (fun _ => (Float64.fin false 0, none))
        { ChangeStatus := { Reason := "Success" }
          QuoteLine := [{ LineNumber := "1.0", Item := { ItemIDText := "A" } },
                        { LineNumber := "1.1", Item := { ItemIDText := "B" } }] }
        = (some aqr, none) ∧
      aqr.LineItems =
        List.map (projectLine (fun _ => (Float64.fin false 0, none)))
          [{ LineNumber := "1.0", Item := { ItemIDText := "A" } },
           { LineNumber := "1.1", Item := { ItemIDText := "B" } }] ∧
      aqr.LineItems.length = 2 ∧
      ∀ (i : Nat) (line : XMLQuoteLine),
        ([{ LineNumber := "1.0", Item := { ItemIDText := "A" } },
          { LineNumber := "1.1", Item := { ItemIDText := "B" } }] : List XMLQuoteLine)[i]? =
            some line →
        ∃ item, aqr.LineItems[i]? = some item ∧
          item = projectLine (fun _ => (Float64.fin false 0, none)) line ∧
          item.LineNumber = line.LineNumber ∧ item.PartNumber = line.Item.ItemIDText :=
  AcquireByDealID_lineItems (fun _ => (Float64.fin false 0, none))
    { ChangeStatus := { Reason := "Success" }
      QuoteLine := [{ LineNumber := "1.0", Item := { ItemIDText := "A" } },
                    { LineNumber := "1.1", Item := { ItemIDText := "B" } }] } (by decide)

/-! ## Token cache -/

/-- The margin `time.Minute*5` fits an `int64`. -/
theorem wrapInt64_fiveMinutes : wrapInt64 (Minute * 5) = 5 * Minute := by
  decide

/-- Wrapping leaves a value of the `int64` range alone. -/
theorem wrapInt64_of_range (x : Int) (h₁ : -(2 ^ 63) ≤ x) (h₂ : x < 2 ^ 63) :
    wrapInt64 x = x := by
  unfold wrapInt64
  rw [Int.emod_eq_of_lt (by omega) (by omega)]
  omega

/-- Every call of `generateToken` sends exactly one request. -/
theorem generateToken_requests (c : Client) (env : TokenEnv) :
    (c.generateToken env).requests.length = 1 := by
  unfold Client.generateToken
  cases env.exchange with
  | error e => rfl
  | ok res =>
    by_cases hs : res.StatusCode = 200
    · cases hd : res.decodeToken <;> simp [hs, hd]
    · cases hd : res.decodeTokenError <;> simp [hs, hd]

/-- Without a cached token that stays valid for more than five minutes,
`getToken` sends the one request of `generateToken`. -/
theorem getToken_miss (c : Client) (env : TokenEnv)
    (h : ∀ tok, c.token = some tok → ¬ tok.ExpiresAt - env.now > 5 * Minute) :
    (c.getToken env).requests.length = 1 := by
  have hfresh : c.token.any
      (fun token => decide (token.ExpiresAt > env.now + wrapInt64 (Minute * 5))) = false := by
    rw [wrapInt64_fiveMinutes]
    cases hc : c.token with
    | none => rfl
    | some tok =>
      have := h tok hc
      simp only [Option.any_some, decide_eq_false_iff_not]
      omega
  unfold Client.getToken
  simp only [hfresh, Bool.false_eq_true, if_false]
  cases (c.generateToken env).err <;> exact generateToken_requests c env

/-- With a cached token that stays valid for more than five minutes, `getToken`
sends nothing, returns no error and leaves the client as it is. -/
theorem getToken_hit (c : Client) (env : TokenEnv) (tok : ccwToken) (hc : c.token = some tok)
    (h : tok.ExpiresAt - env.now > 5 * Minute) :
    (c.getToken env).requests = [] ∧ (c.getToken env).client = c ∧
      (c.getToken env).err = none := by
  have hf : tok.ExpiresAt > env.now + 5 * Minute := by omega
  unfold Client.getToken
  simp [hc, wrapInt64_fiveMinutes, hf]

/-- The token cached by a successful exchange: the decoded token stamped with
the clock of the fetch plus the lifetime as an `int64` duration. -/
theorem getToken_fetch (c : Client) (env : TokenEnv) (res : TokenResponse) (t : ccwToken)
    (hsent : (c.getToken env).requests ≠ []) (hex : env.exchange = .ok res)
    (hs : res.StatusCode = 200) (hd : res.decodeToken = .ok t) :
    (c.getToken env).client.token =
      some { t with ExpiresAt := env.fetchedAt + wrapInt64 (wrapInt64 t.ExpiresIn * Second) } := by
  unfold Client.getToken at hsent ⊢
  split_ifs at hsent ⊢ with hfresh
  · simp at hsent
  · simp [Client.generateToken, hex, hs, hd]

/-- C9, amended: a call of `getToken` without a cached token sends exactly one
credential exchange.  After a call that fetched a token at instant `t` with a
reported lifetime of `L` seconds, `L` seconds being a duration that fits an
`int64` count of nanoseconds, a further call at instant `t'` sends nothing and
leaves the client unchanged if and only if `(t + L) - t'` exceeds five minutes,
and otherwise sends exactly one exchange. -/
theorem getToken_cache_rule (c : Client) (env env' : TokenEnv) (res : TokenResponse)
    (t : ccwToken) (hsent : (c.getToken env).requests ≠ []) (hex : env.exchange = .ok res)
    (hs : res.StatusCode = 200) (hd : res.decodeToken = .ok t)
    (hlo : -(2 ^ 63) ≤ t.ExpiresIn * Second) (hhi : t.ExpiresIn * Second < 2 ^ 63) :
    (∀ (c₀ : Client) (env₀ : TokenEnv), c₀.token = none →
        (c₀.getToken env₀).requests.length = 1) ∧
      ((((c.getToken env).client.getToken env').requests = [] ∧
          ((c.getToken env).client.getToken env').client = (c.getToken env).client) ↔
        (env.fetchedAt + t.ExpiresIn * Second) - env'.now > 5 * Minute) ∧
      (¬ (env.fetchedAt + t.ExpiresIn * Second) - env'.now > 5 * Minute →
        ((c.getToken env).client.getToken env').requests.length = 1) := by
  have hin : wrapInt64 t.ExpiresIn = t.ExpiresIn := by
    have hsec : Second = 1000000000 := rfl
    rw [hsec] at hlo hhi
    apply wrapInt64_of_range <;> omega
  have htok := getToken_fetch c env res t hsent hex hs hd
  rw [hin, wrapInt64_of_range _ hlo hhi] at htok
  refine ⟨fun c₀ env₀ h₀ => getToken_miss c₀ env₀ (by simp [h₀]), ⟨fun h => ?_, fun h => ?_⟩,
    fun h => ?_⟩
  · by_contra hn
    have := getToken_miss (c.getToken env).client env' (by
      intro tok htok'
      rw [htok] at htok'
      simp only [Option.some.injEq] at htok'
      subst htok'
      exact hn)
    rw [h.1] at this
    simp at this
  · have := getToken_hit (c.getToken env).client env' _ htok h
    exact ⟨this.1, this.2.1⟩
  · apply getToken_miss
    intro tok htok'
    rw [htok] at htok'
    simp only [Option.some.injEq] at htok'
    subst htok'
    exact h

/-- C9 as stated fails for a lifetime beyond the range of `time.Duration`: a token
fetched at instant `0` with a reported lifetime of 9223372037 seconds is stamped
with an expiry in the past, so the call one second later, when
`(t + L) - t'` is far above five minutes, sends an exchange. -/
theorem getToken_cache_rule_counterexample :
    (0 + 9223372037 * Second) - 1 * Second > 5 * Minute ∧
      (sampleClient.getToken ⟨0, .ok (tokenAnswer 9223372037), 0⟩).client.token =
        some { answeredToken 9223372037 with ExpiresAt := -9223372036709551616 } ∧
      ((sampleClient.getToken ⟨0, .ok (tokenAnswer 9223372037), 0⟩).client.getToken
        ⟨1 * Second, .ok (tokenAnswer 600), 1 * Second⟩).requests.length = 1 := by
  decide

/-- C9 at the lifetime of the specification: after a fetch at instant `0` with a
lifetime of 600 seconds, a call one second later is a cache hit that leaves the
client unchanged, and a call with 300 seconds left sends one exchange. -/
theorem getToken_cache_rule_witness :
    (((sampleClient.getToken ⟨0, .ok (tokenAnswer 600), 0⟩).client.getToken
          ⟨1 * Second, .ok (tokenAnswer 600), 1 * Second⟩).requests = [] ∧
        ((sampleClient.getToken ⟨0, .ok (tokenAnswer 600), 0⟩).client.getToken
          ⟨1 * Second, .ok (tokenAnswer 600), 1 * Second⟩).client =
          (sampleClient.getToken ⟨0, .ok (tokenAnswer 600), 0⟩).client) ∧
      ((sampleClient.getToken ⟨0, .ok (tokenAnswer 600), 0⟩).client.getToken
        ⟨300 * Second, .ok (tokenAnswer 600), 300 * Second⟩).requests.length = 1 :=
  ⟨(getToken_cache_rule sampleClient ⟨0, .ok (tokenAnswer 600), 0⟩
      ⟨1 * Second, .ok (tokenAnswer 600), 1 * Second⟩ (tokenAnswer 600) (answeredToken 600)
      (by decide) rfl rfl rfl (by decide) (by decide)).2.1.mpr (by decide),
    (getToken_cache_rule sampleClient ⟨0, .ok (tokenAnswer 600), 0⟩
      ⟨300 * Second, .ok (tokenAnswer 600), 300 * Second⟩ (tokenAnswer 600) (answeredToken 600)
      (by decide) rfl rfl rfl (by decide) (by decide)).2.2 (by decide)⟩

/-- C10, amended: when the identity endpoint answers with a status other than 200,
`generateToken` returns no token and leaves the client as it is; if the body
decodes into an error object the error message is its `error_description`
verbatim, and if the body does not decode the error is the decoder's.  A
`getToken` that sent the exchange returns the same error and keeps the client. -/
theorem generateToken_rejected (c : Client) (env : TokenEnv) (res : TokenResponse)
    (hex : env.exchange = .ok res) (hs : res.StatusCode ≠ 200) :
    (c.generateToken env).token = none ∧ (c.generateToken env).client = c ∧
      (∀ e, res.decodeTokenError = .ok e →
        ∃ err, (c.generateToken env).err = some err ∧ err.Error = e.Description) ∧
      (∀ err, res.decodeTokenError = .error err → (c.generateToken env).err = some err) ∧
      ((c.getToken env).requests ≠ [] →
        (c.getToken env).err = (c.generateToken env).err ∧ (c.getToken env).client = c) := by
  have hgen : (c.generateToken env).token = none ∧ (c.generateToken env).client = c ∧
      (∀ e, res.decodeTokenError = .ok e →
        ∃ err, (c.generateToken env).err = some err ∧ err.Error = e.Description) ∧
      (∀ err, res.decodeTokenError = .error err → (c.generateToken env).err = some err) := by
    unfold Client.generateToken
    cases hd : res.decodeTokenError with
    | error err => simp [hex, hs, hd]
    | ok e => simp [hex, hs, hd, GoError.Error]
  refine ⟨hgen.1, hgen.2.1, hgen.2.2.1, hgen.2.2.2, fun hsent => ?_⟩
  have herr : ∃ err, (c.generateToken env).err = some err := by
    cases hd : res.decodeTokenError with
    | error err => exact ⟨err, hgen.2.2.2 err hd⟩
    | ok e =>
      obtain ⟨err, h, _⟩ := hgen.2.2.1 e hd
      exact ⟨err, h⟩
  obtain ⟨err, herr⟩ := herr
  unfold Client.getToken at hsent ⊢
  split_ifs at hsent ⊢ with hfresh
  · simp at hsent
  · simp [herr, hgen.2.1]

/-- C10 as stated fails when the body of the answer is no JSON: for a `502` answer
with an HTML body the error of `generateToken` is the decoder's, and there is no
error body whose description it could be. -/
theorem generateToken_rejected_counterexample :
    gatewayAnswer.StatusCode ≠ 200 ∧
      (sampleClient.generateToken ⟨0, .ok gatewayAnswer, 0⟩).err =
        some (.external "invalid character '<' looking for beginning of value") ∧
      ¬ ∃ e, gatewayAnswer.decodeTokenError = .ok e ∧
        (sampleClient.generateToken ⟨0, .ok gatewayAnswer, 0⟩).err =
          some (.errorsNew e.Description) := by
  refine ⟨by decide, rfl, ?_⟩
  rintro ⟨e, he, _⟩
  simp [gatewayAnswer] at he

/-- C10 at a `401` answer carrying an error body. -/
theorem generateToken_rejected_witness :
    (sampleClient.generateToken ⟨0, .ok deniedAnswer, 0⟩).token = none ∧
      (sampleClient.generateToken ⟨0, .ok deniedAnswer, 0⟩).client = sampleClient ∧
      (∀ e, deniedAnswer.decodeTokenError = .ok e →
        ∃ err, (sampleClient.generateToken ⟨0, .ok deniedAnswer, 0⟩).err = some err ∧
          err.Error = e.Description) ∧
      (∀ err, deniedAnswer.decodeTokenError = .error err →
        (sampleClient.generateToken ⟨0, .ok deniedAnswer, 0⟩).err = some err) ∧
      ((sampleClient.getToken ⟨0, .ok deniedAnswer, 0⟩).requests ≠ [] →
        (sampleClient.getToken ⟨0, .ok deniedAnswer, 0⟩).err =
            (sampleClient.generateToken ⟨0, .ok deniedAnswer, 0⟩).err ∧
          (sampleClient.getToken ⟨0, .ok deniedAnswer, 0⟩).client = sampleClient) :=
  generateToken_rejected sampleClient ⟨0, .ok deniedAnswer, 0⟩ deniedAnswer rfl (by decide)

/-! ## `floatOrNull.MarshalJSON` -/

theorem digitChar_nonzero (n : Nat) (h0 : n ≠ 0) (h : n < 10) :
    nonzeroDigit (Nat.digitChar n) = true := by
  interval_cases n <;> first | exact absurd rfl h0 | decide

/-- The digits of a positive number include a digit other than `0`. -/
theorem toDigitsCore_nonzero (fuel n : Nat) (ds : List Char) (hn : n ≠ 0) (hf : n < fuel) :
    ∃ c ∈ Nat.toDigitsCore 10 fuel n ds, nonzeroDigit c = true := by
  induction fuel generalizing n ds with
  | zero => omega
  | succ fuel ih =>
    unfold Nat.toDigitsCore
    by_cases h : n / 10 = 0
    · simp only [h, if_true]
      have hlt : n < 10 := by omega
      exact ⟨_, List.mem_cons_self _ _, by rw [Nat.mod_eq_of_lt hlt]; exact digitChar_nonzero n hn hlt⟩
    · simp only [h, if_false]
      exact ih (n / 10) _ h (by omega)

theorem toDigits_nonzero (n : Nat) (hn : n ≠ 0) :
    ∃ c ∈ Nat.toDigits 10 n, nonzeroDigit c = true :=
  toDigitsCore_nonzero (n + 1) n [] hn (by omega)

/-- The plain text of a decimal with a positive mantissa has a digit other than `0`. -/
theorem plainDecimal_nonzero (m : Nat) (e : Int) (hm : m ≠ 0) :
    ∃ c ∈ plainDecimal m e, nonzeroDigit c = true := by
  obtain ⟨c, hc, hnz⟩ := toDigits_nonzero m hm
  refine ⟨c, ?_, hnz⟩
  unfold plainDecimal
  simp only [hm, if_false]
  split_ifs with h1 h2
  · exact List.mem_append_left _ hc
  · rw [← List.take_append_drop (List.length (Nat.toDigits 10 m) - (-e).toNat)
      (Nat.toDigits 10 m)] at hc
    rcases List.mem_append.1 hc with h | h
    · exact List.mem_append_left _ h
    · exact List.mem_append_right _ (List.mem_cons_of_mem _ h)
  · exact List.mem_cons_of_mem _ (List.mem_cons_of_mem _ (List.mem_append_right _ hc))

/-- Zero rounds to zero. -/
theorem round_zero (b : Nat) (hb : 0 < b) : Float64.round false 0 b = Float64.fin false 0 := by
  have := Float64.round_exact false 0 b 0 0 hb (Nat.zero_mul _).symm (pow_pos (by norm_num) _)
    (pow_pos (by norm_num) _)
  rwa [Nat.zero_mul] at this

/-- Only the double zero is the rounding of a decimal with mantissa zero. -/
theorem decimalRoundsTo_zero (n : Nat) (e : Int) (h : decimalRoundsTo n 0 e = true) : n = 0 := by
  unfold decimalRoundsTo at h
  split_ifs at h
  · rw [Nat.zero_mul, Nat.zero_mul, round_zero 1 (by norm_num)] at h
    have := eq_of_beq h
    injection this with _ h2
    exact h2.symm
  · rw [Nat.zero_mul, round_zero _ (pow_pos (by norm_num) _)] at h
    have := eq_of_beq h
    injection this with _ h2
    exact h2.symm

theorem pickDecimal_ne_zero (n lo : Nat) (e : Int) (loNearer : Bool) (r : Nat × Int)
    (hn : n ≠ 0) (h : pickDecimal n lo e loNearer = some r) : r.1 ≠ 0 := by
  unfold pickDecimal at h
  simp only at h
  split_ifs at h with h1 h2 h3
  · simp only [Option.some.injEq] at h
    subst h
    intro h0
    simp only at h0
    rw [h0] at h1
    simp only [Bool.and_eq_true] at h1
    exact hn (decimalRoundsTo_zero n _ h1.1)
  · simp only [Option.some.injEq] at h
    subst h
    simp only
    omega
  · simp only [Option.some.injEq] at h
    subst h
    simp

theorem shortestAt_ne_zero (n : Nat) (e10 : Int) (d : Nat) (r : Nat × Int) (hn : n ≠ 0)
    (h : shortestAt n e10 d = some r) : r.1 ≠ 0 := by
  unfold shortestAt at h
  simp only at h
  split_ifs at h
  · exact pickDecimal_ne_zero _ _ _ _ r hn h
  · exact pickDecimal_ne_zero _ _ _ _ r hn h

/-- The shortest decimal of a positive double has a positive mantissa. -/
theorem shortestDecimal_ne_zero (n : Nat) (hn : n ≠ 0) : (shortestDecimal n).1 ≠ 0 := by
  unfold shortestDecimal
  simp only [hn, if_false]
  split
  · rename_i r hr
    obtain ⟨i, -, hi⟩ := List.exists_of_findSome?_eq_some hr
    exact shortestAt_ne_zero n _ _ r hn hi
  · exact Nat.mul_ne_zero hn (pow_pos (by norm_num) _).ne'

/-- The shortest text of a finite double other than zero has a digit other than `0`. -/
theorem formatFloat_nonzero (neg : Bool) (n : Nat) (hn : n ≠ 0) :
    ∃ c ∈ (FormatFloat (.fin neg n) (-1)).data, nonzeroDigit c = true := by
  obtain ⟨c, hc, hnz⟩ := plainDecimal_nonzero (shortestDecimal n).1 (shortestDecimal n).2
    (shortestDecimal_ne_zero n hn)
  refine ⟨c, ?_, hnz⟩
  simp only [FormatFloat, Int.reduceNeg, Int.reduceLT, if_true]
  exact List.mem_append_right _ hc

/-- The branches of `floatOrNull.MarshalJSON`: an error, and no bytes, exactly for
NaN and the infinities; for a finite value the bytes `null` exactly when the
value is a zero of either sign, and otherwise the text of
`strconv.FormatFloat`, which is neither `0` nor `null`. -/
theorem floatOrNull_MarshalJSON_cases (f : floatOrNull) :
    ((floatOrNull.MarshalJSON f).2 ≠ none ↔ Float64.IsNaN f = true ∨ Float64.IsInf f = true) ∧
      ((floatOrNull.MarshalJSON f).2 ≠ none → (floatOrNull.MarshalJSON f).1 = none) ∧
      (Float64.IsNaN f = false → Float64.IsInf f = false →
        ((floatOrNull.MarshalJSON f).1 = some "null" ↔ Float64.isZero f = true) ∧
        (Float64.isZero f = false →
          floatOrNull.MarshalJSON f = (some (FormatFloat f (-1)), none) ∧
            FormatFloat f (-1) ≠ "0" ∧ FormatFloat f (-1) ≠ "null")) := by
  cases f with
  | nan => simp [floatOrNull.MarshalJSON, Float64.IsNaN, Float64.IsInf]
  | inf neg => simp [floatOrNull.MarshalJSON, Float64.IsNaN, Float64.IsInf]
  | fin neg n =>
    by_cases hn : n = 0
    · subst hn
      simp [floatOrNull.MarshalJSON, Float64.IsNaN, Float64.IsInf, Float64.isZero]
    · obtain ⟨c, hc, hnz⟩ := formatFloat_nonzero neg n hn
      have hz : Float64.isZero (.fin neg n) = false := by
        cases n with
        | zero => exact absurd rfl hn
        | succ k => rfl
      have h0 : FormatFloat (.fin neg n) (-1) ≠ "0" := by
        intro h
        rw [h] at hc
        revert hnz
        have : c = '0' := by simpa using hc
        subst this
        decide
      have hnull : FormatFloat (.fin neg n) (-1) ≠ "null" := by
        intro h
        rw [h] at hc
        have : c = 'n' ∨ c = 'u' ∨ c = 'l' := by simpa using hc
        revert hnz
        rcases this with rfl | rfl | rfl <;> decide
      simp only [floatOrNull.MarshalJSON, Float64.IsNaN, Float64.IsInf, hz, Bool.or_self,
        Bool.false_eq_true, if_false, ne_eq, not_true_eq_false, or_self, false_implies,
        Option.some.injEq, true_and, iff_false, implies_true, and_true]
      exact fun _ _ => ⟨hnull, fun _ => ⟨h0, hnull⟩⟩

/-- `MarshalJSON` on the doubles `26.53` and `12`, on both zeros, on NaN and on
negative infinity. -/
theorem floatOrNull_MarshalJSON_examples :
    floatOrNull.MarshalJSON (Float64.ofRatio 2653 100) = (some "26.53", none) ∧
      floatOrNull.MarshalJSON (Float64.ofNat 12) = (some "12", none) ∧
      floatOrNull.MarshalJSON (Float64.fin false 0) = (some "null", none) ∧
      floatOrNull.MarshalJSON (Float64.fin true 0) = (some "null", none) ∧
      floatOrNull.MarshalJSON Float64.nan = (none, some (.unsupportedValue "NaN")) ∧
      floatOrNull.MarshalJSON (Float64.inf true) = (none, some (.unsupportedValue "-Inf")) := by
  refine ⟨by decide!, by decide!, by decide!, by decide!, by decide!, by decide!⟩

/-! ## `makeXMLRequest` and `NewClient` -/

/-- After a `getToken` that returned no error the client holds a token. -/
theorem getToken_token_of_ok (c : Client) (env : TokenEnv) (h : (c.getToken env).err = none) :
    ∃ token, (c.getToken env).client.token = some token := by
  unfold Client.getToken at h ⊢
  split_ifs at h ⊢ with hfresh
  · cases hc : c.token with
    | none => simp [hc] at hfresh
    | some tok => exact ⟨tok, rfl⟩
  · simp only at h ⊢
    cases herr : (c.generateToken env).err with
    | some err => simp [herr] at h
    | none =>
      simp only [herr]
      unfold Client.generateToken at herr ⊢
      cases hex : env.exchange with
      | error e => simp [hex] at herr
      | ok res =>
        by_cases hs : res.StatusCode = 200
        · cases hd : res.decodeToken with
          | error e => simp [hex, hs, hd] at herr
          | ok t => simp [hex, hs, hd]
        · cases hd : res.decodeTokenError <;> simp [hex, hs, hd] at herr

/-- `checkLimitAndGetToken` returns what `getToken` returns. -/
theorem checkLimitAndGetToken_eq (c : Client) (env : RequestEnv) :
    (c.checkLimitAndGetToken env).err = (c.getToken env.tokenEnv).err ∧
      (c.checkLimitAndGetToken env).client = (c.getToken env.tokenEnv).client ∧
      (c.checkLimitAndGetToken env).requests = (c.getToken env.tokenEnv).requests := by
  unfold Client.checkLimitAndGetToken
  cases h : (c.getToken env.tokenEnv).err <;> simp [h]

/-- After a `checkLimitAndGetToken` that returned no error the client holds a token. -/
theorem checkLimitAndGetToken_token (c : Client) (env : RequestEnv)
    (h : (c.checkLimitAndGetToken env).err = none) :
    ∃ token, (c.checkLimitAndGetToken env).client.token = some token := by
  obtain ⟨h1, h2, -⟩ := checkLimitAndGetToken_eq c env
  rw [h2]
  exact getToken_token_of_ok c env.tokenEnv (h1 ▸ h)

/-- C11: once the token step succeeded and the service answered, a status below
200 or from 400 on makes `makeXMLRequest` return the classified error, the same
whatever the decoder and the body, with the output structure untouched: 400,
401, 403 and 500 give their own error and every other such status
`ErrUnknown`.  `ErrNotFound` comes back for no status, unless the XML decoder
itself returns it. -/
theorem makeXMLRequest_classification {α : Type} (xmlDecode : String → α → α × Option GoError)
    (c : Client) (env : RequestEnv) (v : α) (res : HTTPResponse)
    (htok : (c.checkLimitAndGetToken env).err = none) (hdo : env.doResult = .ok res) :
    (res.StatusCode < 200 ∨ 400 ≤ res.StatusCode →
      (c.makeXMLRequest xmlDecode env v).v = v ∧
      (c.makeXMLRequest xmlDecode env v).panicked = false ∧
      (∀ (xmlDecode' : String → α → α × Option GoError) (body : String),
        c.makeXMLRequest xmlDecode' { env with doResult := .ok { res with Body := body } } v =
          c.makeXMLRequest xmlDecode env v) ∧
      (res.StatusCode = 400 → (c.makeXMLRequest xmlDecode env v).err = some ErrBadRequest) ∧
      (res.StatusCode = 401 → (c.makeXMLRequest xmlDecode env v).err = some ErrUnauthorized) ∧
      (res.StatusCode = 403 → (c.makeXMLRequest xmlDecode env v).err = some ErrForbidden) ∧
      (res.StatusCode = 500 → (c.makeXMLRequest xmlDecode env v).err = some ErrInternalError) ∧
      (res.StatusCode ≠ 400 → res.StatusCode ≠ 401 → res.StatusCode ≠ 403 →
        res.StatusCode ≠ 500 → (c.makeXMLRequest xmlDecode env v).err = some ErrUnknown)) ∧
      ((c.makeXMLRequest xmlDecode env v).err = some ErrNotFound →
        (xmlDecode res.Body v).2 = some ErrNotFound) := by
  obtain ⟨token, htoken⟩ := checkLimitAndGetToken_token c env htok
  have hcl : ∀ env' : RequestEnv, env'.tokenEnv = env.tokenEnv →
      c.checkLimitAndGetToken env' =
        { c.checkLimitAndGetToken env with waited := !env'.allow } := by
    intro env' h
    unfold Client.checkLimitAndGetToken
    rw [h]
    cases herr : (c.getToken env.tokenEnv).err <;> simp only [herr]
  constructor
  · intro hs
    have hs' : res.StatusCode < 200 ∨ res.StatusCode ≥ 400 := hs
    have key : ∀ (xmlDecode' : String → α → α × Option GoError) (body : String),
        c.makeXMLRequest xmlDecode' { env with doResult := .ok { res with Body := body } } v =
          { client := (c.checkLimitAndGetToken env).client
            err := some
              (if res.StatusCode = 400 then ErrBadRequest
               else if res.StatusCode = 401 then ErrUnauthorized
               else if res.StatusCode = 403 then ErrForbidden
               else if res.StatusCode = 500 then ErrInternalError
               else ErrUnknown)
            v := v
            tokenRequests := (c.checkLimitAndGetToken env).requests
            authorization := some ("Bearer " ++ token.AccessToken) } := by
      intro xmlDecode' body
      have h1 := hcl { env with doResult := .ok { res with Body := body } } rfl
      simp only [Client.makeXMLRequest, h1, htok, htoken, hs', if_true]
    have henv : ({ env with doResult := .ok { res with Body := res.Body } } : RequestEnv) =
        env := by
      show ({ env with doResult := .ok res } : RequestEnv) = env
      rw [← hdo]
    have key' := key xmlDecode res.Body
    rw [henv] at key'
    refine ⟨?_, ?_, ?_, ?_, ?_, ?_, ?_, ?_⟩
    · rw [key']
    · rw [key']
    · intro xmlDecode' body
      rw [key', key]
    · intro h
      rw [key']
      simp [h]
    · intro h
      rw [key']
      simp [h]
    · intro h
      rw [key']
      simp [h]
    · intro h
      rw [key']
      simp [h]
    · intro h1 h2 h3 h4
      rw [key']
      simp [h1, h2, h3, h4]
  · intro h
    simp only [Client.makeXMLRequest, htok, htoken, hdo] at h
    split_ifs at h
    all_goals
      try simp [ErrBadRequest, ErrUnauthorized, ErrForbidden, ErrInternalError, ErrUnknown,
        ErrNotFound] at h
    cases hx : xmlDecode res.Body v with
    | mk v' e =>
      cases e with
      | none => simp [hx] at h
      | some e =>
        simp only [hx] at h
        simpa using h

/-- C11 at the status 404 and at the status 400, with a token for ten minutes: the
errors are `ErrUnknown` and `ErrBadRequest`, and the output stays `0`. -/
theorem makeXMLRequest_classification_witness :
    (sampleClient.makeXMLRequest rejectingDecoder (answeringEnv ⟨404, "<html/>"⟩) 0).err =
        some ErrUnknown ∧
      (sampleClient.makeXMLRequest rejectingDecoder (answeringEnv ⟨404, "<html/>"⟩) 0).v = 0 ∧
      (sampleClient.makeXMLRequest rejectingDecoder (answeringEnv ⟨400, ""⟩) 0).err =
        some ErrBadRequest :=
  ⟨((makeXMLRequest_classification rejectingDecoder sampleClient (answeringEnv ⟨404, "<html/>"⟩)
      0 ⟨404, "<html/>"⟩ (by decide) rfl).1 (by decide)).2.2.2.2.2.2.2
      (by decide) (by decide) (by decide) (by decide),
    ((makeXMLRequest_classification rejectingDecoder sampleClient (answeringEnv ⟨404, "<html/>"⟩)
      0 ⟨404, "<html/>"⟩ (by decide) rfl).1 (by decide)).1,
    ((makeXMLRequest_classification rejectingDecoder sampleClient (answeringEnv ⟨400, ""⟩)
      0 ⟨400, ""⟩ (by decide) rfl).1 (by decide)).2.2.2.1 (by decide)⟩

/-- C12: once the token step succeeded and the service answered, a status 201
makes `makeXMLRequest` return a nil error with the output structure as it was,
the same whatever the decoder and the body; a status 200 whose body the
decoder rejects makes it return the error of the decoder. -/
theorem makeXMLRequest_created {α : Type} (xmlDecode : String → α → α × Option GoError)
    (c : Client) (env : RequestEnv) (v : α) (res : HTTPResponse)
    (htok : (c.checkLimitAndGetToken env).err = none) (hdo : env.doResult = .ok res) :
    (res.StatusCode = 201 →
      (c.makeXMLRequest xmlDecode env v).err = none ∧
      (c.makeXMLRequest xmlDecode env v).v = v ∧
      (c.makeXMLRequest xmlDecode env v).panicked = false ∧
      ∀ (xmlDecode' : String → α → α × Option GoError) (body : String),
        c.makeXMLRequest xmlDecode' { env with doResult := .ok { res with Body := body } } v =
          c.makeXMLRequest xmlDecode env v) ∧
      (res.StatusCode = 200 → ∀ e, (xmlDecode res.Body v).2 = some e →
        (c.makeXMLRequest xmlDecode env v).err = some e) := by
  obtain ⟨token, htoken⟩ := checkLimitAndGetToken_token c env htok
  constructor
  · intro hs
    have h1 : ¬ (res.StatusCode < 200 ∨ res.StatusCode ≥ 400) := by omega
    have key : ∀ (xmlDecode' : String → α → α × Option GoError) (body : String),
        c.makeXMLRequest xmlDecode' { env with doResult := .ok { res with Body := body } } v =
          { client := (c.checkLimitAndGetToken env).client
            err := none
            v := v
            tokenRequests := (c.checkLimitAndGetToken env).requests
            authorization := some ("Bearer " ++ token.AccessToken) } := by
      intro xmlDecode' body
      have h2 : c.checkLimitAndGetToken { env with doResult := .ok { res with Body := body } } =
          c.checkLimitAndGetToken env := by
        unfold Client.checkLimitAndGetToken
        rfl
      simp only [Client.makeXMLRequest, h2]
      simp only [htok, htoken, h1, if_false]
      simp only [hs, if_true]
    have henv : ({ env with doResult := .ok { res with Body := res.Body } } : RequestEnv) =
        env := by
      show ({ env with doResult := .ok res } : RequestEnv) = env
      rw [← hdo]
    have key' := key xmlDecode res.Body
    rw [henv] at key'
    refine ⟨by rw [key'], by rw [key'], by rw [key'], fun xmlDecode' body => ?_⟩
    rw [key', key]
  · intro hs e he
    have h1 : ¬ (res.StatusCode < 200 ∨ res.StatusCode ≥ 400) := by omega
    have h2 : ¬ res.StatusCode = 201 := by omega
    simp only [Client.makeXMLRequest, htok, htoken, hdo, h1, h2, if_false]
    cases hx : xmlDecode res.Body v with
    | mk v' e' =>
      rw [hx] at he
      simp only at he
      subst he
      rfl

/-- C12 at a `201` answer with a body and at a `200` answer that the decoder rejects. -/
theorem makeXMLRequest_created_witness :
    (sampleClient.makeXMLRequest rejectingDecoder (answeringEnv ⟨201, "<a>"⟩) 7).err = none ∧
      (sampleClient.makeXMLRequest rejectingDecoder (answeringEnv ⟨201, "<a>"⟩) 7).v = 7 ∧
      (sampleClient.makeXMLRequest rejectingDecoder (answeringEnv ⟨200, "<a>"⟩) 7).err =
        some (.external "EOF") :=
  ⟨((makeXMLRequest_created rejectingDecoder sampleClient (answeringEnv ⟨201, "<a>"⟩) 7
      ⟨201, "<a>"⟩ (by decide) rfl).1 (by decide)).1,
    ((makeXMLRequest_created rejectingDecoder sampleClient (answeringEnv ⟨201, "<a>"⟩) 7
      ⟨201, "<a>"⟩ (by decide) rfl).1 (by decide)).2.1,
    (makeXMLRequest_created rejectingDecoder sampleClient (answeringEnv ⟨200, "<a>"⟩) 7
      ⟨200, "<a>"⟩ (by decide) rfl).2 (by decide) _ rfl⟩

/-- C13: `NewClient` returns an error, and then a nil client, exactly when one of
the four credentials is empty; otherwise it returns a client that stores the
credentials as given, has no token, and whose two services point back to the
address of the client and carry the production base URLs. -/
theorem NewClient_spec (addr : Nat) (username password clientID secret : String)
    (client : Option HTTPClient) :
    ((NewClient addr username password clientID secret client).2 ≠ none ↔
        username = "" ∨ password = "" ∨ clientID = "" ∨ secret = "") ∧
      ((NewClient addr username password clientID secret client).2 ≠ none →
        (NewClient addr username password clientID secret client).1 = none) ∧
      (¬ (username = "" ∨ password = "" ∨ clientID = "" ∨ secret = "") →
        ∃ c, NewClient addr username password clientID secret client = (some c, none) ∧
          c.username = username ∧ c.password = password ∧ c.clientID = clientID ∧
          c.clientSecret = secret ∧ c.token = none ∧
          c.EstimateService =
            some { client := addr, BaseURL := "https://api.cisco.com/commerce/EST/v2/async" } ∧
          c.QuoteService =
            some { client := addr, BaseURL := "https://api.cisco.com/commerce/QUOTING/v1" } ∧
          c.lim = some { limit := 100, burst := 1 } ∧
          c.HTTPClient = some (client.getD { Timeout := 10 * Second })) := by
  by_cases h : username = "" ∨ password = "" ∨ clientID = "" ∨ secret = ""
  · simp [NewClient, h]
  · simp only [NewClient, h, if_false, ne_eq, not_true_eq_false, false_iff, not_false_eq_true,
      false_implies, true_and, forall_true_left]
    refine ⟨_, rfl, rfl, rfl, rfl, rfl, rfl, rfl, rfl, rfl, ?_⟩
    cases client <;> rfl

/-- C13 at full credentials and at an empty password. -/
theorem NewClient_spec_witness :
    (∃ c, NewClient 1 "u" "p" "id" "s" none = (some c, none) ∧ c.username = "u" ∧
        c.token = none ∧ (c.QuoteService.map (fun q => q.client)) = some 1) ∧
      NewClient 1 "u" "" "id" "s" none = (none, some (.errorsNew "missing required parameters")) := by
  refine ⟨?_, by decide⟩
  obtain ⟨c, h1, h2, -, -, -, h6, -, h8, -⟩ :=
    (NewClient_spec 1 "u" "p" "id" "s" none).2.2 (by decide)
  exact ⟨c, h1, h2, h6, by rw [h8]; rfl⟩

/-! ## The loops of the projection -/

/-- A fold whose step overwrites an observation at every entry that satisfies `p`
leaves the value written at the last such entry, or the initial one. -/
theorem foldl_last {α β γ : Type} (step : β → α → β) (g : β → γ) (p : α → Bool) (f : α → γ)
    (h : ∀ b a, g (step b a) = if p a = true then f a else g b) (l : List α) (b : β) :
    g (l.foldl step b) = ((lastWhere p l).map f).getD (g b) := by
  induction l generalizing b with
  | nil => rfl
  | cons a l ih =>
    rw [List.foldl_cons, ih, h]
    unfold lastWhere
    by_cases hp : p a = true
    · rw [if_pos hp, List.filter_cons_of_pos hp]
      cases hl : l.filter p with
      | nil => rfl
      | cons x xs =>
        rw [List.getLast?_cons_cons]
        obtain ⟨y, hy⟩ : ∃ y, (x :: xs).getLast? = some y :=
          ⟨_, List.getLast?_eq_getLast _ (List.cons_ne_nil _ _)⟩
        rw [hy]
        rfl
    · rw [if_neg hp, List.filter_cons_of_neg hp]

/-- The last entry that satisfies `p` satisfies `p` and belongs to the list, and no
entry after it satisfies `p`. -/
theorem lastWhere_eq_some {α : Type} (p : α → Bool) (l : List α) (a : α)
    (h : lastWhere p l = some a) :
    p a = true ∧ ∃ pre post, l = pre ++ a :: post ∧ ∀ x ∈ post, p x = false := by
  induction l with
  | nil => simp [lastWhere] at h
  | cons x l ih =>
    unfold lastWhere at h ih
    by_cases hp : p x = true
    · rw [List.filter_cons_of_pos hp] at h
      cases hl : l.filter p with
      | nil =>
        rw [hl] at h
        simp only [List.getLast?_singleton, Option.some.injEq] at h
        subst h
        refine ⟨hp, [], l, rfl, fun y hy => ?_⟩
        by_contra hcon
        have : y ∈ l.filter p := List.mem_filter.2 ⟨hy, by simpa using hcon⟩
        rw [hl] at this
        simp at this
      | cons y ys =>
        rw [hl, List.getLast?_cons_cons] at h
        obtain ⟨h1, pre, post, h2, h3⟩ := ih (hl ▸ h)
        exact ⟨h1, x :: pre, post, by rw [h2]; rfl, h3⟩
    · rw [List.filter_cons_of_neg hp] at h
      obtain ⟨h1, pre, post, h2, h3⟩ := ih h
      exact ⟨h1, x :: pre, post, by rw [h2]; rfl, h3⟩

/-- No entry satisfies `p` when there is no last one. -/
theorem lastWhere_eq_none {α : Type} (p : α → Bool) (l : List α) (h : lastWhere p l = none) :
    ∀ x ∈ l, p x = false := by
  intro x hx
  by_contra hcon
  have hmem : x ∈ l.filter p := List.mem_filter.2 ⟨hx, by simpa using hcon⟩
  unfold lastWhere at h
  rw [List.getLast?_eq_none_iff] at h
  rw [h] at hmem
  simp at hmem

/-- The last entry of `pre ++ a :: post` that satisfies `p` is `a` when `a`
satisfies `p` and nothing in `post` does. -/
theorem lastWhere_append {α : Type} (p : α → Bool) (pre post : List α) (a : α)
    (ha : p a = true) (hpost : ∀ x ∈ post, p x = false) :
    lastWhere p (pre ++ a :: post) = some a := by
  unfold lastWhere
  have : post.filter p = [] := by
    rw [List.filter_eq_nil_iff]
    intro x hx
    simp [hpost x hx]
  rw [List.filter_append, List.filter_cons_of_pos ha, this]
  simp

theorem nameStep_firstName (contact : Contact) (field : XMLNamePart) :
    (nameStep contact field).FirstName =
      if (decide (field.SequenceName = "First Name")) = true then field.Text
      else contact.FirstName := by
  unfold nameStep
  split_ifs <;> simp_all

theorem nameStep_lastName (contact : Contact) (field : XMLNamePart) :
    (nameStep contact field).LastName =
      if (decide (field.SequenceName = "Last Name")) = true then field.Text
      else contact.LastName := by
  unfold nameStep
  split_ifs <;> simp_all

/-- The given and family name of a company built from a party: the texts of the
last name parts with the two tags. -/
theorem companyOf_names (name : String) (party : XMLParty) :
    (companyOf name party).Contact.FirstName =
        ((lastWhere (fun field => decide (field.SequenceName = "First Name"))
          party.Contact.Name).map (fun field => field.Text)).getD "" ∧
      (companyOf name party).Contact.LastName =
        ((lastWhere (fun field => decide (field.SequenceName = "Last Name"))
          party.Contact.Name).map (fun field => field.Text)).getD "" := by
  have h1 := foldl_last nameStep (fun c => c.FirstName)
    (fun field => decide (field.SequenceName = "First Name")) (fun field => field.Text)
    nameStep_firstName party.Contact.Name
  have h2 := foldl_last nameStep (fun c => c.LastName)
    (fun field => decide (field.SequenceName = "Last Name")) (fun field => field.Text)
    nameStep_lastName party.Contact.Name
  unfold companyOf
  simp only
  split_ifs <;> exact ⟨h1 _, h2 _⟩

theorem partyStep_customer (aqr : AcquireQuoteResponse) (party : XMLParty) :
    (partyStep aqr party).Customer =
      if (decide (party.Role = "End Customer")) = true then companyOf party.Name party
      else aqr.Customer := by
  unfold partyStep
  split_ifs <;> simp_all

theorem partyStep_partner (aqr : AcquireQuoteResponse) (party : XMLParty) :
    (partyStep aqr party).Partner =
      if (decide (party.Role = "Partner")) = true then companyOf party.PartyID party
      else aqr.Partner := by
  unfold partyStep
  split_ifs <;> simp_all

theorem priceListStep_companies (aqr : AcquireQuoteResponse) (p : XMLPriceList) :
    ((priceListStep aqr p).Customer, (priceListStep aqr p).Partner) =
      (aqr.Customer, aqr.Partner) := by
  unfold priceListStep
  split_ifs <;> rfl

theorem lineLoop_header (parseFloat : String → Float64 × Option GoError)
    (lines : List XMLQuoteLine) (aqr : AcquireQuoteResponse) :
    (lines.foldl
        (fun aqr line => { aqr with LineItems := aqr.LineItems ++ [projectLine parseFloat line] })
        aqr) = { aqr with LineItems := aqr.LineItems ++ lines.map (projectLine parseFloat) } := by
  induction lines generalizing aqr with
  | nil => simp
  | cons line lines ih => simp [ih]

/-- The header of a successful projection: the customer and the partner are the
companies built from the last party of each role, and the price list and its
id are those of the last entry that has both. -/
theorem AcquireByDealID_header (parseFloat : String → Float64 × Option GoError)
    (resp : AcquireQuoteXMLResponse) (h : resp.ChangeStatus.Reason = "Success") :
    ∃ aqr, QuoteService.AcquireByDealID parseFloat resp = (some aqr, none) ∧
      aqr.Customer =
        ((lastWhere (fun party => decide (party.Role = "End Customer"))
          resp.QuoteHeader.Party).map (fun party => companyOf party.Name party)).getD {} ∧
      aqr.Partner =
        ((lastWhere (fun party => decide (party.Role = "Partner"))
          resp.QuoteHeader.Party).map (fun party => companyOf party.PartyID party)).getD {} ∧
      aqr.PriceList =
        ((lastWhere (fun p => decide (p.Description ≠ "" ∧ p.ID ≠ ""))
          resp.QuoteHeader.PriceList).map (fun p => p.Description)).getD "" ∧
      aqr.PriceListID =
        ((lastWhere (fun p => decide (p.Description ≠ "" ∧ p.ID ≠ ""))
          resp.QuoteHeader.PriceList).map (fun p => p.ID)).getD "" := by
  have hcust := foldl_last partyStep (fun a => a.Customer)
    (fun party => decide (party.Role = "End Customer")) (fun party => companyOf party.Name party)
    partyStep_customer resp.QuoteHeader.Party
  have hpart := foldl_last partyStep (fun a => a.Partner)
    (fun party => decide (party.Role = "Partner")) (fun party => companyOf party.PartyID party)
    partyStep_partner resp.QuoteHeader.Party
  have hparty_pl : ∀ (l : List XMLParty) (a : AcquireQuoteResponse),
      ((l.foldl partyStep a).PriceList, (l.foldl partyStep a).PriceListID) =
        (a.PriceList, a.PriceListID) :=
    foldl_keeps partyStep (fun a => (a.PriceList, a.PriceListID)) (by
      intro b a
      unfold partyStep
      split_ifs <;> rfl)
  have hpl_c := foldl_keeps priceListStep (fun a => (a.Customer, a.Partner))
    priceListStep_companies resp.QuoteHeader.PriceList
  have hpl := foldl_last priceListStep (fun a => a.PriceList)
    (fun p => decide (p.Description ≠ "" ∧ p.ID ≠ "")) (fun p => p.Description) (by
      intro b a
      unfold priceListStep
      split_ifs <;> simp_all) resp.QuoteHeader.PriceList
  have hplid := foldl_last priceListStep (fun a => a.PriceListID)
    (fun p => decide (p.Description ≠ "" ∧ p.ID ≠ "")) (fun p => p.ID) (by
      intro b a
      unfold priceListStep
      split_ifs <;> simp_all) resp.QuoteHeader.PriceList
  simp only [Prod.mk.injEq] at hparty_pl hpl_c
  unfold QuoteService.AcquireByDealID
  simp only [h, ne_eq, not_true_eq_false, if_false, lineLoop_header]
  refine ⟨_, rfl, ?_, ?_, ?_, ?_⟩
  · simp only [(hpl_c _).1]
    split_ifs <;> simp only [hcust]
  · simp only [(hpl_c _).2]
    split_ifs <;> simp only [hpart]
  · simp only [hpl]
    split_ifs <;> simp only [(hparty_pl _ _).1]
  · simp only [hplid]
    split_ifs <;> simp only [(hparty_pl _ _).2]


/-- C14, amended: on a successful response the customer is the company built
from the last party with role `"End Customer"` and the partner the one built
from the last party with role `"Partner"` (an empty company when there is no
such party), and the contact of a company built from a party takes as first
name the text of the last name part tagged `"First Name"` and as last name the
text of the last name part tagged `"Last Name"`, the empty text when no part
has the tag: of several parts with the same tag the last one wins. -/
theorem AcquireByDealID_contact_names (parseFloat : String → Float64 × Option GoError)
    (resp : AcquireQuoteXMLResponse) (h : resp.ChangeStatus.Reason = "Success") :
    ∃ aqr, QuoteService.AcquireByDealID parseFloat resp = (some aqr, none) ∧
      aqr.Customer =
        ((lastWhere (fun party => decide (party.Role = "End Customer"))
          resp.QuoteHeader.Party).map (fun party => companyOf party.Name party)).getD {} ∧
      aqr.Partner =
        ((lastWhere (fun party => decide (party.Role = "Partner"))
          resp.QuoteHeader.Party).map (fun party => companyOf party.PartyID party)).getD {} ∧
      ∀ (name : String) (party : XMLParty),
        (companyOf name party).Contact.FirstName =
            ((lastWhere (fun field => decide (field.SequenceName = "First Name"))
              party.Contact.Name).map (fun field => field.Text)).getD "" ∧
          (companyOf name party).Contact.LastName =
            ((lastWhere (fun field => decide (field.SequenceName = "Last Name"))
              party.Contact.Name).map (fun field => field.Text)).getD "" := by
  obtain ⟨aqr, h1, h2, h3, _⟩ := AcquireByDealID_header parseFloat resp h
  exact ⟨aqr, h1, h2, h3, companyOf_names⟩

/-- C14 as stated fails when a tag occurs twice: with the name parts
`"First Name"` = `"Jane"` and `"First Name"` = `"Janet"`, the first part tagged
`"First Name"` reads `"Jane"` and the projected first name is `"Janet"`. -/
theorem AcquireByDealID_contact_names_counterexample :
    (([⟨"Jane", "First Name"⟩, ⟨"Janet", "First Name"⟩] : List XMLNamePart).find?
        (fun field => decide (field.SequenceName = "First Name"))).map (fun field => field.Text) =
        some "Jane" ∧
      ∃ aqr, QuoteService.AcquireByDealID ParseFloat
          (headerOnly [customerNamed [⟨"Jane", "First Name"⟩, ⟨"Janet", "First Name"⟩]] []) =
            (some aqr, none) ∧
        aqr.Customer.Contact.FirstName = "Janet" :=
  ⟨by decide, _, rfl, by decide⟩

/-- C14 at the name parts `"First Name"` = `"Jane"`, `"Last Name"` = `"Doe"`: the
customer's contact is Jane Doe. -/
theorem AcquireByDealID_contact_names_witness :
    ∃ aqr, QuoteService.AcquireByDealID ParseFloat
        (headerOnly [customerNamed [⟨"Jane", "First Name"⟩, ⟨"Doe", "Last Name"⟩]] []) =
          (some aqr, none) ∧
      aqr.Customer.Contact.FirstName = "Jane" ∧ aqr.Customer.Contact.LastName = "Doe" := by
  obtain ⟨aqr, h1, h2, _, h4⟩ := AcquireByDealID_contact_names ParseFloat
    (headerOnly [customerNamed [⟨"Jane", "First Name"⟩, ⟨"Doe", "Last Name"⟩]] []) (by decide)
  refine ⟨aqr, h1, ?_, ?_⟩
  · rw [h2]
    exact (h4 "Acme" (customerNamed [⟨"Jane", "First Name"⟩, ⟨"Doe", "Last Name"⟩])).1
  · rw [h2]
    exact (h4 "Acme" (customerNamed [⟨"Jane", "First Name"⟩, ⟨"Doe", "Last Name"⟩])).2

/-- C15, amended: on a successful response the price list and its id are the
description and the id of the last header `PriceList` entry, in document
order, whose description and id are both non-empty; both are empty when no
entry qualifies. -/
theorem AcquireByDealID_priceList (parseFloat : String → Float64 × Option GoError)
    (resp : AcquireQuoteXMLResponse) (h : resp.ChangeStatus.Reason = "Success") :
    ∃ aqr, QuoteService.AcquireByDealID parseFloat resp = (some aqr, none) ∧
      aqr.PriceList =
        ((lastWhere (fun p => decide (p.Description ≠ "" ∧ p.ID ≠ ""))
          resp.QuoteHeader.PriceList).map (fun p => p.Description)).getD "" ∧
      aqr.PriceListID =
        ((lastWhere (fun p => decide (p.Description ≠ "" ∧ p.ID ≠ ""))
          resp.QuoteHeader.PriceList).map (fun p => p.ID)).getD "" := by
  obtain ⟨aqr, h1, _, _, h4, h5⟩ := AcquireByDealID_header parseFloat resp h
  exact ⟨aqr, h1, h4, h5⟩

/-- C15 as stated fails when two entries qualify: the first entry with a
description and an id is the price list 1109, and the output names the price
list 1110 that follows it. -/
theorem AcquireByDealID_priceList_counterexample :
    (([⟨"1109", "Global Price List US", ""⟩, ⟨"1110", "Global Price List EMEA", ""⟩] :
        List XMLPriceList).find? (fun p => decide (p.Description ≠ "" ∧ p.ID ≠ ""))).map
        (fun p => (p.Description, p.ID)) = some ("Global Price List US", "1109") ∧
      ∃ aqr, QuoteService.AcquireByDealID ParseFloat
          (headerOnly []
            [⟨"1109", "Global Price List US", ""⟩, ⟨"1110", "Global Price List EMEA", ""⟩]) =
            (some aqr, none) ∧
        (aqr.PriceList, aqr.PriceListID) = ("Global Price List EMEA", "1110") :=
  ⟨by decide, _, rfl, by decide⟩

/-- C15 at a header whose first entry lacks an id and whose second entry is
complete, and at a header without entries. -/
theorem AcquireByDealID_priceList_witness :
    (∃ aqr, QuoteService.AcquireByDealID ParseFloat
        (headerOnly [] [⟨"", "Draft", ""⟩, ⟨"1109", "Global Price List US", ""⟩]) =
          (some aqr, none) ∧
      aqr.PriceList = "Global Price List US" ∧ aqr.PriceListID = "1109") ∧
    ∃ aqr, QuoteService.AcquireByDealID ParseFloat (headerOnly [] []) = (some aqr, none) ∧
      aqr.PriceList = "" ∧ aqr.PriceListID = "" :=
  ⟨AcquireByDealID_priceList ParseFloat
      (headerOnly [] [⟨"", "Draft", ""⟩, ⟨"1109", "Global Price List US", ""⟩]) (by decide),
    AcquireByDealID_priceList ParseFloat (headerOnly [] []) (by decide)⟩

/-! ## The loops over a quote line -/

theorem descriptionStep_floats (ql : AcquireQuoteResponseItem) (d : XMLDescription) :
    ((descriptionStep ql d).prices, (descriptionStep ql d).discounts) =
      (ql.prices, ql.discounts) := by
  unfold descriptionStep
  split_ifs <;> rfl

theorem effectivityStep_keeps (ql : AcquireQuoteResponseItem) (eff : XMLEffectivity) :
    ((effectivityStep ql eff).texts, (effectivityStep ql eff).prices,
        (effectivityStep ql eff).discounts) = (ql.texts, ql.prices, ql.discounts) := by
  unfold effectivityStep
  split_ifs <;> rfl

theorem propertyStep_keeps (parseFloat : String → Float64 × Option GoError)
    (ql : AcquireQuoteResponseItem) (prop : XMLProperty) :
    ((propertyStep parseFloat ql prop).texts, (propertyStep parseFloat ql prop).discounts) =
      (ql.texts, ql.discounts) := by
  unfold propertyStep
  split_ifs <;>
    first
    | rfl
    | exact foldl_keeps effectivityStep (fun q => (q.texts, q.discounts))
        (fun b a => by
          have := effectivityStep_keeps b a
          simp only [Prod.mk.injEq] at this ⊢
          exact ⟨this.1, this.2.2⟩) _ _

theorem discountStep_keeps (parseFloat : String → Float64 × Option GoError)
    (ql : AcquireQuoteResponseItem) (discount : XMLDiscount) :
    ((discountStep parseFloat ql discount).texts, (discountStep parseFloat ql discount).prices) =
      (ql.texts, ql.prices) := by
  unfold discountStep
  split_ifs <;> rfl

/-- What the loop over the descriptions does to the three texts it writes. -/
theorem descriptionStep_texts (ql : AcquireQuoteResponseItem) (d : XMLDescription) :
    (descriptionStep ql d).Description =
        (if decide (d.Text ≠ "" ∧ d.TypeAttr ≠ "ServiceType" ∧ d.TypeAttr ≠ "ServiceLevelName") =
            true then d.Text else ql.Description) ∧
      (descriptionStep ql d).ServiceType =
        (if decide (d.TypeAttr = "ServiceType") = true then d.Text else ql.ServiceType) ∧
      (descriptionStep ql d).ServiceLevelName =
        (if decide (d.TypeAttr = "ServiceLevelName") = true then d.Text
          else ql.ServiceLevelName) := by
  unfold descriptionStep
  refine ⟨?_, ?_, ?_⟩ <;> split_ifs <;> simp_all

/-- The texts of a projected line are those left by the loop over its
descriptions. -/
theorem projectLine_texts (parseFloat : String → Float64 × Option GoError)
    (line : XMLQuoteLine) :
    (projectLine parseFloat line).texts =
      (line.Item.Description.foldl descriptionStep
        { LineNumber := line.LineNumber, PartNumber := line.Item.ItemIDText }).texts := by
  have hp : ∀ (l : List XMLProperty) (b : AcquireQuoteResponseItem),
      (l.foldl (propertyStep parseFloat) b).texts = b.texts :=
    foldl_keeps (propertyStep parseFloat) (fun q => q.texts)
      (fun b a => congrArg Prod.fst (propertyStep_keeps parseFloat b a))
  have hx : ∀ (l : List XMLDiscount) (b : AcquireQuoteResponseItem),
      (l.foldl (discountStep parseFloat) b).texts = b.texts :=
    foldl_keeps (discountStep parseFloat) (fun q => q.texts)
      (fun b a => congrArg Prod.fst (discountStep_keeps parseFloat b a))
  have : (projectLine parseFloat line).texts =
      (line.Discount.foldl (discountStep parseFloat)
        (line.Item.Property.foldl (propertyStep parseFloat)
          (if line.Item.ClassificationTypeListName = "ProductType" then
            { line.Item.Description.foldl descriptionStep
                { LineNumber := line.LineNumber, PartNumber := line.Item.ItemIDText } with
              ProductTypeClassification := line.Item.ClassificationTypeText }
          else line.Item.Description.foldl descriptionStep
                { LineNumber := line.LineNumber, PartNumber := line.Item.ItemIDText }))).texts :=
    rfl
  rw [this, hx, hp]
  split_ifs <;> rfl

/-- C16, amended: the description of a projected line is the text of the last
description entry, in document order, whose text is not empty and whose type is
neither `"ServiceType"` nor `"ServiceLevelName"`, the empty text when there is
none; the service type is the text of the last entry whose type is exactly
`"ServiceType"` and the service level name the text of the last entry whose
type is exactly `"ServiceLevelName"`, each empty when there is no such entry. -/
theorem projectLine_descriptions (parseFloat : String → Float64 × Option GoError)
    (line : XMLQuoteLine) :
    (projectLine parseFloat line).Description =
        ((lastWhere
            (fun d => decide (d.Text ≠ "" ∧ d.TypeAttr ≠ "ServiceType" ∧
              d.TypeAttr ≠ "ServiceLevelName"))
            line.Item.Description).map (fun d => d.Text)).getD "" ∧
      (projectLine parseFloat line).ServiceType =
        ((lastWhere (fun d => decide (d.TypeAttr = "ServiceType"))
            line.Item.Description).map (fun d => d.Text)).getD "" ∧
      (projectLine parseFloat line).ServiceLevelName =
        ((lastWhere (fun d => decide (d.TypeAttr = "ServiceLevelName"))
            line.Item.Description).map (fun d => d.Text)).getD "" := by
  have h := projectLine_texts parseFloat line
  simp only [AcquireQuoteResponseItem.texts, Prod.mk.injEq] at h
  obtain ⟨h1, h2, h3⟩ := h
  rw [h1, h2, h3]
  exact ⟨foldl_last descriptionStep (fun q => q.Description) _ (fun d => d.Text)
      (fun b a => (descriptionStep_texts b a).1) _ _,
    foldl_last descriptionStep (fun q => q.ServiceType) _ (fun d => d.Text)
      (fun b a => (descriptionStep_texts b a).2.1) _ _,
    foldl_last descriptionStep (fun q => q.ServiceLevelName) _ (fun d => d.Text)
      (fun b a => (descriptionStep_texts b a).2.2) _ _⟩

/-- C16 as stated fails when two general descriptions are present: the first
entry whose type is neither `"ServiceType"` nor `"ServiceLevelName"` reads
`"Router"`, and the projected description is `"Chassis"`. -/
theorem projectLine_descriptions_counterexample :
    (([⟨"Router", ""⟩, ⟨"Chassis", ""⟩] : List XMLDescription).find?
        (fun d => decide (d.TypeAttr ≠ "ServiceType" ∧ d.TypeAttr ≠ "ServiceLevelName"))).map
        (fun d => d.Text) = some "Router" ∧
      (projectLine ParseFloat (lineDescribed [⟨"Router", ""⟩, ⟨"Chassis", ""⟩])).Description =
        "Chassis" := by
  decide

/-- The items between which the loops of `projectLine` run: the item `X` handed to
the loop over the properties carries the texts, prices and discounts left by
the loop over the descriptions, and the texts, prices and discounts of the
projected line are those left by the loop over the discounts. -/
theorem projectLine_loops (parseFloat : String → Float64 × Option GoError)
    (line : XMLQuoteLine) :
    ∃ X : AcquireQuoteResponseItem,
      (X.texts, X.prices, X.discounts) =
        ((line.Item.Description.foldl descriptionStep
            { LineNumber := line.LineNumber, PartNumber := line.Item.ItemIDText }).texts,
          (line.Item.Description.foldl descriptionStep
            { LineNumber := line.LineNumber, PartNumber := line.Item.ItemIDText }).prices,
          (line.Item.Description.foldl descriptionStep
            { LineNumber := line.LineNumber, PartNumber := line.Item.ItemIDText }).discounts) ∧
      (projectLine parseFloat line).prices =
        (line.Discount.foldl (discountStep parseFloat)
          (line.Item.Property.foldl (propertyStep parseFloat) X)).prices ∧
      (projectLine parseFloat line).discounts =
        (line.Discount.foldl (discountStep parseFloat)
          (line.Item.Property.foldl (propertyStep parseFloat) X)).discounts :=
  ⟨if line.Item.ClassificationTypeListName = "ProductType" then
      { line.Item.Description.foldl descriptionStep
          { LineNumber := line.LineNumber, PartNumber := line.Item.ItemIDText } with
        ProductTypeClassification := line.Item.ClassificationTypeText }
    else line.Item.Description.foldl descriptionStep
          { LineNumber := line.LineNumber, PartNumber := line.Item.ItemIDText },
    by split_ifs <;> rfl, rfl, rfl⟩

/-- What a property does to a price field. -/
theorem propertyStep_prices (parseFloat : String → Float64 × Option GoError)
    (ql : AcquireQuoteResponseItem) (prop : XMLProperty) :
    ∀ tf ∈ priceFields, tf.2 (propertyStep parseFloat ql prop) =
      if decide (prop.NameValueName = tf.1) = true then (parseFloat prop.NameValueText).1
      else tf.2 ql := by
  have heff : ∀ (l : List XMLEffectivity) (b : AcquireQuoteResponseItem),
      (l.foldl effectivityStep b).prices = b.prices :=
    foldl_keeps effectivityStep (fun q => q.prices)
      (fun b a => congrArg (fun t => t.2.1) (effectivityStep_keeps b a))
  simp only [AcquireQuoteResponseItem.prices, Prod.mk.injEq] at heff
  intro tf htf
  obtain ⟨t, g⟩ := tf
  simp only [priceFields, List.mem_cons, List.mem_singleton, Prod.mk.injEq, List.not_mem_nil,
    or_false] at htf
  unfold propertyStep
  simp only [decide_eq_true_eq]
  by_cases h : prop.NameValueName = t
  · rw [if_pos h]
    rcases htf with ⟨rfl, rfl⟩ | ⟨rfl, rfl⟩ | ⟨rfl, rfl⟩ <;>
      simp only [h, String.reduceEq, if_true, if_false]
  · rw [if_neg h]
    rcases htf with ⟨rfl, rfl⟩ | ⟨rfl, rfl⟩ | ⟨rfl, rfl⟩ <;> split_ifs <;>
      first
      | rfl
      | exact (heff _ _).1
      | exact (heff _ _).2.1
      | exact (heff _ _).2.2

/-- What a discount entry does to a discount field. -/
theorem discountStep_discounts (parseFloat : String → Float64 × Option GoError)
    (ql : AcquireQuoteResponseItem) (discount : XMLDiscount) :
    ∀ tf ∈ discountFields, tf.2 (discountStep parseFloat ql discount) =
      if decide (discount.TypeText = tf.1) = true then (parseFloat discount.DiscountPercent).1
      else tf.2 ql := by
  intro tf htf
  obtain ⟨t, g⟩ := tf
  simp only [discountFields, List.mem_cons, List.mem_singleton, Prod.mk.injEq, List.not_mem_nil,
    or_false] at htf
  unfold discountStep
  simp only [decide_eq_true_eq]
  by_cases h : discount.TypeText = t
  · rw [if_pos h]
    rcases htf with ⟨rfl, rfl⟩ | ⟨rfl, rfl⟩ | ⟨rfl, rfl⟩ | ⟨rfl, rfl⟩ | ⟨rfl, rfl⟩ | ⟨rfl, rfl⟩ |
      ⟨rfl, rfl⟩ <;> simp only [h, String.reduceEq, if_true, if_false]
  · rw [if_neg h]
    rcases htf with ⟨rfl, rfl⟩ | ⟨rfl, rfl⟩ | ⟨rfl, rfl⟩ | ⟨rfl, rfl⟩ | ⟨rfl, rfl⟩ | ⟨rfl, rfl⟩ |
      ⟨rfl, rfl⟩ <;> split_ifs <;> rfl

/-- The loops before the one over the properties leave the price fields at zero. -/
theorem priceFields_keep (tf : String × (AcquireQuoteResponseItem → Float64))
    (htf : tf ∈ priceFields) (a b : AcquireQuoteResponseItem) (h : a.prices = b.prices) :
    tf.2 a = tf.2 b := by
  simp only [AcquireQuoteResponseItem.prices, Prod.mk.injEq] at h
  simp only [priceFields, List.mem_cons, List.mem_singleton, List.not_mem_nil, or_false] at htf
  rcases htf with rfl | rfl | rfl
  · exact h.1
  · exact h.2.1
  · exact h.2.2

theorem discountFields_keep (tf : String × (AcquireQuoteResponseItem → Float64))
    (htf : tf ∈ discountFields) (a b : AcquireQuoteResponseItem)
    (h : a.discounts = b.discounts) : tf.2 a = tf.2 b := by
  simp only [AcquireQuoteResponseItem.discounts, Prod.mk.injEq] at h
  simp only [discountFields, List.mem_cons, List.mem_singleton, List.not_mem_nil, or_false] at htf
  rcases htf with rfl | rfl | rfl | rfl | rfl | rfl | rfl
  · exact h.1
  · exact h.2.1
  · exact h.2.2.1
  · exact h.2.2.2.1
  · exact h.2.2.2.2.1
  · exact h.2.2.2.2.2.1
  · exact h.2.2.2.2.2.2

/-- A price field of a projected line holds what `parseFloat` returns for the text
of the last property with the field's name, and zero when there is none. -/
theorem projectLine_prices (parseFloat : String → Float64 × Option GoError)
    (line : XMLQuoteLine) :
    ∀ tf ∈ priceFields, tf.2 (projectLine parseFloat line) =
      ((lastWhere (fun prop => decide (prop.NameValueName = tf.1)) line.Item.Property).map
        (fun prop => (parseFloat prop.NameValueText).1)).getD (.fin false 0) := by
  intro tf htf
  obtain ⟨X, hX, hp, _⟩ := projectLine_loops parseFloat line
  have hd : ∀ (l : List XMLDescription) (b : AcquireQuoteResponseItem),
      (l.foldl descriptionStep b).prices = b.prices :=
    foldl_keeps descriptionStep (fun q => q.prices)
      (fun b a => congrArg Prod.fst (descriptionStep_floats b a))
  have hx : ∀ (l : List XMLDiscount) (b : AcquireQuoteResponseItem),
      (l.foldl (discountStep parseFloat) b).prices = b.prices :=
    foldl_keeps (discountStep parseFloat) (fun q => q.prices)
      (fun b a => congrArg Prod.snd (discountStep_keeps parseFloat b a))
  simp only [Prod.mk.injEq] at hX
  rw [hx] at hp
  rw [priceFields_keep tf htf _ _ hp,
    foldl_last (propertyStep parseFloat) tf.2 _ (fun prop => (parseFloat prop.NameValueText).1)
      (fun b a => propertyStep_prices parseFloat b a tf htf),
    priceFields_keep tf htf _ _ (hX.2.1.trans (hd _ _))]
  simp only [priceFields, List.mem_cons, List.mem_singleton, List.not_mem_nil, or_false] at htf
  rcases htf with rfl | rfl | rfl <;> rfl

/-- A discount field of a projected line holds what `parseFloat` returns for the
percentage of the last discount entry with the field's type text, and zero when
there is none. -/
theorem projectLine_discounts (parseFloat : String → Float64 × Option GoError)
    (line : XMLQuoteLine) :
    ∀ tf ∈ discountFields, tf.2 (projectLine parseFloat line) =
      ((lastWhere (fun d => decide (d.TypeText = tf.1)) line.Discount).map
        (fun d => (parseFloat d.DiscountPercent).1)).getD (.fin false 0) := by
  intro tf htf
  obtain ⟨X, hX, _, hdisc⟩ := projectLine_loops parseFloat line
  have hd : ∀ (l : List XMLDescription) (b : AcquireQuoteResponseItem),
      (l.foldl descriptionStep b).discounts = b.discounts :=
    foldl_keeps descriptionStep (fun q => q.discounts)
      (fun b a => congrArg Prod.snd (descriptionStep_floats b a))
  have hp : ∀ (l : List XMLProperty) (b : AcquireQuoteResponseItem),
      (l.foldl (propertyStep parseFloat) b).discounts = b.discounts :=
    foldl_keeps (propertyStep parseFloat) (fun q => q.discounts)
      (fun b a => congrArg Prod.snd (propertyStep_keeps parseFloat b a))
  simp only [Prod.mk.injEq] at hX
  rw [discountFields_keep tf htf _ _ hdisc,
    foldl_last (discountStep parseFloat) tf.2 _ (fun d => (parseFloat d.DiscountPercent).1)
      (fun b a => discountStep_discounts parseFloat b a tf htf),
    discountFields_keep tf htf _ _ ((hp _ _).trans (hX.2.2.trans (hd _ _)))]
  simp only [discountFields, List.mem_cons, List.mem_singleton, List.not_mem_nil, or_false]
    at htf
  rcases htf with rfl | rfl | rfl | rfl | rfl | rfl | rfl <;> rfl

/-! ## `strconv.ParseFloat` and `strconv.ParseInt` -/

/-- The three outcomes of `ParseFloat`: no error; a syntax error with the value
zero; a range error with an infinite value. -/
theorem ParseFloat_outcomes (s : String) :
    (ParseFloat s).2 = none ∨
      ((ParseFloat s).2 = some (floatSyntaxError s) ∧ (ParseFloat s).1 = .fin false 0) ∨
      ((ParseFloat s).2 = some (floatRangeError s) ∧ ∃ neg, (ParseFloat s).1 = .inf neg) := by
  unfold ParseFloat
  split
  · split_ifs
    · exact Or.inr (Or.inl ⟨rfl, rfl⟩)
    · exact Or.inl rfl
  · split
    · exact Or.inr (Or.inl ⟨rfl, rfl⟩)
    · rename_i r _
      split_ifs with h1 h2
      · exact Or.inr (Or.inl ⟨rfl, rfl⟩)
      · refine Or.inr (Or.inr ⟨rfl, ?_⟩)
        cases hf : floatOfParts r with
        | nan => rw [hf] at h2; exact absurd h2 (by decide)
        | inf neg => exact ⟨neg, rfl⟩
        | fin neg units => rw [hf] at h2; exact absurd h2 (by simp [Float64.IsInf])
      · exact Or.inl rfl

/-- The three outcomes of `ParseInt`: no error; a syntax error with the value
zero; a range error with the value at the bound of the 64-bit range. -/
theorem ParseInt_outcomes (s : String) :
    (ParseInt s).2 = none ∨
      ((ParseInt s).2 = some (.numError "ParseInt" s "invalid syntax") ∧ (ParseInt s).1 = 0) ∨
      ((ParseInt s).2 = some (.numError "ParseInt" s "value out of range") ∧
        ((ParseInt s).1 = 2 ^ 63 - 1 ∨ (ParseInt s).1 = -(2 ^ 63))) := by
  unfold ParseInt
  split
  · exact Or.inr (Or.inl ⟨rfl, rfl⟩)
  · simp only
    split_ifs <;> simp

/-! ## The numbers and optional fields of a quote line -/

/-- C17, amended: on a projected line the unit price is the value that
`strconv.ParseFloat` returns for the unit price text, each of the three price
fields is the value it returns for the text of the last property with the
field's name and each of the seven discount fields the value it returns for the
percentage of the last discount entry with the field's type text, zero when no
entry matches; the error is dropped.  That value is zero for the empty text and
whenever `ParseFloat` reports a syntax error, and it is an infinity, not zero,
whenever `ParseFloat` reports a range error. -/
theorem projectLine_floats (line : XMLQuoteLine) :
    (projectLine ParseFloat line).UnitPrice = (ParseFloat line.UnitPriceAmount.Text).1 ∧
      (∀ tf ∈ priceFields, tf.2 (projectLine ParseFloat line) =
        ((lastWhere (fun prop => decide (prop.NameValueName = tf.1)) line.Item.Property).map
          (fun prop => (ParseFloat prop.NameValueText).1)).getD (.fin false 0)) ∧
      (∀ tf ∈ discountFields, tf.2 (projectLine ParseFloat line) =
        ((lastWhere (fun d => decide (d.TypeText = tf.1)) line.Discount).map
          (fun d => (ParseFloat d.DiscountPercent).1)).getD (.fin false 0)) ∧
      ParseFloat "" = (.fin false 0, some (floatSyntaxError "")) ∧
      ∀ s, (ParseFloat s).2 = none ∨
        ((ParseFloat s).2 = some (floatSyntaxError s) ∧ (ParseFloat s).1 = .fin false 0) ∨
        ((ParseFloat s).2 = some (floatRangeError s) ∧ ∃ neg, (ParseFloat s).1 = .inf neg) :=
  ⟨rfl, projectLine_prices ParseFloat line, projectLine_discounts ParseFloat line, by decide,
    ParseFloat_outcomes⟩

/-- C17 as stated fails for a number out of range: for the unit price text
`"1e999"` `strconv.ParseFloat` reports a range error, and the projected unit
price is `+Inf`, not zero. -/
theorem projectLine_floats_counterexample :
    (ParseFloat "1e999").2 = some (floatRangeError "1e999") ∧
      (projectLine ParseFloat (linePriced "1e999" [] [])).UnitPrice = .inf false ∧
      (projectLine ParseFloat (linePriced "1e999" [] [])).UnitPrice ≠ .fin false 0 := by
  decide!

/-- C17 at a line with unit price `"12.5"`, a net price given twice, first as
`"10.25"` and then as `"n/a"`, and a prepay discount of `"15"`: the unit price is
12.5, the net price zero, the prepay discount 15 and the total discount zero. -/
theorem projectLine_floats_witness :
    (projectLine ParseFloat
        (linePriced "12.5" [⟨"", "10.25", "UnitNetPrice", []⟩, ⟨"", "n/a", "UnitNetPrice", []⟩]
          [⟨"PrePay", "15"⟩])).UnitPrice = Float64.ofRatio 25 2 ∧
      (projectLine ParseFloat
        (linePriced "12.5" [⟨"", "10.25", "UnitNetPrice", []⟩, ⟨"", "n/a", "UnitNetPrice", []⟩]
          [⟨"PrePay", "15"⟩])).UnitNetPrice = .fin false 0 ∧
      (projectLine ParseFloat
        (linePriced "12.5" [⟨"", "10.25", "UnitNetPrice", []⟩, ⟨"", "n/a", "UnitNetPrice", []⟩]
          [⟨"PrePay", "15"⟩])).PrePayDiscount = Float64.ofNat 15 ∧
      (projectLine ParseFloat
        (linePriced "12.5" [⟨"", "10.25", "UnitNetPrice", []⟩, ⟨"", "n/a", "UnitNetPrice", []⟩]
          [⟨"PrePay", "15"⟩])).TotalDiscount = .fin false 0 := by
  have h := projectLine_floats
    (linePriced "12.5" [⟨"", "10.25", "UnitNetPrice", []⟩, ⟨"", "n/a", "UnitNetPrice", []⟩]
      [⟨"PrePay", "15"⟩])
  have h1 := h.2.1 ("UnitNetPrice", fun ql => ql.UnitNetPrice) (by simp [priceFields])
  have h2 := h.2.2.1 ("PrePay", fun ql => ql.PrePayDiscount) (by simp [discountFields])
  have h3 := h.2.2.1 ("TotalDiscount", fun ql => ql.TotalDiscount) (by simp [discountFields])
  dsimp only at h1 h2 h3
  refine ⟨h.1.trans ?_, h1.trans ?_, h2.trans ?_, h3.trans ?_⟩
  · decide!
  · decide!
  · decide!
  · decide!

/-- A decimal digit is no sign. -/
theorem isDigit_not_sign (c : Char) (h : c.isDigit = true) :
    (c == '+') = false ∧ (c == '-') = false := by
  have h1 : c ≠ '+' := by
    rintro rfl
    exact absurd h (by decide)
  have h2 : c ≠ '-' := by
    rintro rfl
    exact absurd h (by decide)
  simp [h1, h2]

/-- The value of `ParseInt` on a string of digits: the number written, or the
upper bound with a range error when the number is `2^63` or more. -/
theorem ParseInt_digits (ds : List Char) (h : isDigits ds = true) :
    ParseInt (String.mk ds) =
      if decimalValue ds < 2 ^ 63 then ((decimalValue ds : Int), none)
      else (2 ^ 63 - 1, some (.numError "ParseInt" (String.mk ds) "value out of range")) := by
  rw [isDigits_iff] at h
  obtain ⟨hne, hall⟩ := h
  cases ds with
  | nil => exact absurd rfl hne
  | cons c cs =>
    have hc : c.isDigit = true := hall c (List.mem_cons_self _ _)
    obtain ⟨hs, hm⟩ := isDigit_not_sign c hc
    have hall2 : (c :: cs).all Char.isDigit = true := List.all_eq_true.2 hall
    unfold ParseInt
    simp only [hs, hm, hall2, List.isEmpty_cons, Bool.false_eq_true, if_false, Bool.not_true,
      Bool.or_self, Bool.not_false, Bool.true_and, Bool.false_and, decide_eq_true_eq]
    by_cases hlt : decimalValue (c :: cs) < 2 ^ 63
    · rw [if_neg (not_le.2 hlt), if_pos hlt]
    · rw [if_pos (not_lt.1 hlt), if_neg hlt]

/-- The value of `ParseInt` on a minus sign followed by digits: the negated
number, or the lower bound with a range error when the number exceeds `2^63`. -/
theorem ParseInt_minus_digits (ds : List Char) (h : isDigits ds = true) :
    ParseInt (String.mk ('-' :: ds)) =
      if decimalValue ds ≤ 2 ^ 63 then (-(decimalValue ds : Int), none)
      else (-(2 ^ 63),
        some (.numError "ParseInt" (String.mk ('-' :: ds)) "value out of range")) := by
  rw [isDigits_iff] at h
  obtain ⟨hne, hall⟩ := h
  have hall2 : ds.all Char.isDigit = true := List.all_eq_true.2 hall
  have hemp : ds.isEmpty = false := by
    cases ds with
    | nil => exact absurd rfl hne
    | cons c cs => rfl
  unfold ParseInt
  simp only [hall2, hemp, beq_self_eq_true, Bool.or_true, if_true, Bool.not_true, Bool.or_self,
    Bool.false_eq_true, if_false, Bool.false_and, Bool.true_and, decide_eq_true_eq]
  by_cases hle : decimalValue ds ≤ 2 ^ 63
  · rw [if_neg (not_lt.2 hle), if_pos hle]
  · rw [if_pos (not_le.1 hle), if_neg hle]

/-- C18, amended: the quantity of a projected line is the value that
`strconv.ParseInt` returns for the quantity text, the error being dropped (`int`
taken as 64 bits wide).  For a string of digits that is the number written when
it is below `2^63`, and for a minus sign followed by digits the negated number
when it is at most `2^63`.  The value is zero for the empty text and whenever
`ParseInt` reports a syntax error; when it reports a range error the value is
the bound of the range on the side of the sign, `2^63 - 1` or `-2^63`, not
zero. -/
theorem projectLine_quantity (parseFloat : String → Float64 × Option GoError)
    (line : XMLQuoteLine) :
    (projectLine parseFloat line).Quantity = (ParseInt line.Quantity).1 ∧
      ParseInt "" = (0, some (.numError "ParseInt" "" "invalid syntax")) ∧
      (∀ s, (ParseInt s).2 = none ∨
        ((ParseInt s).2 = some (.numError "ParseInt" s "invalid syntax") ∧ (ParseInt s).1 = 0) ∨
        ((ParseInt s).2 = some (.numError "ParseInt" s "value out of range") ∧
          ((ParseInt s).1 = 2 ^ 63 - 1 ∨ (ParseInt s).1 = -(2 ^ 63)))) ∧
      (∀ ds, isDigits ds = true →
        ParseInt (String.mk ds) =
          if decimalValue ds < 2 ^ 63 then ((decimalValue ds : Int), none)
          else (2 ^ 63 - 1, some (.numError "ParseInt" (String.mk ds) "value out of range"))) ∧
      (∀ ds, isDigits ds = true →
        ParseInt (String.mk ('-' :: ds)) =
          if decimalValue ds ≤ 2 ^ 63 then (-(decimalValue ds : Int), none)
          else (-(2 ^ 63),
            some (.numError "ParseInt" (String.mk ('-' :: ds)) "value out of range"))) :=
  ⟨rfl, by decide, ParseInt_outcomes, ParseInt_digits, ParseInt_minus_digits⟩

/-- C18 as stated fails for digits out of range: for the quantity text
`"9223372036854775808"`, which is `2^63`, `strconv.ParseInt` reports a range
error and the projected quantity is `2^63 - 1`, not zero. -/
theorem projectLine_quantity_counterexample :
    (ParseInt "9223372036854775808").2 =
        some (.numError "ParseInt" "9223372036854775808" "value out of range") ∧
      (projectLine ParseFloat (lineOfQuantity "9223372036854775808")).Quantity =
        9223372036854775807 ∧
      (projectLine ParseFloat (lineOfQuantity "9223372036854775808")).Quantity ≠ 0 := by
  decide!

/-- C18 at the quantity texts `"3"`, `"three"` and the empty text, and at the
digits `42` with and without a minus sign. -/
theorem projectLine_quantity_witness :
    (projectLine ParseFloat (lineOfQuantity "3")).Quantity = 3 ∧
      (projectLine ParseFloat (lineOfQuantity "three")).Quantity = 0 ∧
      (projectLine ParseFloat (lineOfQuantity "")).Quantity = 0 ∧
      ParseInt "42" = (42, none) ∧ ParseInt "-42" = (-42, none) :=
  ⟨(projectLine_quantity ParseFloat (lineOfQuantity "3")).1.trans (by decide),
    (projectLine_quantity ParseFloat (lineOfQuantity "three")).1.trans (by decide),
    (projectLine_quantity ParseFloat (lineOfQuantity "")).1.trans (by decide),
    ((projectLine_quantity ParseFloat (lineOfQuantity "3")).2.2.2.1 ['4', '2']
      (by decide)).trans (by decide),
    ((projectLine_quantity ParseFloat (lineOfQuantity "3")).2.2.2.2 ['4', '2']
      (by decide)).trans (by decide)⟩

/-- There is no last entry satisfying `p` when no entry satisfies `p`. -/
theorem lastWhere_none_of_forall {α : Type} (p : α → Bool) (l : List α)
    (h : ∀ x ∈ l, p x = false) : lastWhere p l = none := by
  unfold lastWhere
  have : l.filter p = [] := by
    rw [List.filter_eq_nil_iff]
    intro x hx
    simp [h x hx]
  rw [this]
  rfl

/-- C19: a discount entry writes the field whose type text it carries and leaves
the other six discount fields as they are, and it leaves every field other than
the seven as it is; an entry whose type text is none of the seven leaves the
whole item as it is; a discount field of the projected line for which the line
has no entry is zero; and a successful response projects without an error
whatever its discount entries are. -/
theorem discountStep_dispatch (parseFloat : String → Float64 × Option GoError)
    (ql : AcquireQuoteResponseItem) (discount : XMLDiscount) (line : XMLQuoteLine)
    (resp : AcquireQuoteXMLResponse) :
    (∀ tf ∈ discountFields, tf.2 (discountStep parseFloat ql discount) =
        if discount.TypeText = tf.1 then (parseFloat discount.DiscountPercent).1
        else tf.2 ql) ∧
      { discountStep parseFloat ql discount with
          TotalDiscount := ql.TotalDiscount
          StandardDiscount := ql.StandardDiscount
          PromotionalDiscount := ql.PromotionalDiscount
          ContractualDiscount := ql.ContractualDiscount
          NonStandardDiscount := ql.NonStandardDiscount
          PrePayDiscount := ql.PrePayDiscount
          EffectiveDiscount := ql.EffectiveDiscount } = ql ∧
      ((∀ tf ∈ discountFields, discount.TypeText ≠ tf.1) →
        discountStep parseFloat ql discount = ql) ∧
      (∀ tf ∈ discountFields, (∀ d ∈ line.Discount, d.TypeText ≠ tf.1) →
        tf.2 (projectLine parseFloat line) = .fin false 0) ∧
      (resp.ChangeStatus.Reason = "Success" →
        (QuoteService.AcquireByDealID parseFloat resp).2 = none) := by
  refine ⟨?_, ?_, ?_, ?_, ?_⟩
  · intro tf htf
    have := discountStep_discounts parseFloat ql discount tf htf
    simpa only [decide_eq_true_eq] using this
  · unfold discountStep
    split_ifs <;> rfl
  · intro h
    have h' : ∀ t g, (t, g) ∈ discountFields → discount.TypeText ≠ t := fun t g htg =>
      h (t, g) htg
    simp only [discountFields, List.mem_cons, List.mem_singleton, Prod.mk.injEq,
      List.not_mem_nil, or_false] at h'
    unfold discountStep
    rw [if_neg (h' _ _ (Or.inl ⟨rfl, rfl⟩)),
      if_neg (h' _ _ (Or.inr (Or.inl ⟨rfl, rfl⟩))),
      if_neg (h' _ _ (Or.inr (Or.inr (Or.inl ⟨rfl, rfl⟩)))),
      if_neg (h' _ _ (Or.inr (Or.inr (Or.inr (Or.inl ⟨rfl, rfl⟩))))),
      if_neg (h' _ _ (Or.inr (Or.inr (Or.inr (Or.inr (Or.inl ⟨rfl, rfl⟩)))))),
      if_neg (h' _ _ (Or.inr (Or.inr (Or.inr (Or.inr (Or.inr (Or.inl ⟨rfl, rfl⟩))))))),
      if_neg (h' _ _ (Or.inr (Or.inr (Or.inr (Or.inr (Or.inr (Or.inr ⟨rfl, rfl⟩)))))))]
  · intro tf htf h
    rw [projectLine_discounts parseFloat line tf htf,
      lastWhere_none_of_forall _ _ (fun d hd => decide_eq_false (h d hd))]
    rfl
  · intro h
    simp [QuoteService.AcquireByDealID, h]

/-- C19 at an entry of type `"Loyalty"`, which is none of the seven, and at a line
with a prepay discount of `"15"` and that entry: the entry leaves an item as it
is, the prepay discount of the line is 15, its total discount is zero, and the
response holding the line projects without an error. -/
theorem discountStep_dispatch_witness :
    discountStep ParseFloat {} ⟨"Loyalty", "5"⟩ = {} ∧
      (projectLine ParseFloat
        (linePriced "1" [] [⟨"PrePay", "15"⟩, ⟨"Loyalty", "5"⟩])).PrePayDiscount =
        Float64.ofNat 15 ∧
      (projectLine ParseFloat
        (linePriced "1" [] [⟨"PrePay", "15"⟩, ⟨"Loyalty", "5"⟩])).TotalDiscount =
        .fin false 0 ∧
      (QuoteService.AcquireByDealID ParseFloat
        { ChangeStatus := { Reason := "Success" }
          QuoteLine := [linePriced "1" [] [⟨"PrePay", "15"⟩, ⟨"Loyalty", "5"⟩]] }).2 = none := by
  have h := discountStep_dispatch ParseFloat {} ⟨"Loyalty", "5"⟩
    (linePriced "1" [] [⟨"PrePay", "15"⟩, ⟨"Loyalty", "5"⟩])
    { ChangeStatus := { Reason := "Success" }
      QuoteLine := [linePriced "1" [] [⟨"PrePay", "15"⟩, ⟨"Loyalty", "5"⟩]] }
  have h3 := h.2.2.2.1 ("TotalDiscount", fun ql => ql.TotalDiscount)
    (by simp [discountFields]) (by decide)
  dsimp only at h3
  refine ⟨h.2.2.1 (by decide), ?_, h3, h.2.2.2.2 (by decide)⟩
  decide!

/-- Go `String` returns nil exactly for the empty text. -/
theorem Helpers_String_eq (v : String) :
    Helpers.String v = if v = "" then none else some v := by
  unfold Helpers.String
  by_cases h : v = "" <;> simp [h]

/-- Go `IntOrNil` returns nil exactly for zero. -/
theorem Helpers_IntOrNil_eq (v : Int) :
    Helpers.IntOrNil v = if v = 0 then none else some v := by
  unfold Helpers.IntOrNil
  by_cases h : v = 0 <;> simp [h]

/-- Go `FloatOrNil` returns nil exactly for the two zeros. -/
theorem Helpers_FloatOrNil_eq (v : Float64) :
    Helpers.FloatOrNil v = if v.isZero = true then none else some v := by
  unfold Helpers.FloatOrNil
  cases h : v.isZero <;> rfl

/-- C20: each of the seven optional texts of a projected line is nil when the
text of the `CiscoLine` block is empty and a pointer to that text otherwise;
each of the three optional integers is nil when `strconv.ParseInt` returns zero
for its text and a pointer to the value returned otherwise; the remaining term
is nil when `strconv.ParseFloat` returns a zero for its text and a pointer to
the value returned otherwise.  `IntOrNil` and `FloatOrNil` return nil exactly
for zero. -/
theorem projectLine_optional (parseFloat : String → Float64 × Option GoError)
    (line : XMLQuoteLine) :
    ((projectLine parseFloat line).SubscriptionReferenceID =
        (if line.CiscoLine.SubscriptionReferenceID = "" then none
          else some line.CiscoLine.SubscriptionReferenceID) ∧
      (projectLine parseFloat line).MagicKey =
        (if line.CiscoLine.MagicKey = "" then none else some line.CiscoLine.MagicKey) ∧
      (projectLine parseFloat line).RequestedStartDate =
        (if line.CiscoLine.RequestedStartDate = "" then none
          else some line.CiscoLine.RequestedStartDate) ∧
      (projectLine parseFloat line).BillingModel =
        (if line.CiscoLine.BillingModel = "" then none else some line.CiscoLine.BillingModel) ∧
      (projectLine parseFloat line).ChargeType =
        (if line.CiscoLine.ChargeType = "" then none else some line.CiscoLine.ChargeType) ∧
      (projectLine parseFloat line).UnitOfMeasurement =
        (if line.CiscoLine.UnitOfMeasurement = "" then none
          else some line.CiscoLine.UnitOfMeasurement) ∧
      (projectLine parseFloat line).AdditionalItemInfo =
        (if line.CiscoLine.AdditionalItemInfo = "" then none
          else some line.CiscoLine.AdditionalItemInfo)) ∧
    ((projectLine parseFloat line).InitialTerm =
        (if (ParseInt line.CiscoLine.InitialTerm).1 = 0 then none
          else some (ParseInt line.CiscoLine.InitialTerm).1) ∧
      (projectLine parseFloat line).AutoRenewalTerm =
        (if (ParseInt line.CiscoLine.AutoRenewalTerm).1 = 0 then none
          else some (ParseInt line.CiscoLine.AutoRenewalTerm).1) ∧
      (projectLine parseFloat line).PricingTerm =
        (if (ParseInt line.CiscoLine.PricingTerm).1 = 0 then none
          else some (ParseInt line.CiscoLine.PricingTerm).1) ∧
      (projectLine parseFloat line).RemainingTerm =
        (if (parseFloat line.CiscoLine.RemainingTerm).1.isZero = true then none
          else some (parseFloat line.CiscoLine.RemainingTerm).1)) ∧
    (∀ v : Int, Helpers.IntOrNil v = none ↔ v = 0) ∧
    (∀ v : Float64, Helpers.FloatOrNil v = none ↔
      (v = .fin false 0 ∨ v = .fin true 0)) :=
  ⟨⟨Helpers_String_eq _, Helpers_String_eq _, Helpers_String_eq _, Helpers_String_eq _,
      Helpers_String_eq _, Helpers_String_eq _, Helpers_String_eq _⟩,
    ⟨Helpers_IntOrNil_eq _, Helpers_IntOrNil_eq _, Helpers_IntOrNil_eq _,
      Helpers_FloatOrNil_eq _⟩,
    fun v => by
      rw [Helpers_IntOrNil_eq]
      by_cases h : v = 0 <;> simp [h],
    fun v => by
      rw [Helpers_FloatOrNil_eq]
      cases v with
      | nan => simp [Float64.isZero]
      | inf neg => simp [Float64.isZero]
      | fin neg units =>
        cases units with
        | zero => cases neg <;> simp [Float64.isZero]
        | succ n => simp [Float64.isZero]⟩

/-! ## The pointer helper `String` -/

/-- C21 fails in the code: `String("")` returns nil, so there is no value to
dereference, while for a text that is not empty, such as `"1.0"`, `String`
returns a pointer to that text. -/
theorem Helpers_String_nil_on_empty :
    Helpers.String "" = none ∧ Helpers.String "" ≠ some "" ∧
      Helpers.String "1.0" = some "1.0" := by
  decide

/-! ## The amounts the projection leaves alone -/

theorem descriptionStep_amounts (ql : AcquireQuoteResponseItem) (d : XMLDescription) :
    (descriptionStep ql d).amounts = ql.amounts := by
  unfold descriptionStep
  split_ifs <;> rfl

theorem effectivityStep_amounts (ql : AcquireQuoteResponseItem) (eff : XMLEffectivity) :
    (effectivityStep ql eff).amounts = ql.amounts := by
  unfold effectivityStep
  split_ifs <;> rfl

theorem propertyStep_amounts (parseFloat : String → Float64 × Option GoError)
    (ql : AcquireQuoteResponseItem) (prop : XMLProperty) :
    (propertyStep parseFloat ql prop).amounts = ql.amounts := by
  unfold propertyStep
  split_ifs <;>
    first
    | rfl
    | exact foldl_keeps effectivityStep (fun q => q.amounts) effectivityStep_amounts _ _

theorem discountStep_amounts (parseFloat : String → Float64 × Option GoError)
    (ql : AcquireQuoteResponseItem) (discount : XMLDiscount) :
    (discountStep parseFloat ql discount).amounts = ql.amounts := by
  unfold discountStep
  split_ifs <;> rfl

/-- The amounts of a projected line are those of the zero item. -/
theorem projectLine_amounts_zero (parseFloat : String → Float64 × Option GoError)
    (line : XMLQuoteLine) :
    (projectLine parseFloat line).amounts = (.fin false 0, .fin false 0) := by
  have hd : ∀ (l : List XMLDescription) (b : AcquireQuoteResponseItem),
      (l.foldl descriptionStep b).amounts = b.amounts :=
    foldl_keeps descriptionStep (fun q => q.amounts) descriptionStep_amounts
  have hp : ∀ (l : List XMLProperty) (b : AcquireQuoteResponseItem),
      (l.foldl (propertyStep parseFloat) b).amounts = b.amounts :=
    foldl_keeps (propertyStep parseFloat) (fun q => q.amounts) (propertyStep_amounts parseFloat)
  have hx : ∀ (l : List XMLDiscount) (b : AcquireQuoteResponseItem),
      (l.foldl (discountStep parseFloat) b).amounts = b.amounts :=
    foldl_keeps (discountStep parseFloat) (fun q => q.amounts) (discountStep_amounts parseFloat)
  have : (projectLine parseFloat line).amounts =
      (line.Discount.foldl (discountStep parseFloat)
        (line.Item.Property.foldl (propertyStep parseFloat)
          (if line.Item.ClassificationTypeListName = "ProductType" then
            { line.Item.Description.foldl descriptionStep
                { LineNumber := line.LineNumber, PartNumber := line.Item.ItemIDText } with
              ProductTypeClassification := line.Item.ClassificationTypeText }
          else line.Item.Description.foldl descriptionStep
                { LineNumber := line.LineNumber, PartNumber := line.Item.ItemIDText }))).amounts :=
    rfl
  rw [this, hx, hp]
  split_ifs
  · exact hd _ _
  · exact hd _ _

/-- On a successful response the line items are the projections of the quote
lines. -/
theorem AcquireByDealID_items (parseFloat : String → Float64 × Option GoError)
    (resp : AcquireQuoteXMLResponse) (h : resp.ChangeStatus.Reason = "Success") :
    ∃ aqr, QuoteService.AcquireByDealID parseFloat resp = (some aqr, none) ∧
      aqr.LineItems = resp.QuoteLine.map (projectLine parseFloat) := by
  have hpl := foldl_keeps priceListStep (fun a => a.LineItems) priceListStep_lineItems
  have hparty := foldl_keeps partyStep (fun a => a.LineItems) partyStep_lineItems
  unfold QuoteService.AcquireByDealID
  simp only [h, ne_eq, not_true_eq_false, if_false, lineLoop_header]
  refine ⟨_, rfl, ?_⟩
  simp only [hpl]
  split_ifs <;> simp [hparty]

/-- C27: the extended amount and the total amount of a projected line are zero
and the projection of a line does not depend on the two upstream amounts; so
on a successful response every line item has both amounts at zero. -/
theorem projectLine_amounts (parseFloat : String → Float64 × Option GoError)
    (line : XMLQuoteLine) (resp : AcquireQuoteXMLResponse) :
    (projectLine parseFloat line).ExtendedAmount = .fin false 0 ∧
      (projectLine parseFloat line).TotalAmount = .fin false 0 ∧
      (∀ extended total : XMLAmount,
        projectLine parseFloat { line with ExtendedAmount := extended, TotalAmount := total } =
          projectLine parseFloat line) ∧
      (resp.ChangeStatus.Reason = "Success" →
        ∃ aqr, QuoteService.AcquireByDealID parseFloat resp = (some aqr, none) ∧
          ∀ item ∈ aqr.LineItems,
            item.ExtendedAmount = .fin false 0 ∧ item.TotalAmount = .fin false 0) := by
  have hz := projectLine_amounts_zero parseFloat
  simp only [AcquireQuoteResponseItem.amounts, Prod.mk.injEq] at hz
  refine ⟨(hz line).1, (hz line).2, fun _ _ => rfl, fun h => ?_⟩
  obtain ⟨aqr, h1, h2⟩ := AcquireByDealID_items parseFloat resp h
  refine ⟨aqr, h1, fun item hitem => ?_⟩
  rw [h2, List.mem_map] at hitem
  obtain ⟨l, -, rfl⟩ := hitem
  exact hz l

/-- C27 at a response whose only line carries the upstream amounts `"99.5"` and
`"199"`. -/
theorem projectLine_amounts_witness :
    ∃ aqr, QuoteService.AcquireByDealID ParseFloat
        { ChangeStatus := { Reason := "Success" }, QuoteLine := [lineWithAmounts] } =
          (some aqr, none) ∧
      ∀ item ∈ aqr.LineItems,
        item.ExtendedAmount = .fin false 0 ∧ item.TotalAmount = .fin false 0 :=
  (projectLine_amounts ParseFloat lineWithAmounts
    { ChangeStatus := { Reason := "Success" }, QuoteLine := [lineWithAmounts] }).2.2.2 (by decide)

/-! ## Panics, the limiter and the body of the token request -/

/-- A match of the duration pattern has seven entries: the match and six groups. -/
theorem findStringSubmatch_length (s : String) (ms : List String)
    (h : durationRe.FindStringSubmatch s = some ms) : ms.length = 7 := by
  simp only [Regexp.FindStringSubmatch, durationRe, if_true, Regexp.matchAt] at h
  split at h
  · simp at h
  · simp only [Option.some.injEq] at h
    subst h
    simp

/-- The token step leaves the HTTP client of the client as it is. -/
theorem checkLimitAndGetToken_HTTPClient (c : Client) (env : RequestEnv) :
    (c.checkLimitAndGetToken env).client.HTTPClient = c.HTTPClient := by
  rw [(checkLimitAndGetToken_eq c env).2.1]
  unfold Client.getToken
  split_ifs
  · rfl
  · simp only
    unfold Client.generateToken
    cases hex : env.tokenEnv.exchange with
    | error e => rfl
    | ok res =>
      simp only
      split_ifs
      · cases hd : res.decodeTokenError <;> rfl
      · cases hd : res.decodeToken <;> rfl

/-- The calls of `makeXMLRequest` that panic: those on a client without limiter,
those with a nil context that wait or get past the token step, and those on a
client without HTTP client that send the exchange or get past the token step.
The read of the token is not among the causes. -/
theorem makeXMLRequestPanics_iff (c : Client) (env : RequestEnv) (ctxNil : Bool) :
    c.makeXMLRequestPanics env ctxNil = true ↔
      c.lim = none ∨ (env.allow = false ∧ ctxNil = true) ∨
        (c.getTokenPanics env.tokenEnv = true) ∨
        ((c.checkLimitAndGetToken env).err = none ∧ (ctxNil = true ∨ c.HTTPClient = none)) := by
  have htok := checkLimitAndGetToken_token c env
  have hhttp := checkLimitAndGetToken_HTTPClient c env
  unfold Client.makeXMLRequestPanics Client.checkLimitAndGetTokenPanics
  cases hlim : c.lim with
  | none => simp
  | some l =>
    simp only [Option.isNone_some, Bool.false_eq_true, if_false]
    by_cases hw : (!env.allow && ctxNil) = true
    · have hw' : env.allow = false ∧ ctxNil = true := by simpa using hw
      simp [hw, hw'.1, hw'.2]
    · simp only [hw, if_false]
      have hw' : ¬ (env.allow = false ∧ ctxNil = true) := by simpa using hw
      cases hg : c.getTokenPanics env.tokenEnv with
      | true => simp
      | false =>
        simp only [Bool.false_eq_true, if_false, false_or, hw', reduceCtorEq]
        cases herr : (c.checkLimitAndGetToken env).err with
        | some e => simp
        | none =>
          obtain ⟨tok, ht⟩ := htok herr
          simp only [ht, hhttp, Option.isNone_some, Bool.false_eq_true, if_false, true_and]
          cases ctxNil <;> simp [Option.isNone_iff_eq_none]

/-- C25, amended: on a client whose limiter and HTTP client are not nil, as
`NewClient` leaves them, and with a context that is not nil, `makeXMLRequest`
does not panic.  When `checkLimitAndGetToken` returns a nil error the client
holds a token, so the read of the token is never the cause of a panic; when it
returns an error `makeXMLRequest` returns before it builds the header from the
token.  A match of the duration pattern has seven entries, so the entries 2 and
3 that the two parsers read after a successful match exist. -/
theorem core_never_panics {α : Type} (xmlDecode : String → α → α × Option GoError)
    (c : Client) (env : RequestEnv) (v : α) (s : String) :
    (c.lim ≠ none → c.HTTPClient ≠ none → c.makeXMLRequestPanics env false = false) ∧
      ((c.checkLimitAndGetToken env).err = none →
        ∃ token, (c.checkLimitAndGetToken env).client.token = some token) ∧
      (c.makeXMLRequest xmlDecode env v).panicked = false ∧
      ((c.checkLimitAndGetToken env).err ≠ none →
        (c.makeXMLRequest xmlDecode env v).authorization = none) ∧
      (∀ ms, durationRe.FindStringSubmatch s = some ms →
        ms.length = 7 ∧ (∃ m, ms[2]? = some m) ∧ ∃ d, ms[3]? = some d) := by
  refine ⟨?_, checkLimitAndGetToken_token c env, ?_, ?_, ?_⟩
  · intro hlim hhttp
    rw [← Bool.not_eq_true, makeXMLRequestPanics_iff]
    have hg : c.getTokenPanics env.tokenEnv = false := by
      unfold Client.getTokenPanics Client.generateTokenPanics
      split_ifs
      · rfl
      · cases h : c.HTTPClient with
        | none => exact absurd h hhttp
        | some x => rfl
    simp [hlim, hhttp, hg]
  · unfold Client.makeXMLRequest
    cases herr : (c.checkLimitAndGetToken env).err with
    | some e => simp only [herr]
    | none =>
      obtain ⟨tok, ht⟩ := checkLimitAndGetToken_token c env herr
      simp only [herr, ht]
      cases hdo : env.doResult with
      | error e => simp only [hdo]
      | ok res =>
        simp only [hdo]
        split_ifs <;>
          first
          | rfl
          | (split <;> rfl)
  · intro herr
    unfold Client.makeXMLRequest
    cases h : (c.checkLimitAndGetToken env).err with
    | some e => simp only [h]
    | none => exact absurd h herr
  · intro ms h
    have hlen := findStringSubmatch_length s ms h
    refine ⟨hlen, ⟨ms.get ⟨2, by omega⟩, ?_⟩, ⟨ms.get ⟨3, by omega⟩, ?_⟩⟩
    · exact List.getElem?_eq_getElem _
    · exact List.getElem?_eq_getElem _

/-- C25 as stated fails: a call with a nil context on the client that `NewClient`
built panics at `req.WithContext`, and so does, at `c.HTTPClient.Do`, a call
with a context on that client after its exported field `HTTPClient` was set to
nil. -/
theorem core_never_panics_counterexample :
    (NewClient 1 "u" "p" "id" "s" none).1.map
        (fun c => c.makeXMLRequestPanics (answeringEnv ⟨200, ""⟩) true) = some true ∧
      (NewClient 1 "u" "p" "id" "s" none).1.map
        (fun c => ({ c with HTTPClient := none } : Client).makeXMLRequestPanics
          (answeringEnv ⟨200, ""⟩) false) = some true := by
  decide

/-- C25 at a client as `NewClient` leaves it without a token: the call does not
panic when the exchange is answered, it returns before the header is built when
the identity endpoint denies the exchange, and the match of the duration
`P0Y26M16DT0H0M` has the entries 2 and 3. -/
theorem core_never_panics_witness :
    preparedClient.makeXMLRequestPanics (answeringEnv ⟨200, ""⟩) false = false ∧
      (∃ token, (preparedClient.checkLimitAndGetToken (answeringEnv ⟨200, ""⟩)).client.token =
        some token) ∧
      (preparedClient.makeXMLRequest rejectingDecoder
        ⟨true, none, ⟨0, .ok deniedAnswer, 0⟩, .ok ⟨200, ""⟩⟩ 0).authorization = none ∧
      (["P0Y26M16DT0H0M", "0", "26", "16", "0", "0", ""] : List String).length = 7 ∧
      (∃ m, (["P0Y26M16DT0H0M", "0", "26", "16", "0", "0", ""] : List String)[2]? = some m) ∧
      ∃ d, (["P0Y26M16DT0H0M", "0", "26", "16", "0", "0", ""] : List String)[3]? = some d :=
  ⟨(core_never_panics rejectingDecoder preparedClient (answeringEnv ⟨200, ""⟩) 0
      "P0Y26M16DT0H0M").1 (by decide) (by decide),
    (core_never_panics rejectingDecoder preparedClient (answeringEnv ⟨200, ""⟩) 0
      "P0Y26M16DT0H0M").2.1 (by decide),
    (core_never_panics rejectingDecoder preparedClient
      ⟨true, none, ⟨0, .ok deniedAnswer, 0⟩, .ok ⟨200, ""⟩⟩ 0 "P0Y26M16DT0H0M").2.2.2.1
      (by decide),
    (core_never_panics rejectingDecoder preparedClient (answeringEnv ⟨200, ""⟩) 0
      "P0Y26M16DT0H0M").2.2.2.2 _ (by decide)⟩

/-- C23 fails in the code: under a cancelled context, when the limiter has no
token at hand and its `Wait` returns the error of the context, a client without
a cached token still sends the credential exchange, `checkLimitAndGetToken`
returns a nil error, and `makeXMLRequest` goes on to build the header and hand
the quote request to the transport, whose error it returns unwrapped.  What
`Wait` returns has no influence on what `checkLimitAndGetToken` does. -/
theorem checkLimitAndGetToken_drops_wait_error :
    cancelledEnv.allow = false ∧ cancelledEnv.wait = some (.external "context canceled") ∧
      (sampleClient.checkLimitAndGetToken cancelledEnv).waited = true ∧
      (sampleClient.checkLimitAndGetToken cancelledEnv).err = none ∧
      (sampleClient.checkLimitAndGetToken cancelledEnv).requests.length = 1 ∧
      (sampleClient.makeXMLRequest rejectingDecoder cancelledEnv 0).tokenRequests.length = 1 ∧
      (sampleClient.makeXMLRequest rejectingDecoder cancelledEnv 0).authorization =
        some "Bearer abc" ∧
      (sampleClient.makeXMLRequest rejectingDecoder cancelledEnv 0).err =
        some (.external "context canceled") ∧
      ∀ (c : Client) (env : RequestEnv) (wait : Option GoError),
        (c.checkLimitAndGetToken { env with wait := wait }).err =
            (c.checkLimitAndGetToken env).err ∧
          (c.checkLimitAndGetToken { env with wait := wait }).requests =
            (c.checkLimitAndGetToken env).requests :=
  ⟨rfl, rfl, by decide, by decide, by decide, by decide, by decide, by decide,
    fun _ _ _ => ⟨rfl, rfl⟩⟩

/-- C24 fails in the code: the credentials are put into the body as they are.
With the password `p&ss` the body decodes to six fields, the password being
`p`; with the password `a+b` it decodes to the password `a b`; with the
password `100%` the decoder reports an invalid escape and yields no password. -/
theorem generateToken_body_not_encoded :
    (({ sampleClient with password := "p&ss" } : Client).generateToken exchangeEnv).requests =
        [{ Method := "POST", URL := "https://cloudsso.cisco.com/as/token.oauth2",
           ContentType := "application/x-www-form-urlencoded",
           Body := "grant_type=password&username=u&password=p&ss&client_id=id&client_secret=s" }] ∧
      ParseQuery "grant_type=password&username=u&password=p&ss&client_id=id&client_secret=s" =
        ([("grant_type", "password"), ("username", "u"), ("password", "p"), ("ss", ""),
          ("client_id", "id"), ("client_secret", "s")], none) ∧
      (({ sampleClient with password := "a+b" } : Client).generateToken exchangeEnv).requests.map
          (fun req => ParseQuery req.Body) =
        [([("grant_type", "password"), ("username", "u"), ("password", "a b"),
          ("client_id", "id"), ("client_secret", "s")], none)] ∧
      (({ sampleClient with password := "100%" } : Client).generateToken exchangeEnv).requests.map
          (fun req => ParseQuery req.Body) =
        [([("grant_type", "password"), ("username", "u"), ("client_id", "id"),
          ("client_secret", "s")], some (escapeError ['%']))] := by
  refine ⟨by decide, by decide, by decide, by decide⟩

/-! ## Finite results of the duration parsers -/

/-- Rounding a fraction below `2^k` to `p ≤ k` bits gives at most `2^k`. -/
theorem roundToBits_le (p a b k : Nat) (hb : 0 < b) (h : a < 2 ^ k * b) :
    roundToBits p a b ≤ 2 ^ k := by
  have hq : a / b < 2 ^ k := (Nat.div_lt_iff_lt_mul hb).2 h
  unfold roundToBits
  simp only
  split_ifs with hlt
  · have := roundHalfEven_le a b
    omega
  · have hlen : bitLen (a / b) ≤ k := (bitLen_le_iff _ _).2 hq
    have hlen2 : p < bitLen (a / b) := by
      by_contra hcon
      exact hlt ((bitLen_le_iff _ _).1 (by omega))
    have hsh : bitLen (a / b) - p ≤ k := by omega
    generalize bitLen (a / b) - p = sh at hsh ⊢
    have h1 := roundHalfEven_le a (b * 2 ^ sh)
    have h2 : a / (b * 2 ^ sh) < 2 ^ (k - sh) := by
      rw [← Nat.div_div_eq_div_mul, Nat.div_lt_iff_lt_mul (by positivity), ← pow_add,
        Nat.sub_add_cancel hsh]
      exact hq
    calc roundHalfEven a (b * 2 ^ sh) * 2 ^ sh ≤ 2 ^ (k - sh) * 2 ^ sh :=
          Nat.mul_le_mul_right _ (by omega)
      _ = 2 ^ k := by rw [← pow_add, Nat.sub_add_cancel hsh]

namespace Float64

/-- Rounding a fraction below `2^k` units, `k` between 53 and 2097, gives a
finite double of at most `2^k` units. -/
theorem round_below (a b k : Nat) (hb : 0 < b) (hk : k < 2098)
    (h : a < 2 ^ k * b) : Below k (round false a b) := by
  have hle := roundToBits_le 53 a b k hb h
  have hov : 2 ^ k < overflow := by
    unfold overflow
    exact Nat.pow_lt_pow_right (by norm_num) hk
  unfold round
  simp only
  rw [if_neg (by omega)]
  exact ⟨_, rfl, hle⟩

theorem Below.mono {k m : Nat} {x : Float64} (h : Below k x) (hkm : k ≤ m) : Below m x := by
  obtain ⟨u, rfl, hu⟩ := h
  exact ⟨u, rfl, le_trans hu (Nat.pow_le_pow_right (by norm_num) hkm)⟩

theorem below_zero (k : Nat) : Below k (ofNat 0) := by
  rw [ofNat_zero]
  exact ⟨0, rfl, Nat.zero_le _⟩

theorem Below.add {k : Nat} {x y : Float64} (hx : Below k x) (hy : Below k y)
    (hk : k + 2 < 2098) : Below (k + 2) (x.add y) := by
  obtain ⟨a, rfl, ha⟩ := hx
  obtain ⟨b, rfl, hb⟩ := hy
  rw [add_fin]
  apply round_below _ _ _ (by norm_num) hk
  have : 2 ^ (k + 2) = 4 * 2 ^ k := by rw [pow_add]; ring
  have hpos : 0 < 2 ^ k := pow_pos (by norm_num) _
  omega

theorem Below.div_thirty {k : Nat} {x : Float64} (hx : Below k x)
    (hk : k + 1 < 2098) : Below (k + 1) (x.div (ofNat 30)) := by
  obtain ⟨a, rfl, ha⟩ := hx
  have hsc := scale_pos
  have h30 : 30 * scale ≠ 0 := Nat.mul_ne_zero (by norm_num) (Nat.pos_iff_ne_zero.1 hsc)
  rw [ofNat_thirty, div_fin _ _ h30]
  apply round_below _ _ _ (Nat.pos_of_ne_zero h30) hk
  have hpos : 0 < 2 ^ k := pow_pos (by norm_num) _
  calc a * scale ≤ 2 ^ k * scale := Nat.mul_le_mul_right _ ha
    _ < 2 ^ (k + 1) * (30 * scale) := by
        rw [pow_succ]
        have : 2 ^ k * scale < 2 ^ k * 2 * (30 * scale) := by
          have h1 : 2 ^ k * 2 * (30 * scale) = 60 * (2 ^ k * scale) := by ring
          have h2 : 0 < 2 ^ k * scale := Nat.mul_pos hpos hsc
          omega
        exact this

theorem Below.div_hundred {k : Nat} {x : Float64} (hx : Below k x)
    (hk : k + 1 < 2098) : Below (k + 1) (x.div (ofNat 100)) := by
  obtain ⟨a, rfl, ha⟩ := hx
  have hsc := scale_pos
  have h100 : 100 * scale ≠ 0 := Nat.mul_ne_zero (by norm_num) (Nat.pos_iff_ne_zero.1 hsc)
  rw [ofNat_hundred, div_fin _ _ h100]
  apply round_below _ _ _ (Nat.pos_of_ne_zero h100) hk
  have hpos : 0 < 2 ^ k := pow_pos (by norm_num) _
  calc a * scale ≤ 2 ^ k * scale := Nat.mul_le_mul_right _ ha
    _ < 2 ^ (k + 1) * (100 * scale) := by
        rw [pow_succ]
        have h1 : 2 ^ k * 2 * (100 * scale) = 200 * (2 ^ k * scale) := by ring
        have h2 : 0 < 2 ^ k * scale := Nat.mul_pos hpos hsc
        omega

theorem Below.mul_hundred {k : Nat} {x : Float64} (hx : Below k x)
    (hk : k + 7 < 2098) : Below (k + 7) (x.mul (ofNat 100)) := by
  obtain ⟨a, rfl, ha⟩ := hx
  have hsc := scale_pos
  rw [ofNat_hundred, mul_fin]
  apply round_below _ _ _ hsc hk
  have hpos : 0 < 2 ^ k := pow_pos (by norm_num) _
  calc a * (100 * scale) ≤ 2 ^ k * (100 * scale) := Nat.mul_le_mul_right _ ha
    _ < 2 ^ (k + 7) * scale := by
        have h1 : 2 ^ (k + 7) * scale = 128 * (2 ^ k * scale) := by rw [pow_add]; ring
        have h2 : 2 ^ k * (100 * scale) = 100 * (2 ^ k * scale) := by ring
        have h3 : 0 < 2 ^ k * scale := Nat.mul_pos hpos hsc
        omega

theorem Below.Round {k : Nat} {x : Float64} (hx : Below k x) (hk : 1074 ≤ k) :
    Below (k + 1) x.Round := by
  obtain ⟨a, rfl, ha⟩ := hx
  have hsc := scale_pos
  refine ⟨_, rfl, ?_⟩
  have h1 : (2 * a + scale) / (2 * scale) * scale ≤ (2 * a + scale) / 2 := by
    rw [← Nat.div_div_eq_div_mul]
    exact Nat.div_mul_le_self _ _
  have h2 : scale ≤ 2 ^ k := Nat.pow_le_pow_right (by norm_num) hk
  have h3 : 2 ^ (k + 1) = 2 * 2 ^ k := by rw [pow_succ]; ring
  omega

end Float64

/-- A number that `ParseFloat` with bit size 32 returns without an error is
finite, not negative and below `2^128`. -/
theorem ParseFloat32_below (s : String) (h : (ParseFloat32 s).2 = none) :
    Float64.Below 1202 (ParseFloat32 s).1 := by
  unfold ParseFloat32 at h ⊢
  simp only at h ⊢
  by_cases hov : 2 ^ 128 ≤ roundToBits 24 (decimalValue s.data) 1
  · rw [if_pos hov] at h
    exact absurd h (by simp)
  · rw [if_neg hov]
    simp only [Float64.ofNat]
    refine Float64.round_below _ 1 1202 Nat.one_pos (by norm_num) ?_
    have h2 : (2 : ℕ) ^ 1202 = 2 ^ 128 * Float64.scale := by
      rw [Float64.scale, ← pow_add]
    rw [h2, mul_one]
    exact Nat.mul_lt_mul_of_lt_of_le (not_le.1 hov) le_rfl Float64.scale_pos

/-- One step of a parser either fails or adds a bounded number to a bounded sum. -/
theorem addComponent_below (text : String) (g : Float64 → Float64) (acc : Float64) (k : Nat)
    (hacc : Float64.Below k acc) (hg : ∀ f, Float64.Below 1202 f → Float64.Below k (g f))
    (hk : k + 2 < 2098) :
    (∃ err, addComponent text g acc = .error err) ∨
      ∃ r, addComponent text g acc = .ok r ∧ Float64.Below (k + 2) r := by
  unfold addComponent
  split_ifs with ht
  · cases hp : ParseFloat32 text with
    | mk f e =>
      cases e with
      | some err => exact Or.inl ⟨err, rfl⟩
      | none =>
        refine Or.inr ⟨_, rfl, Float64.Below.add hacc (hg f ?_) hk⟩
        have := ParseFloat32_below text (by rw [hp])
        rwa [hp] at this
  · exact Or.inr ⟨acc, rfl, hacc.mono (by omega)⟩

/-- The result of `isoDurationToMonthsFloat` is finite and not negative, and it is
zero when an error is returned. -/
theorem isoDurationToMonthsFloat_below (s : String) :
    Float64.Below 1215 (isoDurationToMonthsFloat s).1 ∧
      ((isoDurationToMonthsFloat s).2 ≠ none →
        (isoDurationToMonthsFloat s).1 = .fin false 0) := by
  unfold isoDurationToMonthsFloat
  cases hm : durationRe.FindStringSubmatch s with
  | none =>
    simp only
    exact ⟨Float64.below_zero _, fun _ => Float64.ofNat_zero⟩
  | some ms =>
    simp only
    rcases addComponent_below (ms.getD 2 "") (fun f => f) (Float64.ofNat 0) 1202
        (Float64.below_zero _) (fun f hf => hf) (by norm_num) with ⟨err, h1⟩ | ⟨r1, h1, hr1⟩
    · simp only [h1]
      exact ⟨Float64.below_zero _, fun _ => Float64.ofNat_zero⟩
    · simp only [h1]
      rcases addComponent_below (ms.getD 3 "") (fun f => f.div (Float64.ofNat 30)) r1 1204
          hr1 (fun f hf => (hf.div_thirty (by norm_num)).mono (by norm_num)) (by norm_num)
        with ⟨err, h2⟩ | ⟨r2, h2, hr2⟩
      · simp only [h2]
        exact ⟨Float64.below_zero _, fun _ => Float64.ofNat_zero⟩
      · simp only [h2]
        refine ⟨?_, fun h => absurd rfl h⟩
        exact (((hr2.mul_hundred (by norm_num)).Round (by norm_num)).div_hundred
          (by norm_num)).mono (by norm_num)

/-- The result of `isoDurationToDaysFloat` is finite and not negative, and it is
zero when an error is returned. -/
theorem isoDurationToDaysFloat_below (s : String) :
    Float64.Below 1215 (isoDurationToDaysFloat s).1 ∧
      ((isoDurationToDaysFloat s).2 ≠ none → (isoDurationToDaysFloat s).1 = .fin false 0) := by
  unfold isoDurationToDaysFloat
  cases hm : durationRe.FindStringSubmatch s with
  | none =>
    simp only
    exact ⟨Float64.below_zero _, fun _ => Float64.ofNat_zero⟩
  | some ms =>
    simp only
    rcases addComponent_below (ms.getD 3 "") (fun f => f) (Float64.ofNat 0) 1202
        (Float64.below_zero _) (fun f hf => hf) (by norm_num) with ⟨err, h1⟩ | ⟨r1, h1, hr1⟩
    · simp only [h1]
      exact ⟨Float64.below_zero _, fun _ => Float64.ofNat_zero⟩
    · simp only [h1]
      refine ⟨?_, fun h => absurd rfl h⟩
      exact (((hr1.mul_hundred (by norm_num)).Round (by norm_num)).div_hundred
        (by norm_num)).mono (by norm_num)

/-! ## The duration fields of a projected line -/

/-- The last entry satisfying `p` of two lists in a row. -/
theorem lastWhere_append_eq {α : Type} (p : α → Bool) (l₁ l₂ : List α) :
    lastWhere p (l₁ ++ l₂) = (lastWhere p l₂).or (lastWhere p l₁) := by
  unfold lastWhere
  rw [List.filter_append, List.getLast?_append]

/-- A fold whose step runs an inner loop over the entries `E a` of each element,
the inner step overwriting an observation at every entry that satisfies `p`,
leaves the value written at the last such entry of all the inner loops. -/
theorem foldl_last_flat {α ε β γ : Type} (step : β → α → β) (inner : β → ε → β) (g : β → γ)
    (E : α → List ε) (p : ε → Bool) (f : ε → γ)
    (hinner : ∀ b e, g (inner b e) = if p e = true then f e else g b)
    (hstep : ∀ b a, g (step b a) = g ((E a).foldl inner b)) (l : List α) (b : β) :
    g (l.foldl step b) = ((lastWhere p (l.flatMap E)).map f).getD (g b) := by
  induction l generalizing b with
  | nil => rfl
  | cons a l ih =>
    rw [List.foldl_cons, ih, hstep, foldl_last inner g p f hinner, List.flatMap_cons,
      lastWhere_append_eq]
    cases lastWhere p (l.flatMap E) with
    | none => rfl
    | some x => rfl

/-- What an effectivity entry does to the two duration fields. -/
theorem effectivityStep_durations (ql : AcquireQuoteResponseItem) (eff : XMLEffectivity) :
    (effectivityStep ql eff).ServiceDurationMonths =
        (if decide (eff.TypeText = "ServiceDuration") = true then
          (isoDurationToMonthsFloat eff.Duration).1 else ql.ServiceDurationMonths) ∧
      (effectivityStep ql eff).LeadTimeDays =
        (if decide (eff.TypeText = "LeadTime") = true then
          (isoDurationToDaysFloat eff.Duration).1 else ql.LeadTimeDays) := by
  simp only [decide_eq_true_eq]
  unfold effectivityStep
  constructor <;> split_ifs <;> rfl

/-- A property runs the loop over its effectivity entries when it is named
`"BundleIndicator"` and leaves the duration fields alone otherwise. -/
theorem propertyStep_durations (parseFloat : String → Float64 × Option GoError)
    (ql : AcquireQuoteResponseItem) (prop : XMLProperty) :
    (propertyStep parseFloat ql prop).durations =
      ((if prop.NameValueName = "BundleIndicator" then prop.Effectivity else []).foldl
        effectivityStep ql).durations := by
  have hm := fun b => foldl_last effectivityStep (fun q => q.ServiceDurationMonths) _ _
    (fun b a => (effectivityStep_durations b a).1) prop.Effectivity b
  have hl := fun b => foldl_last effectivityStep (fun q => q.LeadTimeDays) _ _
    (fun b a => (effectivityStep_durations b a).2) prop.Effectivity b
  simp only at hm hl
  unfold propertyStep
  by_cases hb : prop.NameValueName = "BundleIndicator"
  · simp only [hb, String.reduceEq, if_true, if_false, AcquireQuoteResponseItem.durations,
      Prod.mk.injEq]
    rw [hm, hl, hm, hl]
    constructor <;> split_ifs <;> rfl
  · rw [if_neg hb, List.foldl_nil]
    split_ifs <;> rfl

/-- The duration fields of a projected line are those that the loop over the
properties leaves when started at zero. -/
theorem projectLine_durations (parseFloat : String → Float64 × Option GoError)
    (line : XMLQuoteLine) :
    (projectLine parseFloat line).ServiceDurationMonths =
        ((lastWhere (fun eff => decide (eff.TypeText = "ServiceDuration"))
          (bundleEffectivities line.Item.Property)).map
          (fun eff => (isoDurationToMonthsFloat eff.Duration).1)).getD (.fin false 0) ∧
      (projectLine parseFloat line).LeadTimeDays =
        ((lastWhere (fun eff => decide (eff.TypeText = "LeadTime"))
          (bundleEffectivities line.Item.Property)).map
          (fun eff => (isoDurationToDaysFloat eff.Duration).1)).getD (.fin false 0) := by
  have hd : ∀ (l : List XMLDescription) (b : AcquireQuoteResponseItem),
      (l.foldl descriptionStep b).durations = b.durations :=
    foldl_keeps descriptionStep (fun q => q.durations) (fun b a => by
      unfold descriptionStep
      split_ifs <;> rfl)
  have hx : ∀ (l : List XMLDiscount) (b : AcquireQuoteResponseItem),
      (l.foldl (discountStep parseFloat) b).durations = b.durations :=
    foldl_keeps (discountStep parseFloat) (fun q => q.durations) (fun b a => by
      unfold discountStep
      split_ifs <;> rfl)
  have hstep := propertyStep_durations parseFloat
  simp only [AcquireQuoteResponseItem.durations, Prod.mk.injEq] at hd hx hstep
  have hm := foldl_last_flat (propertyStep parseFloat) effectivityStep
    (fun q => q.ServiceDurationMonths)
    (fun prop => if prop.NameValueName = "BundleIndicator" then prop.Effectivity else []) _ _
    (fun b a => (effectivityStep_durations b a).1) (fun b a => (hstep b a).1)
    line.Item.Property
  have hl := foldl_last_flat (propertyStep parseFloat) effectivityStep
    (fun q => q.LeadTimeDays)
    (fun prop => if prop.NameValueName = "BundleIndicator" then prop.Effectivity else []) _ _
    (fun b a => (effectivityStep_durations b a).2) (fun b a => (hstep b a).2)
    line.Item.Property
  simp only at hm hl
  have key : (projectLine parseFloat line).durations =
      (line.Discount.foldl (discountStep parseFloat)
        (line.Item.Property.foldl (propertyStep parseFloat)
          (if line.Item.ClassificationTypeListName = "ProductType" then
            { line.Item.Description.foldl descriptionStep
                { LineNumber := line.LineNumber, PartNumber := line.Item.ItemIDText } with
              ProductTypeClassification := line.Item.ClassificationTypeText }
          else line.Item.Description.foldl descriptionStep
                { LineNumber := line.LineNumber, PartNumber := line.Item.ItemIDText }))).durations :=
    rfl
  simp only [AcquireQuoteResponseItem.durations, Prod.mk.injEq] at key
  unfold bundleEffectivities
  rw [key.1, key.2, (hx _ _).1, (hx _ _).2, hm, hl]
  constructor <;> split_ifs <;> simp only [(hd _ _).1, (hd _ _).2]

/-- `MarshalJSON` returns no error on a finite double. -/
theorem MarshalJSON_below (k : Nat) (f : Float64) (h : Float64.Below k f) :
    (floatOrNull.MarshalJSON f).2 = none := by
  obtain ⟨u, rfl, -⟩ := h
  unfold floatOrNull.MarshalJSON
  simp only [Float64.IsInf, Float64.IsNaN, Bool.or_self, Bool.false_eq_true, if_false]
  split_ifs <;> rfl

/-- C26: for every input both duration parsers return a finite number that is
not negative, and zero when they return an error.  The months of service and
the lead time in days of a projected line are the parser's result for the last
effectivity entry of type `"ServiceDuration"`, respectively `"LeadTime"`, among
the entries of the properties named `"BundleIndicator"`, and zero when there is
no such entry; both are finite and not negative, and `MarshalJSON` returns no
error on them. -/
theorem durations_finite (parseFloat : String → Float64 × Option GoError)
    (line : XMLQuoteLine) (s : String) :
    ((∃ u, (isoDurationToMonthsFloat s).1 = .fin false u) ∧
      (∃ u, (isoDurationToDaysFloat s).1 = .fin false u) ∧
      ((isoDurationToMonthsFloat s).2 ≠ none →
        (isoDurationToMonthsFloat s).1 = .fin false 0) ∧
      ((isoDurationToDaysFloat s).2 ≠ none → (isoDurationToDaysFloat s).1 = .fin false 0)) ∧
    ((projectLine parseFloat line).ServiceDurationMonths =
        ((lastWhere (fun eff => decide (eff.TypeText = "ServiceDuration"))
          (bundleEffectivities line.Item.Property)).map
          (fun eff => (isoDurationToMonthsFloat eff.Duration).1)).getD (.fin false 0) ∧
      (projectLine parseFloat line).LeadTimeDays =
        ((lastWhere (fun eff => decide (eff.TypeText = "LeadTime"))
          (bundleEffectivities line.Item.Property)).map
          (fun eff => (isoDurationToDaysFloat eff.Duration).1)).getD (.fin false 0)) ∧
    ((∃ u, (projectLine parseFloat line).ServiceDurationMonths = .fin false u) ∧
      (∃ u, (projectLine parseFloat line).LeadTimeDays = .fin false u) ∧
      (floatOrNull.MarshalJSON (projectLine parseFloat line).ServiceDurationMonths).2 = none ∧
      (floatOrNull.MarshalJSON (projectLine parseFloat line).LeadTimeDays).2 = none) := by
  have hmonths : Float64.Below 1215 (projectLine parseFloat line).ServiceDurationMonths := by
    rw [(projectLine_durations parseFloat line).1]
    cases lastWhere (fun eff => decide (eff.TypeText = "ServiceDuration"))
        (bundleEffectivities line.Item.Property) with
    | none => exact ⟨0, rfl, Nat.zero_le _⟩
    | some eff => exact (isoDurationToMonthsFloat_below eff.Duration).1
  have hdays : Float64.Below 1215 (projectLine parseFloat line).LeadTimeDays := by
    rw [(projectLine_durations parseFloat line).2]
    cases lastWhere (fun eff => decide (eff.TypeText = "LeadTime"))
        (bundleEffectivities line.Item.Property) with
    | none => exact ⟨0, rfl, Nat.zero_le _⟩
    | some eff => exact (isoDurationToDaysFloat_below eff.Duration).1
  refine ⟨⟨?_, ?_, (isoDurationToMonthsFloat_below s).2, (isoDurationToDaysFloat_below s).2⟩,
    projectLine_durations parseFloat line, ?_, ?_, MarshalJSON_below _ _ hmonths,
    MarshalJSON_below _ _ hdays⟩
  · obtain ⟨u, hu, -⟩ := (isoDurationToMonthsFloat_below s).1
    exact ⟨u, hu⟩
  · obtain ⟨u, hu, -⟩ := (isoDurationToDaysFloat_below s).1
    exact ⟨u, hu⟩
  · obtain ⟨u, hu, -⟩ := hmonths
    exact ⟨u, hu⟩
  · obtain ⟨u, hu, -⟩ := hdays
    exact ⟨u, hu⟩

/-- C26 at the malformed duration `1 month` and at a line whose bundle property
carries a service duration of `P0Y26M16DT0H0M` and a lead time first of
`P0Y0M14DT0H0M` and then of `two weeks`: the parser returns zero for the
malformed text, the line has 26.53 months of service and a lead time of zero. -/
theorem durations_finite_witness :
    (isoDurationToMonthsFloat "1 month").1 = .fin false 0 ∧
      (isoDurationToDaysFloat "1 month").1 = .fin false 0 ∧
      (projectLine ParseFloat
        (lineWithProperties
          [⟨"", "", "BundleIndicator",
            [⟨"ServiceDuration", "P0Y26M16DT0H0M"⟩, ⟨"LeadTime", "P0Y0M14DT0H0M"⟩,
              ⟨"LeadTime", "two weeks"⟩]⟩])).ServiceDurationMonths =
        Float64.ofRatio 2653 100 ∧
      (projectLine ParseFloat
        (lineWithProperties
          [⟨"", "", "BundleIndicator",
            [⟨"ServiceDuration", "P0Y26M16DT0H0M"⟩, ⟨"LeadTime", "P0Y0M14DT0H0M"⟩,
              ⟨"LeadTime", "two weeks"⟩]⟩])).LeadTimeDays = .fin false 0 := by
  have h := durations_finite ParseFloat
    (lineWithProperties
      [⟨"", "", "BundleIndicator",
        [⟨"ServiceDuration", "P0Y26M16DT0H0M"⟩, ⟨"LeadTime", "P0Y0M14DT0H0M"⟩,
          ⟨"LeadTime", "two weeks"⟩]⟩]) "1 month"
  refine ⟨h.1.2.2.1 ?_, h.1.2.2.2 ?_, h.2.1.1.trans ?_, h.2.1.2.trans ?_⟩
  · decide!
  · decide!
  · decide!
  · decide!

/-! ## The text of `strconv.FormatFloat` read back by `strconv.ParseFloat` -/

/-- Scaling numerator and denominator does not change the nearest integer. -/
theorem roundHalfEven_scale (a b c : Nat) (hc : 0 < c) :
    roundHalfEven (a * c) (b * c) = roundHalfEven a b := by
  unfold roundHalfEven
  simp only [Nat.mul_div_mul_right _ _ hc, Nat.mul_mod_mul_right]
  have h1 : 2 * (a % b * c) < b * c ↔ 2 * (a % b) < b := by
    rw [← mul_assoc]
    exact Nat.mul_lt_mul_right hc
  have h2 : b * c < 2 * (a % b * c) ↔ b < 2 * (a % b) := by
    rw [← mul_assoc]
    exact Nat.mul_lt_mul_right hc
  simp only [h1, h2]

/-- Scaling numerator and denominator does not change the rounding to `p` bits. -/
theorem roundToBits_scale (p a b c : Nat) (hc : 0 < c) :
    roundToBits p (a * c) (b * c) = roundToBits p a b := by
  unfold roundToBits
  simp only [Nat.mul_div_mul_right _ _ hc, roundHalfEven_scale _ _ _ hc]
  split_ifs
  · rfl
  · rw [show b * c * 2 ^ (bitLen (a / b) - p) = b * 2 ^ (bitLen (a / b) - p) * c by ring,
      roundHalfEven_scale _ _ _ hc]

namespace Float64

/-- Scaling numerator and denominator does not change the double a fraction
rounds to. -/
theorem round_scale (s : Bool) (a b c : Nat) (hc : 0 < c) :
    round s (a * c) (b * c) = round s a b := by
  unfold round
  simp only [roundToBits_scale _ _ _ _ hc]

/-- Rounding to a magnitude does not depend on the sign. -/
theorem round_sign (s t : Bool) (a b n : Nat) (h : round s a b = fin s n) :
    round t a b = fin t n := by
  unfold round at h ⊢
  simp only at h ⊢
  split_ifs at h ⊢ with hov
  · injection h with _ h2
    rw [h2]

end Float64

/-- The digit characters below ten. -/
theorem digitChar_facts (k : Nat) (h : k < 10) :
    (Nat.digitChar k).isDigit = true ∧ (Nat.digitChar k).toNat - '0'.toNat = k ∧
      (k ≠ 0 → Nat.digitChar k ≠ '0') := by
  interval_cases k <;> decide

/-- The digits that `Nat.toDigitsCore` puts in front of its accumulator: decimal
digits whose value is the number, the first of them not `0` unless the number
is zero. -/
theorem toDigitsCore_spec (fuel n : Nat) (ds : List Char) (hf : n < fuel) :
    ∃ xs, Nat.toDigitsCore 10 fuel n ds = xs ++ ds ∧ (∀ c ∈ xs, c.isDigit = true) ∧
      decimalValue xs = n ∧ xs ≠ [] ∧ (n ≠ 0 → xs.head? ≠ some '0') := by
  induction fuel generalizing n ds with
  | zero => omega
  | succ fuel ih =>
    unfold Nat.toDigitsCore
    obtain ⟨hd1, hd2, hd3⟩ := digitChar_facts (n % 10) (Nat.mod_lt _ (by norm_num))
    by_cases h : n / 10 = 0
    · simp only [h, if_true]
      have hlt : n < 10 := by omega
      rw [Nat.mod_eq_of_lt hlt] at hd1 hd2 hd3
      refine ⟨[Nat.digitChar (n % 10)], rfl, ?_, ?_, by simp, ?_⟩
      · intro c hc
        rw [List.mem_singleton] at hc
        rw [hc, Nat.mod_eq_of_lt hlt]
        exact hd1
      · rw [Nat.mod_eq_of_lt hlt]
        simp only [decimalValue, List.foldl_cons, List.foldl_nil, Nat.zero_mul, Nat.zero_add]
        exact hd2
      · intro hn
        rw [Nat.mod_eq_of_lt hlt]
        simp only [List.head?_cons, ne_eq, Option.some.injEq]
        exact hd3 hn
    · simp only [h, if_false]
      obtain ⟨xs, h1, h2, h3, h4, h5⟩ := ih (n / 10) (Nat.digitChar (n % 10) :: ds) (by omega)
      refine ⟨xs ++ [Nat.digitChar (n % 10)], by rw [h1]; simp, ?_, ?_, by simp, ?_⟩
      · intro c hc
        rcases List.mem_append.1 hc with hc | hc
        · exact h2 c hc
        · rw [List.mem_singleton] at hc
          rw [hc]
          exact hd1
      · unfold decimalValue at h3 ⊢
        rw [List.foldl_append, h3]
        simp only [List.foldl_cons, List.foldl_nil]
        rw [hd2]
        omega
      · intro _
        cases xs with
        | nil => exact absurd rfl h4
        | cons x xs => exact h5 h

/-- The decimal digits of a number: their value is the number, and the first is
not `0` unless the number is zero. -/
theorem toDigits_spec (n : Nat) :
    (∀ c ∈ Nat.toDigits 10 n, c.isDigit = true) ∧ decimalValue (Nat.toDigits 10 n) = n ∧
      Nat.toDigits 10 n ≠ [] ∧ (n ≠ 0 → (Nat.toDigits 10 n).head? ≠ some '0') := by
  obtain ⟨xs, h1, h2, h3, h4, h5⟩ := toDigitsCore_spec (n + 1) n [] (by omega)
  rw [List.append_nil] at h1
  unfold Nat.toDigits
  rw [h1]
  exact ⟨h2, h3, h4, h5⟩

/-- Moving a factor ten of a product from the front to the middle. -/
theorem ten_mul_arrange (a b S : Nat) : 10 * a * b * S = a * (b * 10) * S := by ring

/-- Moving a factor ten of a product from the front to the back. -/
theorem ten_mul_back (a S : Nat) : 10 * a * S = a * S * 10 := by ring

/-- A decimal with a mantissa that ends in `0` is the decimal with that digit
moved into the exponent. -/
theorem decimalRoundsTo_carry (n m : Nat) (e : Int) :
    decimalRoundsTo n (10 * m) e = decimalRoundsTo n m (e + 1) := by
  unfold decimalRoundsTo
  by_cases h0 : 0 ≤ e
  · have h1 : 0 ≤ e + 1 := by omega
    rw [if_pos h0, if_pos h1]
    have : (e + 1).toNat = e.toNat + 1 := by omega
    rw [this, pow_succ, ten_mul_arrange]
  · rw [if_neg h0]
    by_cases h1 : 0 ≤ e + 1
    · rw [if_pos h1]
      have he : e = -1 := by omega
      subst he
      have h2 : (-(-1 : Int)).toNat = 1 := by decide
      have h3 : ((-1 : Int) + 1).toNat = 0 := by decide
      rw [h2, h3, pow_one, pow_zero, mul_one]
      have := Float64.round_scale false (m * Float64.scale) 1 10 (by norm_num)
      rw [one_mul] at this
      rw [← this, ten_mul_back]
    · rw [if_neg h1]
      have h2 : (-e).toNat = (-(e + 1)).toNat + 1 := by omega
      rw [h2, pow_succ]
      have := Float64.round_scale false (m * Float64.scale) (10 ^ (-(e + 1)).toNat) 10
        (by norm_num)
      rw [← this, ten_mul_back]

/-- The decimal that `pickDecimal` returns rounds to the double. -/
theorem pickDecimal_rounds (n lo : Nat) (e : Int) (loNearer : Bool) (r : Nat × Int)
    (h : pickDecimal n lo e loNearer = some r) : decimalRoundsTo n r.1 r.2 = true := by
  unfold pickDecimal at h
  simp only at h
  split_ifs at h with h1 h2 h3
  · simp only [Option.some.injEq] at h
    subst h
    simp only [Bool.and_eq_true] at h1
    exact h1.1
  · simp only [Option.some.injEq] at h
    subst h
    simp only
    rw [← decimalRoundsTo_carry, Nat.mul_div_cancel' (Nat.dvd_of_mod_eq_zero h3)]
    exact h2
  · simp only [Option.some.injEq] at h
    subst h
    exact h2

/-- The decimal that `shortestAt` returns rounds to the double. -/
theorem shortestAt_rounds (n : Nat) (e10 : Int) (d : Nat) (r : Nat × Int)
    (h : shortestAt n e10 d = some r) : decimalRoundsTo n r.1 r.2 = true := by
  unfold shortestAt at h
  simp only at h
  split_ifs at h
  · exact pickDecimal_rounds _ _ _ _ r h
  · exact pickDecimal_rounds _ _ _ _ r h

/-- The shortest decimal of a magnitude that a double holds rounds to it. -/
theorem shortestDecimal_rounds (n : Nat) (hn : n ≠ 0)
    (hrep : Float64.round false n 1 = .fin false n) :
    decimalRoundsTo n (shortestDecimal n).1 (shortestDecimal n).2 = true := by
  unfold shortestDecimal
  rw [if_neg hn]
  cases hfind : (List.range 17).findSome? (fun i => shortestAt n (decimalExponent n) (i + 1)) with
  | some r =>
    simp only
    obtain ⟨i, -, hi⟩ := List.exists_of_findSome?_eq_some hfind
    exact shortestAt_rounds _ _ _ r hi
  | none =>
    simp only
    unfold decimalRoundsTo
    have h1 : ¬ (0 : Int) ≤ -1074 := by decide
    have h2 : (-(-1074 : Int)).toNat = 1074 := by decide
    rw [if_neg h1, h2]
    have h3 : (10 : ℕ) ^ 1074 = 1 * (5 ^ 1074 * Float64.scale) := by
      rw [Float64.scale, one_mul, ← mul_pow]
      exact congrArg (fun x : ℕ => x ^ 1074) (by norm_num)
    have h4 : n * 5 ^ 1074 * Float64.scale = n * (5 ^ 1074 * Float64.scale) := by ring
    rw [h3, h4, Float64.round_scale false n 1 _
      (Nat.mul_pos (pow_pos (by norm_num) _) Float64.scale_pos), hrep]
    exact beq_self_eq_true _

/-- The ten decimal digits. -/
theorem isDigit_cases (c : Char) (h : c.isDigit = true) :
    c ∈ ['0', '1', '2', '3', '4', '5', '6', '7', '8', '9'] := by
  have h1 : 48 ≤ c.toNat ∧ c.toNat ≤ 57 := by
    simp only [Char.isDigit, Bool.and_eq_true, decide_eq_true_eq] at h
    exact ⟨h.1, h.2⟩
  have h2 : c = Char.ofNat c.toNat := (Char.ofNat_toNat c).symm
  obtain ⟨h3, h4⟩ := h1
  generalize c.toNat = k at h2 h3 h4
  subst h2
  interval_cases k <;> decide

/-- A decimal digit is none of the other characters that the parser of floats
looks for. -/
theorem isDigit_plain (c : Char) (h : c.isDigit = true) :
    c ≠ '_' ∧ c ≠ '.' ∧ c ≠ '+' ∧ c ≠ '-' ∧ c ≠ 'i' ∧ c ≠ 'I' ∧ c ≠ 'n' ∧ c ≠ 'N' ∧
      c ≠ 'x' ∧ c ≠ 'X' ∧ c ≠ 'e' ∧ c ≠ 'E' ∧ asciiLower c ≠ 'i' := by
  have := isDigit_cases c h
  simp only [List.mem_cons, List.mem_singleton, List.not_mem_nil, or_false] at this
  rcases this with rfl | rfl | rfl | rfl | rfl | rfl | rfl | rfl | rfl | rfl <;> decide

/-- The digit loop of `readFloat` over a run of decimal digits: the mantissa takes
the digits in, and the count of digits less the position of the point grows by
the length of the run. -/
theorem scanMantissa_digits (ds rest : List Char) (hds : ∀ c ∈ ds, c.isDigit = true)
    (st : MantissaScan) (h0 : st.nd = 0 → st.mantissa = 0) :
    ∃ st', scanMantissa false st (ds ++ rest) = scanMantissa false st' rest ∧
      st'.mantissa = ds.foldl (fun acc c => acc * 10 + (c.toNat - '0'.toNat)) st.mantissa ∧
      (st'.nd : Int) - st'.dp = (st.nd : Int) - st.dp + ds.length ∧
      (st'.nd = 0 → st'.mantissa = 0) ∧ st'.sawdot = st.sawdot ∧
      st'.underscores = st.underscores ∧ st'.sawdigits = (st.sawdigits || !ds.isEmpty) := by
  induction ds generalizing st with
  | nil => exact ⟨st, rfl, rfl, by simp, h0, rfl, rfl, by simp⟩
  | cons c cs ih =>
    have hc := hds c (List.mem_cons_self _ _)
    obtain ⟨hu, hd, -⟩ := isDigit_plain c hc
    have hcs : ∀ x ∈ cs, x.isDigit = true := fun x hx => hds x (List.mem_cons_of_mem _ hx)
    rw [List.cons_append, scanMantissa, if_neg hu, if_neg hd, if_pos hc]
    by_cases hz : c = '0' ∧ st.nd = 0
    · rw [if_pos hz]
      obtain ⟨st', h1, h2, h3, h4, h5, h6, h7⟩ :=
        ih hcs { st with sawdigits := true, dp := st.dp - 1 } h0
      refine ⟨st', h1, ?_, ?_, h4, h5, h6, ?_⟩
      · rw [h2, List.foldl_cons, hz.1, h0 hz.2]
        rfl
      · rw [h3]
        simp only [List.length_cons, Nat.cast_add, Nat.cast_one]
        omega
      · rw [h7]
        simp
    · rw [if_neg hz]
      obtain ⟨st', h1, h2, h3, h4, h5, h6, h7⟩ :=
        ih hcs { st with sawdigits := true, nd := st.nd + 1,
                         mantissa := st.mantissa * (if false = true then 16 else 10) +
                           (c.toNat - '0'.toNat) } (by simp)
      refine ⟨st', h1, ?_, ?_, h4, h5, h6, ?_⟩
      · rw [h2, List.foldl_cons]
        simp
      · rw [h3]
        simp only [List.length_cons, Nat.cast_add, Nat.cast_one]
        omega
      · rw [h7]
        simp

/-- The digit loop of `readFloat` over digits, a point and digits: it consumes
all of the text, the mantissa is the number that the digits write, and the
position of the point less the count of digits is minus the number of digits
after the point. -/
theorem scanMantissa_plain (ip fp : List Char) (hip : ∀ c ∈ ip, c.isDigit = true)
    (hfp : ∀ c ∈ fp, c.isDigit = true) (hne : ip ≠ []) :
    ∃ st, scanMantissa false {} (ip ++ (if fp = [] then [] else '.' :: fp)) = (st, []) ∧
      st.sawdigits = true ∧ st.underscores = false ∧ st.mantissa = decimalValue (ip ++ fp) ∧
      (if st.sawdot then st.dp else (st.nd : Int)) - (st.nd : Int) = -(fp.length : Int) := by
  obtain ⟨st1, h1, h2, h3, h4, h5, h6, h7⟩ :=
    scanMantissa_digits ip (if fp = [] then [] else '.' :: fp) hip {} (fun _ => rfl)
  have hsd : st1.sawdigits = true := by
    rw [h7]
    cases ip with
    | nil => exact absurd rfl hne
    | cons _ _ => rfl
  by_cases hf : fp = []
  · subst hf
    rw [if_pos rfl] at h1
    refine ⟨st1, by rw [if_pos rfl, h1, scanMantissa], hsd, h6, ?_, ?_⟩
    · rw [h2, List.append_nil]
      rfl
    · rw [h5]
      simp
  · rw [if_neg hf] at h1
    rw [if_neg hf, h1, scanMantissa, if_neg (by decide), if_pos rfl, h5]
    simp only [Bool.false_eq_true, if_false]
    obtain ⟨st3, g1, g2, g3, g4, g5, g6, g7⟩ :=
      scanMantissa_digits fp [] hfp { st1 with sawdot := true, dp := st1.nd } h4
    rw [List.append_nil] at g1
    refine ⟨st3, by rw [g1, scanMantissa], ?_, by rw [g6]; exact h6, ?_, ?_⟩
    · rw [g7]
      simp [hsd]
    · rw [g2]
      simp only
      rw [h2, decimalValue, List.foldl_append]
    · rw [g5]
      simp only [if_true]
      simp only [sub_self, zero_add] at g3
      omega

/-- What `readFloat` returns for an optional sign and a text of digits and points
that its digit loop consumes entirely. -/
theorem readFloat_of_scan (c : Char) (cs : List Char) (st : MantissaScan)
    (hplain : ∀ x ∈ (if c = '+' ∨ c = '-' then cs else c :: cs), x.isDigit = true ∨ x = '.')
    (hscan : scanMantissa false {} (if c = '+' ∨ c = '-' then cs else c :: cs) = (st, []))
    (hsd : st.sawdigits = true) (hus : st.underscores = false) :
    readFloat (c :: cs) = some ⟨decide (c = '-'), false, st.mantissa,
      if st.mantissa ≠ 0 then (if st.sawdot then st.dp else (st.nd : Int)) - (st.nd : Int) else 0,
      []⟩ := by
  unfold readFloat
  simp only
  generalize (if c = '+' ∨ c = '-' then cs else c :: cs) = s₁ at hplain hscan
  have hx : ∀ a b x u, s₁ = a :: b :: x :: u → b ≠ 'x' ∧ b ≠ 'X' := by
    intro a b x u h
    have hb : b.isDigit = true ∨ b = '.' := hplain b (by simp [h])
    constructor
    · rintro rfl
      revert hb
      decide
    · rintro rfl
      revert hb
      decide
  rcases s₁ with _ | ⟨a, _ | ⟨b, _ | ⟨x, u⟩⟩⟩
  · simp [hscan, hsd, hus, finishFloat]
  · simp [hscan, hsd, hus, finishFloat]
  · simp [hscan, hsd, hus, finishFloat]
  · obtain ⟨h1, h2⟩ := hx a b x u rfl
    simp [h1, h2, hscan, hsd, hus, finishFloat]

/-- No text that starts with a decimal digit, or with `-` and a decimal digit,
is one of the special values. -/
theorem special_plain (neg : Bool) (d : Char) (t : List Char) (hd : d.isDigit = true) :
    special ((if neg then ['-'] else []) ++ d :: t) = none := by
  obtain ⟨-, -, h1, h2, h3, h4, h5, h6, -, -, -, -, h7⟩ := isDigit_plain d hd
  cases neg with
  | true =>
    simp only [if_true, List.singleton_append, special, or_true, infinityLen,
      commonPrefixLenIgnoreCase, String.data]
    simp [h7]
  | false =>
    simp only [Bool.false_eq_true, if_false, List.nil_append, special]
    simp [h1, h2, h3, h4, h5, h6]

/-- The value that `ParseFloat` gives a plain decimal text, an optional `-`, digits
and, after a point, more digits: the double nearest to the number written, when
that is finite and the digits are not all `0`. -/
theorem ParseFloat_plain (neg : Bool) (ip fp : List Char) (n : Nat)
    (hip : ∀ c ∈ ip, c.isDigit = true) (hfp : ∀ c ∈ fp, c.isDigit = true) (hne : ip ≠ [])
    (hM : decimalValue (ip ++ fp) ≠ 0)
    (hval : Float64.round neg (decimalValue (ip ++ fp) * Float64.scale) (10 ^ fp.length) =
      .fin neg n) :
    ParseFloat (String.mk ((if neg then ['-'] else []) ++ ip ++
      (if fp = [] then [] else '.' :: fp))) = (.fin neg n, none) := by
  obtain ⟨st, h1, h2, h3, h4, h5⟩ := scanMantissa_plain ip fp hip hfp hne
  obtain ⟨d, ip', rfl⟩ := List.exists_cons_of_ne_nil hne
  have hd : d.isDigit = true := hip d (List.mem_cons_self _ _)
  have hplain : ∀ x ∈ d :: ip' ++ (if fp = [] then [] else '.' :: fp),
      x.isDigit = true ∨ x = '.' := by
    intro x hx
    rcases List.mem_append.1 hx with hx | hx
    · exact Or.inl (hip x hx)
    · split_ifs at hx with hf
      · simp at hx
      · rcases List.mem_cons.1 hx with hx | hx
        · exact Or.inr hx
        · exact Or.inl (hfp x hx)
  have hread : readFloat ((if neg then ['-'] else []) ++ (d :: ip') ++
      (if fp = [] then [] else '.' :: fp)) = some ⟨neg, false, decimalValue (d :: ip' ++ fp),
        -(fp.length : Int), []⟩ := by
    obtain ⟨-, -, hp, hm, -⟩ := isDigit_plain d hd
    cases neg with
    | true =>
      have := readFloat_of_scan '-' (d :: ip' ++ (if fp = [] then [] else '.' :: fp)) st
        (by simpa using hplain) (by simpa using h1) h2 h3
      rw [h4, if_pos hM, h5] at this
      simpa using this
    | false =>
      have := readFloat_of_scan d (ip' ++ (if fp = [] then [] else '.' :: fp)) st
        (by simpa [hp, hm] using hplain) (by simpa [hp, hm] using h1) h2 h3
      rw [h4, if_pos hM, h5] at this
      simpa [hm] using this
  have hfloat : floatOfParts ⟨neg, false, decimalValue (d :: ip' ++ fp), -(fp.length : Int), []⟩ =
      .fin neg n := by
    unfold floatOfParts
    simp only [Bool.false_eq_true, if_false]
    by_cases hl : fp.length = 0
    · rw [hl] at hval ⊢
      rw [pow_zero] at hval
      simp only [Nat.cast_zero, neg_zero, le_refl, if_true, Int.toNat_zero, pow_zero, mul_one]
      exact hval
    · have hneg : ¬ (0 : Int) ≤ -(fp.length : Int) := by omega
      rw [if_neg hneg]
      have : (-(-(fp.length : Int))).toNat = fp.length := by omega
      rw [this]
      exact hval
  unfold ParseFloat
  simp only
  rw [List.append_assoc, List.cons_append, special_plain neg d _ hd]
  rw [List.append_assoc, List.cons_append] at hread
  simp only [hread, hfloat, ne_eq, not_true_eq_false, if_false, Float64.IsInf,
    Bool.false_eq_true]

/-- Appending `0` digits multiplies the number written by a power of ten. -/
theorem foldl_digits_zeros (k a : Nat) :
    (List.replicate k '0').foldl (fun acc c => acc * 10 + (c.toNat - '0'.toNat)) a = a * 10 ^ k := by
  induction k generalizing a with
  | zero => simp
  | succ k ih =>
    rw [List.replicate_succ, List.foldl_cons, ih]
    simp only [Nat.sub_self, Nat.add_zero]
    ring

/-- The plain text of a decimal with a positive mantissa: digits, the first not
`0` unless it stands alone, and after a point as many digits as the exponent
is below zero; the digits write the mantissa (times the power of ten when the
exponent is not negative). -/
theorem plainDecimal_shape (m : Nat) (e : Int) (hm : m ≠ 0) :
    ∃ ip fp, plainDecimal m e = ip ++ (if fp = [] then [] else '.' :: fp) ∧ ip ≠ [] ∧
      (∀ c ∈ ip, c.isDigit = true) ∧ (∀ c ∈ fp, c.isDigit = true) ∧
      (ip = ['0'] ∨ ip.head? ≠ some '0') ∧
      (0 ≤ e → fp = [] ∧ decimalValue ip = m * 10 ^ e.toNat) ∧
      (e < 0 → fp.length = (-e).toNat ∧ decimalValue (ip ++ fp) = m) := by
  obtain ⟨hdig, hval, hne, hhead⟩ := toDigits_spec m
  have hzero : ('0' : Char).isDigit = true := by decide
  unfold plainDecimal
  simp only [hm, if_false]
  by_cases he : 0 ≤ e
  · rw [if_pos he]
    refine ⟨Nat.toDigits 10 m ++ List.replicate e.toNat '0', [], by simp, by simp [hne], ?_,
      by simp, Or.inr ?_, fun _ => ⟨rfl, ?_⟩, fun h => absurd he (by omega)⟩
    · intro c hc
      rcases List.mem_append.1 hc with hc | hc
      · exact hdig c hc
      · rw [(List.mem_replicate.1 hc).2]
        exact hzero
    · rw [List.head?_append_of_ne_nil _ hne]
      exact hhead hm
    · rw [decimalValue, List.foldl_append, foldl_digits_zeros]
      rw [decimalValue] at hval
      rw [hval]
  · rw [if_neg he]
    have hk : 0 < (-e).toNat := by omega
    by_cases hlen : (-e).toNat < (Nat.toDigits 10 m).length
    · rw [if_pos hlen]
      have hdrop : (List.drop ((Nat.toDigits 10 m).length - (-e).toNat) (Nat.toDigits 10 m)).length =
          (-e).toNat := by
        rw [List.length_drop]
        omega
      have hdne : List.drop ((Nat.toDigits 10 m).length - (-e).toNat) (Nat.toDigits 10 m) ≠ [] := by
        intro h
        rw [h] at hdrop
        simp at hdrop
        omega
      have htne : List.take ((Nat.toDigits 10 m).length - (-e).toNat) (Nat.toDigits 10 m) ≠ [] := by
        intro h
        have := congrArg List.length h
        rw [List.length_take] at this
        simp at this
        omega
      refine ⟨List.take ((Nat.toDigits 10 m).length - (-e).toNat) (Nat.toDigits 10 m),
        List.drop ((Nat.toDigits 10 m).length - (-e).toNat) (Nat.toDigits 10 m),
        by rw [if_neg hdne], htne, fun c hc => hdig c (List.mem_of_mem_take hc),
        fun c hc => hdig c (List.mem_of_mem_drop hc), Or.inr ?_, fun h => absurd h he,
        fun _ => ⟨hdrop, by rw [List.take_append_drop]; exact hval⟩⟩
      have := hhead hm
      rw [← List.take_append_drop ((Nat.toDigits 10 m).length - (-e).toNat) (Nat.toDigits 10 m),
        List.head?_append_of_ne_nil _ htne] at this
      exact this
    · rw [if_neg hlen]
      have hfne : List.replicate ((-e).toNat - (Nat.toDigits 10 m).length) '0' ++ Nat.toDigits 10 m ≠
          [] := by simp [hne]
      refine ⟨['0'], List.replicate ((-e).toNat - (Nat.toDigits 10 m).length) '0' ++
        Nat.toDigits 10 m, by rw [if_neg hfne]; rfl, by simp, by simp [hzero], ?_, Or.inl rfl,
        fun h => absurd h he, fun _ => ⟨?_, ?_⟩⟩
      · intro c hc
        rcases List.mem_append.1 hc with hc | hc
        · rw [(List.mem_replicate.1 hc).2]
          exact hzero
        · exact hdig c hc
      · rw [List.length_append, List.length_replicate]
        omega
      · rw [decimalValue, List.singleton_append, List.foldl_cons, List.foldl_append,
          foldl_digits_zeros, Nat.zero_mul, Nat.sub_self, Nat.zero_add, Nat.zero_mul]
        exact hval

/-- The shortest text of a finite double other than zero is a plain decimal that
denotes it: an optional `-`, digits, and possibly a point and more digits, such
that the number written rounds to the double. -/
theorem formatFloat_plain (neg : Bool) (n : Nat) (hn : n ≠ 0)
    (hrep : Float64.isDouble (.fin neg n) = true) :
    ∃ ip fp, FormatFloat (.fin neg n) (-1) = String.mk ((if neg then ['-'] else []) ++ ip ++
        (if fp = [] then [] else '.' :: fp)) ∧ ip ≠ [] ∧
      (∀ c ∈ ip, c.isDigit = true) ∧ (∀ c ∈ fp, c.isDigit = true) ∧
      (ip = ['0'] ∨ ip.head? ≠ some '0') ∧ decimalValue (ip ++ fp) ≠ 0 ∧
      Float64.round neg (decimalValue (ip ++ fp) * Float64.scale) (10 ^ fp.length) =
        .fin neg n := by
  have hrep2 : Float64.round false n 1 = .fin false n :=
    Float64.round_sign neg false n 1 n (eq_of_beq hrep)
  have hm := shortestDecimal_ne_zero n hn
  have hr := shortestDecimal_rounds n hn hrep2
  obtain ⟨ip, fp, h1, h2, h3, h4, h5, h6, h7⟩ :=
    plainDecimal_shape (shortestDecimal n).1 (shortestDecimal n).2 hm
  refine ⟨ip, fp, ?_, h2, h3, h4, h5, ?_, ?_⟩
  · simp only [FormatFloat, Int.reduceNeg, Int.reduceLT, if_true]
    rw [h1, List.append_assoc]
  · by_cases he : 0 ≤ (shortestDecimal n).2
    · obtain ⟨g1, g2⟩ := h6 he
      rw [g1, List.append_nil, g2]
      exact Nat.mul_ne_zero hm (pow_pos (by norm_num) _).ne'
    · rw [(h7 (by omega)).2]
      exact hm
  · apply Float64.round_sign false neg
    unfold decimalRoundsTo at hr
    by_cases he : 0 ≤ (shortestDecimal n).2
    · obtain ⟨g1, g2⟩ := h6 he
      rw [if_pos he] at hr
      rw [g1, List.append_nil, g2, List.length_nil, pow_zero]
      exact eq_of_beq hr
    · obtain ⟨g1, g2⟩ := h7 (by omega)
      rw [if_neg he] at hr
      rw [g1, g2]
      exact eq_of_beq hr

/-- C8: `floatOrNull.MarshalJSON` returns an error, and no bytes, exactly for NaN
and the infinities; for a finite value it returns the bytes `null` exactly when
the value is a zero of either sign, and otherwise the text of
`strconv.FormatFloat`, which is neither `0` nor `null`.  For a `float64`, that
text is a plain decimal of the value: an optional `-`, digits without a
needless leading `0` and, possibly, a point and more digits, no exponent; the
number written rounds to the value, and `strconv.ParseFloat` reads the text
back as the value. -/
theorem floatOrNull_MarshalJSON_spec (f : floatOrNull) :
    ((floatOrNull.MarshalJSON f).2 ≠ none ↔ Float64.IsNaN f = true ∨ Float64.IsInf f = true) ∧
      ((floatOrNull.MarshalJSON f).2 ≠ none → (floatOrNull.MarshalJSON f).1 = none) ∧
      (Float64.IsNaN f = false → Float64.IsInf f = false →
        ((floatOrNull.MarshalJSON f).1 = some "null" ↔ Float64.isZero f = true) ∧
        (Float64.isZero f = false →
          floatOrNull.MarshalJSON f = (some (FormatFloat f (-1)), none) ∧
            FormatFloat f (-1) ≠ "0" ∧ FormatFloat f (-1) ≠ "null" ∧
            (Float64.isDouble f = true →
              ParseFloat (FormatFloat f (-1)) = (f, none) ∧
              ∃ neg ip fp,
                FormatFloat f (-1) = String.mk ((if neg then ['-'] else []) ++ ip ++
                  (if fp = [] then [] else '.' :: fp)) ∧
                ip ≠ [] ∧ (∀ c ∈ ip, c.isDigit = true) ∧ (∀ c ∈ fp, c.isDigit = true) ∧
                (ip = ['0'] ∨ ip.head? ≠ some '0') ∧
                Float64.round neg (decimalValue (ip ++ fp) * Float64.scale) (10 ^ fp.length) =
                  f))) := by
  obtain ⟨h1, h2, h3⟩ := floatOrNull_MarshalJSON_cases f
  refine ⟨h1, h2, fun hnan hinf => ⟨(h3 hnan hinf).1, fun hz => ?_⟩⟩
  obtain ⟨g1, g2, g3⟩ := (h3 hnan hinf).2 hz
  refine ⟨g1, g2, g3, fun hd => ?_⟩
  cases f with
  | nan => exact absurd hnan (by decide)
  | inf neg => exact absurd hinf (by simp [Float64.IsInf])
  | fin neg n =>
    have hn : n ≠ 0 := by
      rintro rfl
      exact absurd hz (by simp [Float64.isZero])
    obtain ⟨ip, fp, k1, k2, k3, k4, k5, k6, k7⟩ := formatFloat_plain neg n hn hd
    refine ⟨?_, neg, ip, fp, k1, k2, k3, k4, k5, k7⟩
    rw [k1]
    exact ParseFloat_plain neg ip fp n k3 k4 k2 k6 k7

/-- The double `26.53`: `MarshalJSON` returns the text `26.53`, which
`ParseFloat` reads back as that double, and the double `-0.05` is written
`-0.05`. -/
theorem floatOrNull_MarshalJSON_spec_witness :
    Float64.isDouble (Float64.ofRatio 2653 100) = true ∧
      floatOrNull.MarshalJSON (Float64.ofRatio 2653 100) = (some "26.53", none) ∧
      ParseFloat "26.53" = (Float64.ofRatio 2653 100, none) := by
  have h := floatOrNull_MarshalJSON_spec (Float64.ofRatio 2653 100)
  have h1 := (h.2.2 (by decide!) (by decide!)).2 (by decide!)
  have hd : Float64.isDouble (Float64.ofRatio 2653 100) = true := by decide!
  have ht : FormatFloat (Float64.ofRatio 2653 100) (-1) = "26.53" := by decide!
  have h2 := (h1.2.2.2 hd).1
  rw [ht] at h2
  exact ⟨hd, h1.1.trans (by rw [ht]), h2⟩

end Ccw
